import Mathlib

/-!
Shallow embedding of the semantic validator in `plan/validator.go` of this
repository, together with theorems settling the frozen claims about it.

The embedding follows the Go source function by function.  Go pointer types
that the source checks against `nil` become `Option`; Go slices become
`List`; Go `uint64` / `int` become `Nat` / `Int` with explicit bounds where
overflow matters.  A Go runtime panic (out-of-range index, nil dereference)
is modelled by returning `none` in an outer `Option` layer, so every
definition is total and executable.
-/

namespace Plan

/-! ### Collaborator constants (mysql package, math package)

These constants live in the `mysql`/`math`/`types` packages of the
repository, outside the given sources.  Their values are the standard
MySQL protocol type codes and limits the spec describes. -/

def mysql.TypeTiny : Nat := 1
def mysql.TypeShort : Nat := 2
def mysql.TypeLong : Nat := 3
def mysql.TypeFloat : Nat := 4
def mysql.TypeDouble : Nat := 5
def mysql.TypeLonglong : Nat := 8
def mysql.TypeInt24 : Nat := 9
def mysql.TypeDatetime : Nat := 12
def mysql.TypeVarchar : Nat := 15
def mysql.TypeSet : Nat := 248
def mysql.TypeBlob : Nat := 252
def mysql.TypeString : Nat := 254

/-- Modelled from the spec: fixed character-count ceiling for fixed-length
character columns. -/
def mysql.MaxFieldCharLength : Int := 255

/-- Modelled from the spec: fixed byte ceiling for variable-length character
columns, divided by the charset's maximum bytes per character. -/
def mysql.MaxFieldVarCharLength : Int := 65535

/-- Modelled from the spec: fixed precision ceiling for double-precision
floating columns. -/
def mysql.PrecisionForDouble : Int := 255

/-- Modelled from the spec: fixed ceiling on the number of enumerated
members of a SET column. -/
def mysql.MaxTypeSetMembers : Nat := 64

/-- Modelled from the spec: the process-wide default charset used when a
column declares none. -/
def mysql.DefaultCharset : String := "utf8"

def math.MaxUint32 : Int := 4294967295

def math.MaxUint64 : Nat := 18446744073709551615

/-- The sentinel `types.UnspecifiedLength` used for a column with no
declared display length. -/
def types.UnspecifiedLength : Int := -1

/-- The lower-cased code of one character (ASCII fold). -/
def lowerCode (c : Char) : Nat :=
  if 65 ≤ c.toNat ∧ c.toNat ≤ 90 then c.toNat + 32 else c.toNat

/-- Character-by-character case-insensitive comparison. -/
def eqFoldChars : List Char → List Char → Bool
  | [], [] => true
  | a :: as, b :: bs => (lowerCode a == lowerCode b) && eqFoldChars as bs
  | _, _ => false

/-- Case-insensitive string comparison, modelling `strings.EqualFold`
(all strings the validator compares — engine names — are plain ASCII,
where Go's Unicode simple fold coincides with the ASCII fold). -/
def stringsEqualFold (a b : String) : Bool := eqFoldChars a.data b.data

/-! ### AST data model (ast package) -/

/-- A case-preserving identifier: `O` is the original spelling, `L` the
lowercased form used for comparisons (`model.CIStr`). -/
structure CIStr where
  o : String
  l : String
deriving DecidableEq, Repr

structure ColumnName where
  name : CIStr
deriving DecidableEq, Repr

structure IndexColName where
  column : ColumnName
deriving DecidableEq, Repr

/-- The value carried by an expression, as observed through
`GetDatum`/`GetValue`: the validator only distinguishes NULL, `uint64`
payloads and everything else. -/
inductive Datum where
  | null
  | uint64 (n : Nat)
  | other
deriving DecidableEq, Repr

def Datum.IsNull : Datum → Bool
  | .null => true
  | _ => false

inductive ColumnOptionTp where
  | primaryKey
  | notNull
  | autoIncrement
  | defaultValue
  | uniqKey
  | comment
deriving DecidableEq, Repr

/-- A column option: its kind and the datum of its attached expression
(the validator reads the expression only through `GetDatum`). -/
structure ColumnOption where
  tp : ColumnOptionTp
  expr : Datum
deriving DecidableEq, Repr

/-- A field type descriptor (`types.FieldType`): MySQL type code, declared
display length, charset name, and SET/ENUM member list. -/
structure FieldType where
  tp : Nat
  flen : Int
  charset : String
  elems : List String
deriving DecidableEq, Repr

/-- A column definition.  `tp` is a pointer in Go (`*types.FieldType`);
`none` models a nil pointer. -/
structure ColumnDef where
  name : ColumnName
  tp : Option FieldType
  options : List ColumnOption
deriving DecidableEq, Repr

inductive ConstraintTp where
  | primaryKey
  | key
  | index
  | uniq
  | uniqKey
  | uniqIndex
  | foreignKey
  | fulltext
deriving DecidableEq, Repr

structure Constraint where
  tp : ConstraintTp
  keys : List IndexColName
deriving DecidableEq, Repr

inductive TableOptionTp where
  | engine
  | dashbaseConnection
  | autoIncrement
  | comment
deriving DecidableEq, Repr

structure TableOption where
  tp : TableOptionTp
  strValue : String
deriving DecidableEq, Repr

structure TableName where
  name : CIStr
deriving DecidableEq, Repr

/-- The payload of a `CreateTableStmt` node.  `table` is a pointer in Go;
`none` models nil. -/
structure CreateTableData where
  table : Option TableName
  cols : List ColumnDef
  constraints : List Constraint
  options : List TableOption
deriving DecidableEq, Repr

structure CreateIndexData where
  indexColNames : List IndexColName
deriving DecidableEq, Repr

inductive AlterSpecTp where
  | addConstraint
  | tableOption
  | otherSpec
deriving DecidableEq, Repr

/-- One `AlterTableSpec`.  The `constraint` field is dereferenced by the
source only for `addConstraint` specs, where the parser always populates
it, so it is modelled as always present. -/
structure AlterTableSpec where
  tp : AlterSpecTp
  newColumn : Option ColumnDef
  constraint : Constraint
  options : List TableOption
deriving DecidableEq, Repr

structure AlterTableData where
  specs : List AlterTableSpec
deriving DecidableEq, Repr

/-! ### Error values

One constructor per distinct error value the validator can place in its
sticky error slot, keeping the payloads the Go messages interpolate. -/

inductive Err where
  | invalidGroupFuncUse
  | wrongTableName (name : String)
  | multiplePriKey
  | columnExists (name : String)
  | tooBigDisplayWidth (col : String)
  | tooBigFieldLength (col : String) (max : Int)
  | wrongFieldSpec (col : String)
  | tooBigSet (col : String)
  | unknownCharset (cs : String)
  | syntaxErrUnexpectedParamMarker
  | invalidDefaultValue (col : String)
  | dashbaseConnRequired
  | dashbaseConnInvalid
  | dashbasePKMustBeDatetime
  | dashbasePKOneColumn
  | dashbaseConstraintNotSupported (tp : ConstraintTp)
  | dashbaseIndexOneColumn
  | dashbaseIndexMustBeText
  | dashbaseNeedPK
  | autoIncrementMustBeKey
  | incorrectColumnSpecifier (col : String)
  | alterAutoID
deriving DecidableEq, Repr

/-- Modelled from the spec: the two lookup collaborators the validator
consumes.  `getCharsetDesc` resolves a charset name to its maximum bytes
per character (`none` = unknown charset); `parseConnectionOption` is the
boolean-success Dashbase connection-string parser. -/
structure Env where
  getCharsetDesc : String → Option Nat
  parseConnectionOption : String → Bool

/-! ### Leaf checkers (straight from `plan/validator.go`) -/

/-- The inner `for j` loop of `checkDuplicateColumnName`: find a later
entry whose lowercased column name matches `x`. -/
def findDuplicateOf (x : IndexColName) : List IndexColName → Option IndexColName
  | [] => none
  | y :: rest =>
      if y.column.name.l = x.column.name.l then some y else findDuplicateOf x rest

/-- `checkDuplicateColumnName`: report the first repeated column name of an
index key list, in the source's double-loop scan order. -/
def checkDuplicateColumnName : List IndexColName → Option Err
  | [] => none
  | x :: rest =>
      match findDuplicateOf x rest with
      | some y => some (.columnExists y.column.name.o)
      | none => checkDuplicateColumnName rest

/-- The `mysql.TypeVarchar` arm of `checkFieldLengthLimitation`: resolve
the charset (falling back to the process default), divide the byte
ceiling by the charset width, compare the declared length. -/
def varcharLengthCheck (env : Env) (nm cs : String) (fl : Int) : Option Err :=
  match env.getCharsetDesc cs with
  | none => some (.unknownCharset cs)
  | some maxlen =>
      if fl ≠ types.UnspecifiedLength ∧ fl > mysql.MaxFieldVarCharLength / (maxlen : Int) then
        some (.tooBigFieldLength nm (mysql.MaxFieldVarCharLength / (maxlen : Int)))
      else none

/-- `checkFieldLengthLimitation`: per-type maximum length and cardinality
checks for one column definition. -/
def checkFieldLengthLimitation (env : Env) (colDef : ColumnDef) : Option Err :=
  match colDef.tp with
  | none => none
  | some tp =>
      if tp.flen > math.MaxUint32 then
        some (.tooBigDisplayWidth colDef.name.name.o)
      else if tp.tp = mysql.TypeString then
        if tp.flen ≠ types.UnspecifiedLength ∧ tp.flen > mysql.MaxFieldCharLength then
          some (.tooBigFieldLength colDef.name.name.o mysql.MaxFieldCharLength)
        else none
      else if tp.tp = mysql.TypeVarchar then
        varcharLengthCheck env colDef.name.name.o
          (if tp.charset.length = 0 then mysql.DefaultCharset else tp.charset) tp.flen
      else if tp.tp = mysql.TypeDouble then
        if tp.flen ≠ types.UnspecifiedLength ∧ tp.flen > mysql.PrecisionForDouble then
          some (.wrongFieldSpec colDef.name.name.o)
        else none
      else if tp.tp = mysql.TypeSet then
        if tp.elems.length > mysql.MaxTypeSetMembers then
          some (.tooBigSet colDef.name.name.o)
        else none
      else none

/-- The body of `checkAutoIncrementOp`'s first `for` loop: the first later
option that is a non-NULL default value yields the error. -/
def scanLaterDefaultValue (colName : String) : List ColumnOption → Option Err
  | [] => none
  | op :: rest =>
      if op.tp = .defaultValue ∧ ¬ op.expr.IsNull then
        some (.invalidDefaultValue colName)
      else scanLaterDefaultValue colName rest

/-- The body of `checkAutoIncrementOp`'s second `for` loop: the first later
option that is the auto-increment option yields the error. -/
def scanLaterAutoIncrement (colName : String) : List ColumnOption → Option Err
  | [] => none
  | op :: rest =>
      if op.tp = .autoIncrement then some (.invalidDefaultValue colName)
      else scanLaterAutoIncrement colName rest

/-- `checkAutoIncrementOp colDef num`: examine the option at position `num`
of the column's option list; result is `(hasAutoIncrement, err)`.  The Go
function is only called with `num` in range; an out-of-range `num` returns
`(false, none)` exactly as the two `if` conditions would fail. -/
def checkAutoIncrementOp (colDef : ColumnDef) (num : Nat) : Bool × Option Err :=
  match colDef.options.get? num with
  | none => (false, none)
  | some op =>
      if op.tp = .autoIncrement then
        if colDef.options.length = num + 1 then (true, none)
        else (true, scanLaterDefaultValue colDef.name.name.o (colDef.options.drop (num + 1)))
      else if op.tp = .defaultValue ∧ colDef.options.length ≠ num + 1 then
        if op.expr.IsNull then (false, none)
        else (false, scanLaterAutoIncrement colDef.name.name.o (colDef.options.drop (num + 1)))
      else (false, none)

/-- `isConstraintKeyTp`: does some table constraint make `colDef` a key by
being its first referenced column?  The source reads `c.Keys[0]` guarded
only by an empty-bodied `if len(c.Keys) < 1 {}`; a constraint with an empty
key list therefore panics with an out-of-range index, modelled as `none`. -/
def isConstraintKeyTp (constraints : List Constraint) (colDef : ColumnDef) : Option Bool :=
  match constraints with
  | [] => some false
  | c :: rest =>
      match c.keys.get? 0 with
      | none => none
      | some k0 =>
          if colDef.name.name.l ≠ k0.column.name.l then isConstraintKeyTp rest colDef
          else
            match c.tp with
            | .primaryKey | .key | .index | .uniq | .uniqIndex | .uniqKey => some true
            | _ => isConstraintKeyTp rest colDef

/-- `getStmtTableOption`: first table option of the given kind. -/
def getStmtTableOption (stmt : CreateTableData) (tp : TableOptionTp) : Option TableOption :=
  stmt.options.find? (fun opt => opt.tp = tp)

/-- `isEngineDashbase`: the engine table option case-insensitively equals
"Dashbase". -/
def isEngineDashbase (stmt : CreateTableData) : Bool :=
  match getStmtTableOption stmt .engine with
  | none => false
  | some opt => stringsEqualFold opt.strValue "Dashbase"

/-- `isPrimary`: 1 if the option list contains a column-level PRIMARY KEY
marker, else 0 (the source returns at the first marker). -/
def isPrimary : List ColumnOption → Nat
  | [] => 0
  | op :: rest => if op.tp = .primaryKey then 1 else isPrimary rest

/-! ### Search-engine (Dashbase) table checker

The outer `Option` layer models a Go runtime panic: `checkDashbase`
dereferences `colDef.Tp` without a nil check. -/

/-- The column loop of `checkDashbase` restricted to one column's options:
count column-level PRIMARY KEY markers and require a datetime type. -/
def dashbaseColOptsScan (colDef : ColumnDef) (opts : List ColumnOption) (pk : Nat) :
    Option (Except Err Nat) :=
  match opts with
  | [] => some (.ok pk)
  | op :: rest =>
      match op.tp with
      | .primaryKey =>
          match colDef.tp with
          | none => none
          | some ft =>
              if ft.tp ≠ mysql.TypeDatetime then some (.error .dashbasePKMustBeDatetime)
              else dashbaseColOptsScan colDef rest (pk + 1)
      | _ => dashbaseColOptsScan colDef rest pk

/-- The outer column loop of `checkDashbase`. -/
def dashbaseColsScan (cols : List ColumnDef) (pk : Nat) : Option (Except Err Nat) :=
  match cols with
  | [] => some (.ok pk)
  | c :: rest =>
      match dashbaseColOptsScan c c.options pk with
      | none => none
      | some (.error e) => some (.error e)
      | some (.ok pk1) => dashbaseColsScan rest pk1

/-- The inner lookup loop of `checkDashbase`'s constraint pass: find the
first column whose name matches the constraint's first key and require its
type code to be `code`, reporting `e` otherwise. -/
def dashbaseCheckColType (cols : List ColumnDef) (k0 : IndexColName) (code : Nat) (e : Err) :
    Option (Option Err) :=
  match cols with
  | [] => some none
  | colDef :: rest =>
      if colDef.name.name.l = k0.column.name.l then
        match colDef.tp with
        | none => none
        | some ft => if ft.tp ≠ code then some (some e) else some none
      else dashbaseCheckColType rest k0 code e

/-- The constraint loop of `checkDashbase`. -/
def dashbaseConsScan (cols : List ColumnDef) (cons : List Constraint) (pk : Nat) :
    Option (Except Err Nat) :=
  match cons with
  | [] => some (.ok pk)
  | c :: rest =>
      match c.tp with
      | .primaryKey =>
          match c.keys with
          | [k0] =>
              match dashbaseCheckColType cols k0 mysql.TypeDatetime .dashbasePKMustBeDatetime with
              | none => none
              | some (some e) => some (.error e)
              | some none => dashbaseConsScan cols rest (pk + 1)
          | _ => some (.error .dashbasePKOneColumn)
      | .uniq | .uniqKey | .uniqIndex => some (.error (.dashbaseConstraintNotSupported c.tp))
      | .key | .index =>
          match c.keys with
          | [k0] =>
              match dashbaseCheckColType cols k0 mysql.TypeBlob .dashbaseIndexMustBeText with
              | none => none
              | some (some e) => some (.error e)
              | some none => dashbaseConsScan cols rest pk
          | _ => some (.error .dashbaseIndexOneColumn)
      | _ => dashbaseConsScan cols rest pk

/-- `validator.checkDashbase`: the extra structural constraints for tables
whose engine option names the Dashbase engine.  Result `none` is a panic;
`some r` says the check assigns `r = some e` to the error slot or leaves
it untouched (`r = none`). -/
def checkDashbase (env : Env) (stmt : CreateTableData) : Option (Option Err) :=
  if ¬ isEngineDashbase stmt then some none
  else
    match getStmtTableOption stmt .dashbaseConnection with
    | none => some (some .dashbaseConnRequired)
    | some opt =>
        if ¬ env.parseConnectionOption opt.strValue then some (some .dashbaseConnInvalid)
        else
          match dashbaseColsScan stmt.cols 0 with
          | none => none
          | some (.error e) => some (some e)
          | some (.ok pk1) =>
              match dashbaseConsScan stmt.cols stmt.constraints pk1 with
              | none => none
              | some (.error e) => some (some e)
              | some (.ok pk2) =>
                  if pk2 = 0 then some (some .dashbaseNeedPK) else some none

/-! ### Auto-increment policy checker -/

/-- The permitted declared types of an auto-increment column (the `case`
arm of `checkAutoIncrement`'s final `switch`). -/
def isAutoIncPermittedType (code : Nat) : Bool :=
  code == mysql.TypeTiny || code == mysql.TypeShort || code == mysql.TypeLong ||
  code == mysql.TypeFloat || code == mysql.TypeDouble || code == mysql.TypeLonglong ||
  code == mysql.TypeInt24

/-- The inner option loop of `checkAutoIncrement` for one column: run
`checkAutoIncrementOp` at every position, accumulate `hasAutoIncrement`
and the cross-column `isKey` flag, abort on the first option error. -/
def autoIncColOptsScan (colDef : ColumnDef) (i : Nat) (opts : List ColumnOption)
    (hasAI isKey : Bool) : Except Err (Bool × Bool) :=
  match opts with
  | [] => .ok (hasAI, isKey)
  | op :: rest =>
      match checkAutoIncrementOp colDef i with
      | (_, some e) => .error e
      | (ok, none) =>
          autoIncColOptsScan colDef (i + 1) rest (hasAI || ok)
            (isKey || (op.tp == .primaryKey || op.tp == .uniqKey))

/-- The outer column loop of `checkAutoIncrement`: thread `isKey`, count
the columns bearing the auto-increment option, remember the last one. -/
def autoIncColsScan (cols : List ColumnDef) (isKey : Bool) (count : Nat)
    (aiCol : Option ColumnDef) : Except Err (Bool × Nat × Option ColumnDef) :=
  match cols with
  | [] => .ok (isKey, count, aiCol)
  | c :: rest =>
      match autoIncColOptsScan c 0 c.options false isKey with
      | .error e => .error e
      | .ok (hasAI, isKey1) =>
          if hasAI then autoIncColsScan rest isKey1 (count + 1) (some c)
          else autoIncColsScan rest isKey1 count aiCol

/-- `validator.checkAutoIncrement`.  Result `none` is a panic (empty key
list reached in `isConstraintKeyTp`, or a nil `Tp` on the auto-increment
column); `some r` is the check's net assignment to the error slot.  The
key-requirement error is assigned first and the type-restriction error
overwrites it, exactly as the two consecutive assignments do in the Go. -/
def checkAutoIncrement (stmt : CreateTableData) : Option (Option Err) :=
  match autoIncColsScan stmt.cols false 0 none with
  | .error e => some (some e)
  | .ok (isKey, count, aiCol) =>
      if count < 1 then some none
      else
        match aiCol with
        | none => some none
        | some col =>
            match (if isKey then some true else isConstraintKeyTp stmt.constraints col) with
            | none => none
            | some isKey1 =>
                let autoIncrementMustBeKey :=
                  ¬ stmt.options.any
                    (fun opt => opt.tp == .engine && stringsEqualFold opt.strValue "MyISAM")
                let keyErr : Option Err :=
                  if (autoIncrementMustBeKey ∧ isKey1 = false) ∨ count > 1 then
                    some .autoIncrementMustBeKey
                  else none
                match col.tp with
                | none => none
                | some ft =>
                    if isAutoIncPermittedType ft.tp then some keyErr
                    else some (some (.incorrectColumnSpecifier col.name.name.o))

/-! ### CreateTable / CreateIndex / AlterTable grammar checkers -/

/-- The column loop of `checkCreateTableGrammar`: field-length check, then
count columns bearing a PRIMARY KEY marker, erroring past one. -/
def createTableColsScan (env : Env) (cols : List ColumnDef) (countPrimaryKey : Nat) :
    Except Err Nat :=
  match cols with
  | [] => .ok countPrimaryKey
  | colDef :: rest =>
      match checkFieldLengthLimitation env colDef with
      | some e => .error e
      | none =>
          let cnt := countPrimaryKey + isPrimary colDef.options
          if cnt > 1 then .error .multiplePriKey
          else createTableColsScan env rest cnt

/-- The constraint loop of `checkCreateTableGrammar`. -/
def createTableConsScan (cons : List Constraint) (countPrimaryKey : Nat) : Option Err :=
  match cons with
  | [] => none
  | c :: rest =>
      match c.tp with
      | .key | .index | .uniq | .uniqKey | .uniqIndex =>
          match checkDuplicateColumnName c.keys with
          | some e => some e
          | none => createTableConsScan rest countPrimaryKey
      | .primaryKey =>
          if countPrimaryKey > 0 then some .multiplePriKey
          else
            match checkDuplicateColumnName c.keys with
            | some e => some e
            | none => createTableConsScan rest (countPrimaryKey + 1)
      | _ => createTableConsScan rest countPrimaryKey

/-- `validator.checkCreateTableGrammar`. -/
def checkCreateTableGrammar (env : Env) (stmt : CreateTableData) : Option Err :=
  match stmt.table with
  | none => some (.wrongTableName "")
  | some t =>
      if t.name.o = "" then some (.wrongTableName "")
      else
        match createTableColsScan env stmt.cols 0 with
        | .error e => some e
        | .ok cnt => createTableConsScan stmt.constraints cnt

/-- `validator.checkCreateIndexGrammar`: the duplicate-column scan's result
is assigned to the error slot unconditionally (even when it is `none`). -/
def checkCreateIndexGrammar (stmt : CreateIndexData) : Option Err :=
  checkDuplicateColumnName stmt.indexColNames

/-- `validator.checkAlterTableGrammar`, threaded over the value `cur` held
in the error slot on entry: the duplicate-column result of an
index/unique `ADD CONSTRAINT` spec is written to the slot even when nil. -/
def checkAlterTableGrammar (env : Env) (cur : Option Err) : List AlterTableSpec → Option Err
  | [] => cur
  | spec :: rest =>
      match (match spec.newColumn with
             | some col => checkFieldLengthLimitation env col
             | none => none) with
      | some e => some e
      | none =>
          match spec.tp with
          | .addConstraint =>
              match spec.constraint.tp with
              | .key | .index | .uniq | .uniqIndex | .uniqKey =>
                  match checkDuplicateColumnName spec.constraint.keys with
                  | some e => some e
                  | none => checkAlterTableGrammar env none rest
              | _ => checkAlterTableGrammar env cur rest
          | .tableOption =>
              if spec.options.any (fun opt => opt.tp == .autoIncrement) then some .alterAutoID
              else checkAlterTableGrammar env cur rest
          | .otherSpec => checkAlterTableGrammar env cur rest

/-! ### AST nodes and the traversal controller

The `ast` package's node types and their `Accept` methods are not among
the given sources; the tree shape and the visitor protocol below are
modelled from the spec (single depth-first pre/post-order walk, children
skipped when a pre-check errors, walk stopped at the first error). -/

mutual
/-- Modelled from the spec: the closed set of node variants the validator
dispatches on.  `nilExpr` models a nil `ExprNode` pointer (a `LIMIT`
clause with no count or no offset).  Statement payloads (columns,
constraints, table options) are data, not visited child nodes; every
other variant is `other`, which triggers no check. -/
inductive Node where
  | nilExpr
  | valueExpr (d : Datum)
  | paramMarkerExpr
  | aggregateFuncExpr (args : NodeForest)
  | limit (count offset : Node)
  | createTableStmt (stmt : CreateTableData)
  | createIndexStmt (stmt : CreateIndexData)
  | alterTableStmt (stmt : AlterTableData)
  | other (children : NodeForest)
deriving DecidableEq

/-- Modelled from the spec: an ordered list of sibling child nodes. -/
inductive NodeForest where
  | nil
  | cons (head : Node) (tail : NodeForest)
deriving DecidableEq
end



/-- The validator state (`type validator struct`): sticky error slot,
unused wildcard counter, prepare-mode flag, aggregate-nesting flag. -/
structure Validator where
  err : Option Err
  wildCardCount : Nat
  inPrepare : Bool
  inAggregate : Bool
deriving Repr

/-- The effect of a check on the sticky error slot: an assignment `some e`
overwrites the slot, `none` (no assignment) leaves it unchanged. -/
def assignErr (slot r : Option Err) : Option Err :=
  match r with
  | some e => some e
  | none => slot

/-- `x.Count.GetValue().(uint64)` with the failed-assertion value 0: only a
`ValueExpr` holding a `uint64` datum yields its payload. -/
def getUint64Value : Node → Nat
  | .valueExpr (.uint64 n) => n
  | _ => 0

/-- The offset value the Limit clamp computes: 0 for a nil `Offset`
expression, otherwise its `uint64` value (0 when the type assertion
fails). -/
def limitOffsetValue : Node → Nat
  | .nilExpr => 0
  | o => getUint64Value o

/-- `SetValue` on the count expression: rewrite the datum of a
`ValueExpr`; any other node is left unchanged (the source only reaches
this after excluding parameter markers). -/
def setUint64Value : Node → Nat → Node
  | .valueExpr _, v => .valueExpr (.uint64 v)
  | n, _ => n

/-- `validator.Enter`: pre-order dispatch.  Returns the skip-children flag
and the updated state; the node itself is returned unchanged by the Go
code. -/
def Enter (env : Env) (n : Node) (s : Validator) : Bool × Validator :=
  match n with
  | .aggregateFuncExpr _ =>
      if s.inAggregate then (true, { s with err := some .invalidGroupFuncUse })
      else (false, { s with inAggregate := true })
  | .createTableStmt stmt =>
      let e := assignErr s.err (checkCreateTableGrammar env stmt)
      (e.isSome, { s with err := e })
  | .createIndexStmt stmt =>
      let e := checkCreateIndexGrammar stmt
      (e.isSome, { s with err := e })
  | .alterTableStmt stmt =>
      let e := checkAlterTableGrammar env s.err stmt.specs
      (e.isSome, { s with err := e })
  | _ => (false, s)

/-- `validator.Leave`: post-order dispatch.  Returns the (possibly
rewritten) node, the `ok` flag (`v.err == nil`, or `false` from the bare
`return` of the parameter-marker arm), and the updated state.  Result
`none` is a panic inside `checkDashbase`/`checkAutoIncrement`. -/
def Leave (env : Env) (n : Node) (s : Validator) : Option (Node × Bool × Validator) :=
  match n with
  | .nilExpr =>
      -- A nil expression pointer is never visited by the Go walk; its
      -- visit is modelled as a no-op so that the Limit node may hand both
      -- children to `accept` unconditionally.
      some (n, true, s)
  | .aggregateFuncExpr _ =>
      some (n, s.err.isNone, { s with inAggregate := false })
  | .createTableStmt stmt =>
      match checkDashbase env stmt with
      | none => none
      | some d =>
          match checkAutoIncrement stmt with
          | none => none
          | some a =>
              let e := assignErr (assignErr s.err d) a
              some (n, e.isNone, { s with err := e })
  | .paramMarkerExpr =>
      if ¬ s.inPrepare then
        some (n, false, { s with err := some .syntaxErrUnexpectedParamMarker })
      else some (n, s.err.isNone, s)
  | .limit count offset =>
      match count with
      | .nilExpr => some (n, s.err.isNone, s)
      | .paramMarkerExpr => some (n, s.err.isNone, s)
      | c =>
          let cnt := getUint64Value c
          let off := limitOffsetValue offset
          if cnt > math.MaxUint64 - off then
            some (.limit (setUint64Value c (math.MaxUint64 - off)) offset, s.err.isNone, s)
          else some (n, s.err.isNone, s)
  | _ => some (n, s.err.isNone, s)

mutual
/-- Modelled from the spec: the depth-first `Accept` walk.  `Enter` first;
on skip-children, `Leave` immediately; otherwise visit the children in
order, aborting (without `Leave`) when a child returns `ok = false`; then
`Leave`.  Child nodes are updated in place in the Go, so an aborting
parent still carries the children already visited. -/
def accept (env : Env) (n : Node) (s : Validator) : Option (Node × Bool × Validator) :=
  match Enter env n s with
  | (true, s1) => Leave env n s1
  | (false, s1) =>
      match n with
      | .aggregateFuncExpr args =>
          match acceptForest env args s1 with
          | none => none
          | some (args1, true, s2) => Leave env (.aggregateFuncExpr args1) s2
          | some (args1, false, s2) => some (.aggregateFuncExpr args1, false, s2)
      | .other children =>
          match acceptForest env children s1 with
          | none => none
          | some (children1, true, s2) => Leave env (.other children1) s2
          | some (children1, false, s2) => some (.other children1, false, s2)
      | .limit count offset =>
          match accept env count s1 with
          | none => none
          | some (c1, false, s2) => some (.limit c1 offset, false, s2)
          | some (c1, true, s2) =>
              match accept env offset s2 with
              | none => none
              | some (o1, false, s3) => some (.limit c1 o1, false, s3)
              | some (o1, true, s3) => Leave env (.limit c1 o1) s3
      | m => Leave env m s1

/-- Modelled from the spec: visit a sibling list left to right, stopping
at the first child whose `Accept` returns `ok = false`. -/
def acceptForest (env : Env) (f : NodeForest) (s : Validator) :
    Option (NodeForest × Bool × Validator) :=
  match f with
  | .nil => some (.nil, true, s)
  | .cons n rest =>
      match accept env n s with
      | none => none
      | some (n1, false, s1) => some (.cons n1 rest, false, s1)
      | some (n1, true, s1) =>
          match acceptForest env rest s1 with
          | none => none
          | some (rest1, ok, s2) => some (.cons n1 rest1, ok, s2)
end

/-- `Validate`: construct a fresh validator state, run the walk, return
the sticky error and the (possibly Limit-clamped) tree.  Result `none` is
a panic during the walk. -/
def Validate (env : Env) (node : Node) (inPrepare : Bool) : Option (Option Err × Node) :=
  match accept env node
      { err := none, wildCardCount := 0, inPrepare := inPrepare, inAggregate := false } with
  | none => none
  | some (node1, _, s) => some (s.err, node1)

/-! ### Counting and containment predicates used to state the claims -/

/-- Number of column-level PRIMARY KEY option markers counted as
occurrences (a column listing the marker twice contributes 2). -/
def countPKMarkerOccurrences (cols : List ColumnDef) : Nat :=
  (cols.map (fun c => (c.options.filter (fun op => op.tp == .primaryKey)).length)).sum

/-- Number of columns bearing at least one PRIMARY KEY marker: the
quantity `checkCreateTableGrammar` accumulates via `isPrimary`. -/
def countPKMarkedColumns (cols : List ColumnDef) : Nat :=
  (cols.map (fun c => isPrimary c.options)).sum

/-- Number of table-level PRIMARY KEY constraints. -/
def countPKConstraints (cons : List Constraint) : Nat :=
  (cons.filter (fun c => c.tp == .primaryKey)).length

/-- Does the column bear the auto-increment option? -/
def colHasAutoIncrement (c : ColumnDef) : Bool :=
  c.options.any (fun op => op.tp == .autoIncrement)

/-- Number of columns bearing the auto-increment option. -/
def countAutoIncCols (cols : List ColumnDef) : Nat :=
  (cols.filter colHasAutoIncrement).length

mutual
/-- Does the tree contain an aggregate-function node (itself included)? -/
def containsAggregate : Node → Bool
  | .aggregateFuncExpr _ => true
  | .limit c o => containsAggregate c || containsAggregate o
  | .other cs => forestContainsAggregate cs
  | _ => false

def forestContainsAggregate : NodeForest → Bool
  | .nil => false
  | .cons n rest => containsAggregate n || forestContainsAggregate rest
end

mutual
/-- Does some aggregate-function node of the tree contain another
aggregate-function node inside its argument subtree?  (An aggregate
anywhere below an aggregate makes a nested pair.) -/
def hasNestedAggregate : Node → Bool
  | .aggregateFuncExpr args => forestContainsAggregate args
  | .limit c o => hasNestedAggregate c || hasNestedAggregate o
  | .other cs => forestHasNestedAggregate cs
  | _ => false

def forestHasNestedAggregate : NodeForest → Bool
  | .nil => false
  | .cons n rest => hasNestedAggregate n || forestHasNestedAggregate rest
end

mutual
/-- Does the tree contain a parameter-marker node? -/
def containsParamMarker : Node → Bool
  | .paramMarkerExpr => true
  | .aggregateFuncExpr args => forestContainsParamMarker args
  | .limit c o => containsParamMarker c || containsParamMarker o
  | .other cs => forestContainsParamMarker cs
  | _ => false

def forestContainsParamMarker : NodeForest → Bool
  | .nil => false
  | .cons n rest => containsParamMarker n || forestContainsParamMarker rest
end

/-- A concrete (already-valued) LIMIT count/offset expression: absent or a
plain value, not a parameter marker or compound expression. -/
def isConcreteLimitArg : Node → Bool
  | .nilExpr => true
  | .valueExpr _ => true
  | _ => false

/-- A concrete sample environment for closed instances: utf8 is a known
3-bytes-per-character charset, every connection string parses. -/
def envStd : Env :=
  { getCharsetDesc := fun cs => if cs = "utf8" then some 3 else none,
    parseConnectionOption := fun _ => true }

/-- A concrete sample environment whose connection-string parser rejects
every string. -/
def envRejectConn : Env :=
  { getCharsetDesc := fun cs => if cs = "utf8" then some 3 else none,
    parseConnectionOption := fun _ => false }

/-! ### Which checker can produce which error value -/

/-- Errors the Dashbase checker can assign. -/
def Err.isDashbaseErr : Err → Bool
  | .dashbaseConnRequired | .dashbaseConnInvalid | .dashbasePKMustBeDatetime
  | .dashbasePKOneColumn | .dashbaseConstraintNotSupported _ | .dashbaseIndexOneColumn
  | .dashbaseIndexMustBeText | .dashbaseNeedPK => true
  | _ => false

/-- Errors the auto-increment checker can assign. -/
def Err.isAutoIncErr : Err → Bool
  | .invalidDefaultValue _ | .autoIncrementMustBeKey | .incorrectColumnSpecifier _ => true
  | _ => false

/-- Errors the field-length checker can return. -/
def Err.isFieldErr : Err → Bool
  | .tooBigDisplayWidth _ | .tooBigFieldLength _ _ | .wrongFieldSpec _
  | .tooBigSet _ | .unknownCharset _ => true
  | _ => false

/-- Errors the CreateTable grammar checker can return. -/
def Err.isCreateTableGrammarErr : Err → Bool
  | .wrongTableName _ | .multiplePriKey | .columnExists _ | .tooBigDisplayWidth _
  | .tooBigFieldLength _ _ | .wrongFieldSpec _ | .tooBigSet _ | .unknownCharset _ => true
  | _ => false

/-- Errors the AlterTable grammar checker can newly assign. -/
def Err.isAlterErr : Err → Bool
  | .tooBigDisplayWidth _ | .tooBigFieldLength _ _ | .wrongFieldSpec _
  | .tooBigSet _ | .unknownCharset _ | .columnExists _ | .alterAutoID => true
  | _ => false

theorem checkDuplicateColumnName_shape (l : List IndexColName) (e : Err)
    (h : checkDuplicateColumnName l = some e) : ∃ nm, e = .columnExists nm := by
  induction l with
  | nil => simp [checkDuplicateColumnName] at h
  | cons x rest ih =>
      rw [checkDuplicateColumnName] at h
      cases hf : findDuplicateOf x rest with
      | some y =>
          rw [hf] at h
          injection h with h
          exact ⟨y.column.name.o, h.symm⟩
      | none =>
          rw [hf] at h
          exact ih h

theorem varcharLengthCheck_shape (env : Env) (nm cs : String) (fl : Int) (e : Err)
    (h : varcharLengthCheck env nm cs fl = some e) : e.isFieldErr = true := by
  unfold varcharLengthCheck at h
  repeat' split at h
  all_goals (try simp only [Option.some.injEq] at h)
  all_goals (try subst h)
  all_goals (first | rfl | simp at h)

theorem checkFieldLengthLimitation_shape (env : Env) (colDef : ColumnDef) (e : Err)
    (h : checkFieldLengthLimitation env colDef = some e) : e.isFieldErr = true := by
  unfold checkFieldLengthLimitation at h
  repeat' split at h
  all_goals (first
    | exact varcharLengthCheck_shape _ _ _ _ _ h
    | (try simp only [Option.some.injEq] at h
       try subst h
       first | rfl | simp at h))

theorem dashbaseCheckColType_shape (cols : List ColumnDef) (k0 : IndexColName) (code : Nat)
    (e0 e : Err) (h : dashbaseCheckColType cols k0 code e0 = some (some e)) : e = e0 := by
  induction cols with
  | nil => simp [dashbaseCheckColType] at h
  | cons c rest ih =>
      rw [dashbaseCheckColType] at h
      split at h
      · split at h
        · exact absurd h (by simp)
        · split at h
          · simpa using h.symm
          · exact absurd h (by simp)
      · exact ih h

theorem dashbaseColOptsScan_error (colDef : ColumnDef) (opts : List ColumnOption) (pk : Nat)
    (e : Err) (h : dashbaseColOptsScan colDef opts pk = some (.error e)) :
    e = .dashbasePKMustBeDatetime := by
  induction opts generalizing pk with
  | nil => simp [dashbaseColOptsScan] at h
  | cons op rest ih =>
      rw [dashbaseColOptsScan] at h
      split at h
      · split at h
        · exact absurd h (by simp)
        · split at h
          · simpa using h.symm
          · exact ih _ h
      · exact ih _ h

theorem dashbaseColsScan_error (cols : List ColumnDef) (pk : Nat) (e : Err)
    (h : dashbaseColsScan cols pk = some (.error e)) : e = .dashbasePKMustBeDatetime := by
  induction cols generalizing pk with
  | nil => simp [dashbaseColsScan] at h
  | cons c rest ih =>
      rw [dashbaseColsScan] at h
      cases hsc : dashbaseColOptsScan c c.options pk with
      | none => rw [hsc] at h; exact absurd h (by simp)
      | some r =>
          rw [hsc] at h
          cases r with
          | error e0 =>
              have he : e0 = e := by simpa using h
              exact he ▸ dashbaseColOptsScan_error _ _ _ _ hsc
          | ok pk1 => exact ih _ h

theorem dashbaseConsScan_error (cols : List ColumnDef) (cons : List Constraint) (pk : Nat)
    (e : Err) (h : dashbaseConsScan cols cons pk = some (.error e)) : e.isDashbaseErr = true := by
  induction cons generalizing pk with
  | nil => simp [dashbaseConsScan] at h
  | cons c rest ih =>
      rw [dashbaseConsScan] at h
      cases htp : c.tp
      all_goals simp only [htp] at h
      case primaryKey =>
        cases hk : c.keys with
        | nil =>
            simp only [hk] at h
            have h2 : (some (Except.error Err.dashbasePKOneColumn) :
                Option (Except Err Nat)) = some (.error e) := h
            have he := (Except.error.injEq _ _).mp ((Option.some.injEq _ _).mp h2)
            subst he; rfl
        | cons k0 ktail =>
            cases ktail with
            | cons _ _ =>
                simp only [hk] at h
                have h2 : (some (Except.error Err.dashbasePKOneColumn) :
                    Option (Except Err Nat)) = some (.error e) := h
                have he := (Except.error.injEq _ _).mp ((Option.some.injEq _ _).mp h2)
                subst he; rfl
            | nil =>
                simp only [hk] at h
                cases hct : dashbaseCheckColType cols k0 mysql.TypeDatetime
                    .dashbasePKMustBeDatetime with
                | none =>
                    simp only [hct] at h
                    have h2 : (none : Option (Except Err Nat)) = some (.error e) := h
                    exact Option.noConfusion h2
                | some r =>
                    simp only [hct] at h
                    cases r with
                    | none => exact ih _ h
                    | some e0 =>
                        have h2 : (some (Except.error e0) :
                            Option (Except Err Nat)) = some (.error e) := h
                        have he := (Except.error.injEq _ _).mp ((Option.some.injEq _ _).mp h2)
                        have hsh := dashbaseCheckColType_shape _ _ _ _ _ hct
                        subst he; subst hsh; rfl
      case key | index =>
        cases hk : c.keys with
        | nil =>
            simp only [hk] at h
            have h2 : (some (Except.error Err.dashbaseIndexOneColumn) :
                Option (Except Err Nat)) = some (.error e) := h
            have he := (Except.error.injEq _ _).mp ((Option.some.injEq _ _).mp h2)
            subst he; rfl
        | cons k0 ktail =>
            cases ktail with
            | cons _ _ =>
                simp only [hk] at h
                have h2 : (some (Except.error Err.dashbaseIndexOneColumn) :
                    Option (Except Err Nat)) = some (.error e) := h
                have he := (Except.error.injEq _ _).mp ((Option.some.injEq _ _).mp h2)
                subst he; rfl
            | nil =>
                simp only [hk] at h
                cases hct : dashbaseCheckColType cols k0 mysql.TypeBlob
                    .dashbaseIndexMustBeText with
                | none =>
                    simp only [hct] at h
                    have h2 : (none : Option (Except Err Nat)) = some (.error e) := h
                    exact Option.noConfusion h2
                | some r =>
                    simp only [hct] at h
                    cases r with
                    | none => exact ih _ h
                    | some e0 =>
                        have h2 : (some (Except.error e0) :
                            Option (Except Err Nat)) = some (.error e) := h
                        have he := (Except.error.injEq _ _).mp ((Option.some.injEq _ _).mp h2)
                        have hsh := dashbaseCheckColType_shape _ _ _ _ _ hct
                        subst he; subst hsh; rfl
      case uniq | uniqKey | uniqIndex =>
        have he := (Except.error.injEq _ _).mp ((Option.some.injEq _ _).mp h)
        subst he; rfl
      case foreignKey | fulltext => exact ih _ h

theorem checkDashbase_shape (env : Env) (stmt : CreateTableData) (e : Err)
    (h : checkDashbase env stmt = some (some e)) : e.isDashbaseErr = true := by
  unfold checkDashbase at h
  split at h
  · exact absurd h (by simp)
  · split at h
    · have he := (Option.some.injEq _ _).mp ((Option.some.injEq _ _).mp h)
      subst he; rfl
    · split at h
      · have he := (Option.some.injEq _ _).mp ((Option.some.injEq _ _).mp h)
        subst he; rfl
      · cases hcs : dashbaseColsScan stmt.cols 0 with
        | none =>
            simp only [hcs] at h
            have h2 : (none : Option (Option Err)) = some (some e) := h
            exact Option.noConfusion h2
        | some r =>
            simp only [hcs] at h
            cases r with
            | error e0 =>
                have h2 : (some (some e0) : Option (Option Err)) = some (some e) := h
                have he := (Option.some.injEq _ _).mp ((Option.some.injEq _ _).mp h2)
                have hsh := dashbaseColsScan_error _ _ _ hcs
                subst he; subst hsh; rfl
            | ok pk1 =>
                cases hcn : dashbaseConsScan stmt.cols stmt.constraints pk1 with
                | none =>
                    simp only [hcn] at h
                    have h2 : (none : Option (Option Err)) = some (some e) := h
                    exact Option.noConfusion h2
                | some r2 =>
                    simp only [hcn] at h
                    cases r2 with
                    | error e0 =>
                        have h2 : (some (some e0) : Option (Option Err)) = some (some e) := h
                        have he := (Option.some.injEq _ _).mp ((Option.some.injEq _ _).mp h2)
                        exact he ▸ dashbaseConsScan_error _ _ _ _ hcn
                    | ok pk2 =>
                        have h2 : (if pk2 = 0 then some (some Err.dashbaseNeedPK)
                            else some none) = some (some e) := h
                        by_cases hz : pk2 = 0
                        · rw [if_pos hz] at h2
                          have he := (Option.some.injEq _ _).mp ((Option.some.injEq _ _).mp h2)
                          subst he; rfl
                        · rw [if_neg hz] at h2
                          exact absurd ((Option.some.injEq _ _).mp h2) (by simp)

theorem scanLaterDefaultValue_shape (nm : String) (l : List ColumnOption) (e : Err)
    (h : scanLaterDefaultValue nm l = some e) : e = .invalidDefaultValue nm := by
  induction l with
  | nil => simp [scanLaterDefaultValue] at h
  | cons op rest ih =>
      rw [scanLaterDefaultValue] at h
      split at h
      · exact ((Option.some.injEq _ _).mp h).symm
      · exact ih h

theorem scanLaterAutoIncrement_shape (nm : String) (l : List ColumnOption) (e : Err)
    (h : scanLaterAutoIncrement nm l = some e) : e = .invalidDefaultValue nm := by
  induction l with
  | nil => simp [scanLaterAutoIncrement] at h
  | cons op rest ih =>
      rw [scanLaterAutoIncrement] at h
      split at h
      · exact ((Option.some.injEq _ _).mp h).symm
      · exact ih h

theorem checkAutoIncrementOp_shape (colDef : ColumnDef) (num : Nat) (e : Err)
    (h : (checkAutoIncrementOp colDef num).2 = some e) :
    e = .invalidDefaultValue colDef.name.name.o := by
  unfold checkAutoIncrementOp at h
  cases hg : colDef.options.get? num with
  | none =>
      simp only [hg] at h
      have h2 : (none : Option Err) = some e := h
      exact Option.noConfusion h2
  | some op =>
      simp only [hg] at h
      split at h
      · split at h
        · have h2 : (none : Option Err) = some e := h
          exact Option.noConfusion h2
        · exact scanLaterDefaultValue_shape _ _ _ h
      · split at h
        · split at h
          · have h2 : (none : Option Err) = some e := h
            exact Option.noConfusion h2
          · exact scanLaterAutoIncrement_shape _ _ _ h
        · have h2 : (none : Option Err) = some e := h
          exact Option.noConfusion h2

theorem autoIncColOptsScan_error (colDef : ColumnDef) (i : Nat) (opts : List ColumnOption)
    (hasAI isKey : Bool) (e : Err)
    (h : autoIncColOptsScan colDef i opts hasAI isKey = .error e) :
    e = .invalidDefaultValue colDef.name.name.o := by
  induction opts generalizing i hasAI isKey with
  | nil => simp [autoIncColOptsScan] at h
  | cons op rest ih =>
      rw [autoIncColOptsScan] at h
      cases hop : checkAutoIncrementOp colDef i with
      | mk b r =>
          cases r with
          | some e0 =>
              simp only [hop] at h
              have h2 : (Except.error e0 : Except Err (Bool × Bool)) = .error e := h
              have he := (Except.error.injEq _ _).mp h2
              exact he ▸ checkAutoIncrementOp_shape _ _ _ (by rw [hop])
          | none =>
              simp only [hop] at h
              exact ih _ _ _ h

theorem autoIncColsScan_error (cols : List ColumnDef) (isKey : Bool) (count : Nat)
    (aiCol : Option ColumnDef) (e : Err)
    (h : autoIncColsScan cols isKey count aiCol = .error e) :
    ∃ nm, e = .invalidDefaultValue nm := by
  induction cols generalizing isKey count aiCol with
  | nil => simp [autoIncColsScan] at h
  | cons c rest ih =>
      rw [autoIncColsScan] at h
      cases hsc : autoIncColOptsScan c 0 c.options false isKey with
      | error e0 =>
          simp only [hsc] at h
          have h2 : (Except.error e0 : Except Err (Bool × Nat × Option ColumnDef)) = .error e := h
          have he := (Except.error.injEq _ _).mp h2
          exact ⟨c.name.name.o, he ▸ autoIncColOptsScan_error _ _ _ _ _ _ hsc⟩
      | ok p =>
          simp only [hsc] at h
          cases p with
          | mk hasAI isKey1 =>
              by_cases hAI : hasAI = true
              · subst hAI
                have h2 : autoIncColsScan rest isKey1 (count + 1) (some c) = .error e := h
                exact ih _ _ _ h2
              · have hAI2 : hasAI = false := by simpa using hAI
                subst hAI2
                have h2 : autoIncColsScan rest isKey1 count aiCol = .error e := h
                exact ih _ _ _ h2

theorem checkAutoIncrement_shape (stmt : CreateTableData) (e : Err)
    (h : checkAutoIncrement stmt = some (some e)) : e.isAutoIncErr = true := by
  unfold checkAutoIncrement at h
  cases hsc : autoIncColsScan stmt.cols false 0 none with
  | error e0 =>
      simp only [hsc] at h
      have h2 : (some (some e0) : Option (Option Err)) = some (some e) := h
      have he := (Option.some.injEq _ _).mp ((Option.some.injEq _ _).mp h2)
      obtain ⟨nm, hnm⟩ := autoIncColsScan_error _ _ _ _ _ hsc
      subst he; subst hnm; rfl
  | ok p =>
      simp only [hsc] at h
      obtain ⟨isKey, count, aiCol⟩ := p
      split at h
      · exact absurd h (by simp)
      · cases aiCol with
        | none => exact absurd h (by simp)
        | some col =>
            cases hik : (if isKey = true then some true
                else isConstraintKeyTp stmt.constraints col) with
            | none =>
                simp only [hik] at h
                exact absurd h (by simp)
            | some isKey1 =>
                simp only [hik] at h
                cases htp : col.tp with
                | none =>
                    simp only [htp] at h
                    exact absurd h (by simp)
                | some ft =>
                    simp only [htp] at h
                    split at h
                    · -- permitted type: net assignment is the key error or nothing
                      split at h
                      · have he := (Option.some.injEq _ _).mp ((Option.some.injEq _ _).mp h)
                        subst he; rfl
                      · exact absurd h (by simp)
                    · have he := (Option.some.injEq _ _).mp ((Option.some.injEq _ _).mp h)
                      subst he; rfl


theorem fieldErr_isCreateTableGrammarErr (e : Err) (h : e.isFieldErr = true) :
    e.isCreateTableGrammarErr = true := by
  cases e <;> simp_all [Err.isFieldErr, Err.isCreateTableGrammarErr]

theorem fieldErr_isAlterErr (e : Err) (h : e.isFieldErr = true) : e.isAlterErr = true := by
  cases e <;> simp_all [Err.isFieldErr, Err.isAlterErr]

theorem createTableColsScan_shape (env : Env) (cols : List ColumnDef) (k : Nat) (e : Err)
    (h : createTableColsScan env cols k = .error e) : e.isCreateTableGrammarErr = true := by
  induction cols generalizing k with
  | nil => simp [createTableColsScan] at h
  | cons c rest ih =>
      rw [createTableColsScan] at h
      cases hf : checkFieldLengthLimitation env c with
      | some e0 =>
          simp only [hf] at h
          have h2 : (Except.error e0 : Except Err Nat) = .error e := h
          have he := (Except.error.injEq _ _).mp h2
          have hfe := checkFieldLengthLimitation_shape env c e0 hf
          subst he
          exact fieldErr_isCreateTableGrammarErr _ hfe
      | none =>
          simp only [hf] at h
          split at h
          · have he := (Except.error.injEq _ _).mp h
            subst he; rfl
          · exact ih _ h

theorem createTableConsScan_shape (cons : List Constraint) (k : Nat) (e : Err)
    (h : createTableConsScan cons k = some e) : e.isCreateTableGrammarErr = true := by
  induction cons generalizing k with
  | nil => simp [createTableConsScan] at h
  | cons c rest ih =>
      rw [createTableConsScan] at h
      split at h
      all_goals first
        | exact ih _ h
        | (cases hd : checkDuplicateColumnName c.keys with
           | some e0 =>
               simp only [hd] at h
               have he := (Option.some.injEq _ _).mp h
               obtain ⟨nm, hnm⟩ := checkDuplicateColumnName_shape _ _ hd
               subst he; subst hnm; rfl
           | none => simp only [hd] at h; exact ih _ h)
        | (rename_i hpk
           by_cases hk0 : k > 0
           · rw [if_pos hk0] at h
             have he := (Option.some.injEq _ _).mp h
             subst he; rfl
           · rw [if_neg hk0] at h
             cases hd : checkDuplicateColumnName c.keys with
             | some e0 =>
                 simp only [hd] at h
                 have he := (Option.some.injEq _ _).mp h
                 obtain ⟨nm, hnm⟩ := checkDuplicateColumnName_shape _ _ hd
                 subst he; subst hnm; rfl
             | none => simp only [hd] at h; exact ih _ h)

theorem checkCreateTableGrammar_shape (env : Env) (stmt : CreateTableData) (e : Err)
    (h : checkCreateTableGrammar env stmt = some e) : e.isCreateTableGrammarErr = true := by
  unfold checkCreateTableGrammar at h
  split at h
  · have he := (Option.some.injEq _ _).mp h
    subst he; rfl
  · split at h
    · have he := (Option.some.injEq _ _).mp h
      subst he; rfl
    · cases hcs : createTableColsScan env stmt.cols 0 with
      | error e0 =>
          simp only [hcs] at h
          have he := (Option.some.injEq _ _).mp h
          subst he
          exact createTableColsScan_shape _ _ _ _ hcs
      | ok cnt =>
          simp only [hcs] at h
          exact createTableConsScan_shape _ _ _ h

theorem checkCreateIndexGrammar_shape (stmt : CreateIndexData) (e : Err)
    (h : checkCreateIndexGrammar stmt = some e) : ∃ nm, e = .columnExists nm :=
  checkDuplicateColumnName_shape _ _ h

theorem checkAlterTableGrammar_shape (env : Env) (specs : List AlterTableSpec)
    (cur : Option Err) (e : Err) (h : checkAlterTableGrammar env cur specs = some e) :
    cur = some e ∨ e.isAlterErr = true := by
  induction specs generalizing cur with
  | nil => exact Or.inl h
  | cons spec rest ih =>
      rw [checkAlterTableGrammar] at h
      cases hf : (match spec.newColumn with
                  | some col => checkFieldLengthLimitation env col
                  | none => none) with
      | some e0 =>
          simp only [hf] at h
          have he := (Option.some.injEq _ _).mp h
          right
          cases hcol : spec.newColumn with
          | none => rw [hcol] at hf; exact absurd hf (by simp)
          | some col =>
              rw [hcol] at hf
              have hfe := checkFieldLengthLimitation_shape env col e0 hf
              subst he
              exact fieldErr_isAlterErr _ hfe
      | none =>
          simp only [hf] at h
          split at h
          · -- addConstraint
            split at h
            all_goals first
              | exact ih _ h
              | (cases hd : checkDuplicateColumnName spec.constraint.keys with
                 | some e0 =>
                     simp only [hd] at h
                     have he := (Option.some.injEq _ _).mp h
                     obtain ⟨nm, hnm⟩ := checkDuplicateColumnName_shape _ _ hd
                     subst he; subst hnm
                     exact Or.inr rfl
                 | none =>
                     simp only [hd] at h
                     rcases ih _ h with hcur | hok
                     · exact absurd hcur (by simp)
                     · exact Or.inr hok)
          · -- table option
            split at h
            · have he := (Option.some.injEq _ _).mp h
              subst he
              exact Or.inr rfl
            · exact ih _ h
          · exact ih _ h

/-! ### Unfolding `Validate` on a CreateTable root

On a `CreateTableStmt` root the walk is: the grammar pre-check (whose
error both skips the absent children and stays in the slot), then the
Dashbase and auto-increment post-checks, each of whose assignments
overwrites whatever the slot held. -/

theorem Validate_createTableStmt (env : Env) (stmt : CreateTableData) (p : Bool) :
    Validate env (.createTableStmt stmt) p =
      (checkDashbase env stmt).bind (fun d =>
        (checkAutoIncrement stmt).map (fun a =>
          (assignErr (assignErr (checkCreateTableGrammar env stmt) d) a,
           Node.createTableStmt stmt))) := by
  unfold Validate accept Enter
  cases hg : checkCreateTableGrammar env stmt <;>
    cases hd : checkDashbase env stmt <;>
      cases ha : checkAutoIncrement stmt <;>
        simp [Leave, assignErr, hg, hd, ha]

/-! ### Properties of the sticky-assignment combinator -/

theorem assignErr_eq_none (slot r : Option Err) (h : assignErr slot r = none) :
    slot = none ∧ r = none := by
  cases r with
  | some e => simp [assignErr] at h
  | none => exact ⟨h, rfl⟩

theorem assignErr_eq_some (slot r : Option Err) (e : Err) (h : assignErr slot r = some e) :
    r = some e ∨ (r = none ∧ slot = some e) := by
  cases r with
  | some e0 =>
      left
      have h2 : (some e0 : Option Err) = some e := h
      rw [h2]
  | none => exact Or.inr ⟨rfl, h⟩

/-! ### Counting lemmas for the primary-key bookkeeping -/

theorem isPrimary_le_one (ops : List ColumnOption) : isPrimary ops ≤ 1 := by
  induction ops with
  | nil => simp [isPrimary]
  | cons op rest ih =>
      rw [isPrimary]
      split
      · exact le_refl 1
      · exact ih

theorem isPrimary_le_filter (ops : List ColumnOption) :
    isPrimary ops ≤ (ops.filter (fun op => op.tp == .primaryKey)).length := by
  induction ops with
  | nil => simp [isPrimary]
  | cons op rest ih =>
      rw [isPrimary]
      by_cases hp : op.tp = ColumnOptionTp.primaryKey
      · simp only [if_pos hp, List.filter_cons]
        have : (op.tp == ColumnOptionTp.primaryKey) = true := by simp [hp]
        rw [this]
        simp
      · simp only [if_neg hp, List.filter_cons]
        have : (op.tp == ColumnOptionTp.primaryKey) = false := by simp [hp]
        rw [this]
        exact ih

theorem countPKMarkedColumns_cons (c : ColumnDef) (rest : List ColumnDef) :
    countPKMarkedColumns (c :: rest) = isPrimary c.options + countPKMarkedColumns rest := by
  simp [countPKMarkedColumns]

theorem countPKMarkedColumns_le_occurrences (cols : List ColumnDef) :
    countPKMarkedColumns cols ≤ countPKMarkerOccurrences cols := by
  induction cols with
  | nil => simp [countPKMarkedColumns, countPKMarkerOccurrences]
  | cons c rest ih =>
      have h1 := isPrimary_le_filter c.options
      simp only [countPKMarkedColumns, countPKMarkerOccurrences, List.map_cons,
        List.sum_cons] at *
      omega

theorem countPKConstraints_cons_pk (c : Constraint) (rest : List Constraint)
    (h : c.tp = .primaryKey) :
    countPKConstraints (c :: rest) = 1 + countPKConstraints rest := by
  simp [countPKConstraints, List.filter_cons, h]
  omega

theorem countPKConstraints_cons_other (c : Constraint) (rest : List Constraint)
    (h : ¬ c.tp = .primaryKey) :
    countPKConstraints (c :: rest) = countPKConstraints rest := by
  simp [countPKConstraints, List.filter_cons, h]

theorem createTableColsScan_ok (env : Env) (cols : List ColumnDef) (k m : Nat)
    (h : createTableColsScan env cols k = .ok m) :
    m = k + countPKMarkedColumns cols ∧ (k ≤ 1 → m ≤ 1) := by
  induction cols generalizing k with
  | nil =>
      have h2 : (Except.ok k : Except Err Nat) = .ok m := h
      have := (Except.ok.injEq _ _).mp h2
      subst this
      simp [countPKMarkedColumns]
  | cons c rest ih =>
      rw [createTableColsScan] at h
      cases hf : checkFieldLengthLimitation env c with
      | some e0 => simp only [hf] at h; exact absurd h (by simp)
      | none =>
          simp only [hf] at h
          split at h
          · exact absurd h (by simp)
          · rename_i hle
            obtain ⟨hm, hb⟩ := ih _ h
            rw [countPKMarkedColumns_cons]
            constructor
            · omega
            · intro _
              exact hb (by omega)

theorem createTableColsScan_error_multi (env : Env) (cols : List ColumnDef) (k : Nat)
    (h : createTableColsScan env cols k = .error .multiplePriKey) :
    k + countPKMarkedColumns cols ≥ 2 := by
  induction cols generalizing k with
  | nil => simp [createTableColsScan] at h
  | cons c rest ih =>
      rw [createTableColsScan] at h
      cases hf : checkFieldLengthLimitation env c with
      | some e0 =>
          simp only [hf] at h
          have h2 : (Except.error e0 : Except Err Nat) = .error .multiplePriKey := h
          have he := (Except.error.injEq _ _).mp h2
          subst he
          have := checkFieldLengthLimitation_shape env c _ hf
          simp [Err.isFieldErr] at this
      | none =>
          simp only [hf] at h
          split at h
          · rename_i hgt
            have := isPrimary_le_one c.options
            rw [countPKMarkedColumns_cons]
            omega
          · rename_i hle
            have := ih _ h
            rw [countPKMarkedColumns_cons]
            omega

theorem createTableConsScan_none (cons : List Constraint) (k : Nat) (hk : k ≤ 1)
    (h : createTableConsScan cons k = none) : k + countPKConstraints cons ≤ 1 := by
  induction cons generalizing k with
  | nil => simp [countPKConstraints]; omega
  | cons c rest ih =>
      rw [createTableConsScan] at h
      cases htp : c.tp
      all_goals simp only [htp] at h
      case primaryKey =>
        split at h
        · exact absurd h (by simp)
        · rename_i hk0
          cases hd : checkDuplicateColumnName c.keys with
          | some e0 =>
              simp only [hd] at h
              have h2 : (some e0 : Option Err) = none := h
              exact Option.noConfusion h2
          | none =>
              simp only [hd] at h
              have h2 : createTableConsScan rest (k + 1) = none := h
              have := ih _ (by omega) h2
              rw [countPKConstraints_cons_pk c rest htp]
              omega
      case key | index | uniq | uniqKey | uniqIndex =>
        cases hd : checkDuplicateColumnName c.keys with
        | some e0 =>
            simp only [hd] at h
            have h2 : (some e0 : Option Err) = none := h
            exact Option.noConfusion h2
        | none =>
            simp only [hd] at h
            have h2 : createTableConsScan rest k = none := h
            have := ih _ hk h2
            rw [countPKConstraints_cons_other c rest (by simp [htp])]
            omega
      case foreignKey | fulltext =>
        have h2 : createTableConsScan rest k = none := h
        have := ih _ hk h2
        rw [countPKConstraints_cons_other c rest (by simp [htp])]
        omega

theorem createTableConsScan_multi (cons : List Constraint) (k : Nat) (hk : k ≤ 1)
    (h : createTableConsScan cons k = some .multiplePriKey) :
    k + countPKConstraints cons ≥ 2 := by
  induction cons generalizing k with
  | nil => simp [createTableConsScan] at h
  | cons c rest ih =>
      rw [createTableConsScan] at h
      cases htp : c.tp
      all_goals simp only [htp] at h
      case primaryKey =>
        split at h
        · rename_i hk0
          rw [countPKConstraints_cons_pk c rest htp]
          omega
        · rename_i hk0
          cases hd : checkDuplicateColumnName c.keys with
          | some e0 =>
              simp only [hd] at h
              have h2 : (some e0 : Option Err) = some .multiplePriKey := h
              have he := (Option.some.injEq _ _).mp h2
              subst he
              obtain ⟨nm, hnm⟩ := checkDuplicateColumnName_shape _ _ hd
              exact absurd hnm (by simp)
          | none =>
              simp only [hd] at h
              have h2 : createTableConsScan rest (k + 1) = some .multiplePriKey := h
              have := ih _ (by omega) h2
              rw [countPKConstraints_cons_pk c rest htp]
              omega
      case key | index | uniq | uniqKey | uniqIndex =>
        cases hd : checkDuplicateColumnName c.keys with
        | some e0 =>
            simp only [hd] at h
            have h2 : (some e0 : Option Err) = some .multiplePriKey := h
            have he := (Option.some.injEq _ _).mp h2
            subst he
            obtain ⟨nm, hnm⟩ := checkDuplicateColumnName_shape _ _ hd
            exact absurd hnm (by simp)
        | none =>
            simp only [hd] at h
            have h2 : createTableConsScan rest k = some .multiplePriKey := h
            have := ih _ hk h2
            rw [countPKConstraints_cons_other c rest (by simp [htp])]
            omega
      case foreignKey | fulltext =>
        have h2 : createTableConsScan rest k = some .multiplePriKey := h
        have := ih _ hk h2
        rw [countPKConstraints_cons_other c rest (by simp [htp])]
        omega

theorem checkCreateTableGrammar_multi (env : Env) (stmt : CreateTableData)
    (h : checkCreateTableGrammar env stmt = some .multiplePriKey) :
    countPKMarkedColumns stmt.cols + countPKConstraints stmt.constraints ≥ 2 := by
  unfold checkCreateTableGrammar at h
  split at h
  · exact absurd ((Option.some.injEq _ _).mp h) (by simp)
  · split at h
    · exact absurd ((Option.some.injEq _ _).mp h) (by simp)
    · cases hcs : createTableColsScan env stmt.cols 0 with
      | error e0 =>
          simp only [hcs] at h
          have h2 : (some e0 : Option Err) = some .multiplePriKey := h
          have he := (Option.some.injEq _ _).mp h2
          subst he
          have := createTableColsScan_error_multi env stmt.cols 0 hcs
          omega
      | ok cnt =>
          simp only [hcs] at h
          obtain ⟨hm, hb⟩ := createTableColsScan_ok env stmt.cols 0 cnt hcs
          have := createTableConsScan_multi stmt.constraints cnt (hb (by omega)) h
          omega

theorem checkCreateTableGrammar_none (env : Env) (stmt : CreateTableData)
    (h : checkCreateTableGrammar env stmt = none) :
    countPKMarkedColumns stmt.cols + countPKConstraints stmt.constraints ≤ 1 := by
  unfold checkCreateTableGrammar at h
  split at h
  · exact absurd h (by simp)
  · split at h
    · exact absurd h (by simp)
    · cases hcs : createTableColsScan env stmt.cols 0 with
      | error e0 => simp only [hcs] at h; exact absurd h (by simp)
      | ok cnt =>
          simp only [hcs] at h
          obtain ⟨hm, hb⟩ := createTableColsScan_ok env stmt.cols 0 cnt hcs
          have := createTableConsScan_none stmt.constraints cnt (hb (by omega)) h
          omega

/-- Decompose the result of `Validate` on a CreateTable root into the
three checkers' contributions. -/
theorem Validate_createTableStmt_err (env : Env) (stmt : CreateTableData) (p : Bool)
    (r : Option Err × Node) (h : Validate env (.createTableStmt stmt) p = some r) :
    ∃ d a, checkDashbase env stmt = some d ∧ checkAutoIncrement stmt = some a ∧
      r = (assignErr (assignErr (checkCreateTableGrammar env stmt) d) a,
           Node.createTableStmt stmt) := by
  rw [Validate_createTableStmt] at h
  cases hd : checkDashbase env stmt with
  | none => rw [hd] at h; simp at h
  | some d =>
      rw [hd] at h
      cases ha : checkAutoIncrement stmt with
      | none => rw [ha] at h; simp at h
      | some a =>
          rw [ha] at h
          have h2 : some (assignErr (assignErr (checkCreateTableGrammar env stmt) d) a,
              Node.createTableStmt stmt) = some r := h
          exact ⟨d, a, rfl, rfl, ((Option.some.injEq _ _).mp h2).symm⟩

def c2Stmt : CreateTableData :=
  { table := some { name := { o := "t", l := "t" } },
    cols := [{ name := { name := { o := "c", l := "c" } },
               tp := some { tp := mysql.TypeLong, flen := -1, charset := "", elems := [] },
               options := [{ tp := .primaryKey, expr := .other },
                           { tp := .primaryKey, expr := .other }] }],
    constraints := [],
    options := [] }

/-- C2, counterexample: a CreateTable with one column that lists the
column-level PRIMARY KEY marker twice has a combined marker count of 2,
yet `Validate` succeeds — `checkCreateTableGrammar` counts each column at
most once, so the claim "if the combined number of column-level
primary-key option markers and table-level primary-key constraints
exceeds one, Validate fails with the multiple-primary-key grammar error"
is false as stated. -/
theorem C2_counterexample :
    countPKMarkerOccurrences c2Stmt.cols + countPKConstraints c2Stmt.constraints = 2 ∧
    Validate envStd (.createTableStmt c2Stmt) false =
      some (none, .createTableStmt c2Stmt) := by
  constructor
  · decide
  · rfl

/-- C2 (amended): counting each column at most once (a column with at
least one PRIMARY KEY marker contributes 1) plus table-level PRIMARY KEY
constraints, a combined count above one makes Validate fail (with some
error, not necessarily the multiple-primary-key error, since the
exit-time checks may overwrite it); and when the combined number of
marker occurrences is exactly one, Validate never fails with the
multiple-primary-key error. -/
theorem C2_theorem :
    (∀ (env : Env) (stmt : CreateTableData) (p : Bool) (r : Option Err × Node),
        countPKMarkedColumns stmt.cols + countPKConstraints stmt.constraints > 1 →
        Validate env (.createTableStmt stmt) p = some r → r.1 ≠ none) ∧
    (∀ (env : Env) (stmt : CreateTableData) (p : Bool) (r : Option Err × Node),
        countPKMarkerOccurrences stmt.cols + countPKConstraints stmt.constraints = 1 →
        Validate env (.createTableStmt stmt) p = some r →
        r.1 ≠ some .multiplePriKey) := by
  constructor
  · intro env stmt p r hcount hv hnone
    obtain ⟨d, a, hd, ha, hr⟩ := Validate_createTableStmt_err env stmt p r hv
    subst hr
    obtain ⟨h1, ha0⟩ := assignErr_eq_none _ _ hnone
    obtain ⟨hg0, hd0⟩ := assignErr_eq_none _ _ h1
    have := checkCreateTableGrammar_none env stmt hg0
    omega
  · intro env stmt p r hcount hv hmulti
    obtain ⟨d, a, hd, ha, hr⟩ := Validate_createTableStmt_err env stmt p r hv
    subst hr
    rcases assignErr_eq_some _ _ _ hmulti with ha1 | ⟨ha0, h1⟩
    · have := checkAutoIncrement_shape stmt .multiplePriKey (ha1 ▸ ha)
      simp [Err.isAutoIncErr] at this
    · rcases assignErr_eq_some _ _ _ h1 with hd1 | ⟨hd0, hg1⟩
      · have := checkDashbase_shape env stmt .multiplePriKey (hd1 ▸ hd)
        simp [Err.isDashbaseErr] at this
      · have h2 := checkCreateTableGrammar_multi env stmt hg1
        have h3 := countPKMarkedColumns_le_occurrences stmt.cols
        omega

def c2WitnessStmtA : CreateTableData :=
  { table := some { name := { o := "t", l := "t" } },
    cols := [{ name := { name := { o := "a", l := "a" } },
               tp := some { tp := mysql.TypeLong, flen := -1, charset := "", elems := [] },
               options := [{ tp := .primaryKey, expr := .other }] },
             { name := { name := { o := "b", l := "b" } },
               tp := some { tp := mysql.TypeLong, flen := -1, charset := "", elems := [] },
               options := [{ tp := .primaryKey, expr := .other }] }],
    constraints := [],
    options := [] }

def c2WitnessStmtB : CreateTableData :=
  { table := some { name := { o := "t", l := "t" } },
    cols := [{ name := { name := { o := "c", l := "c" } },
               tp := some { tp := mysql.TypeLong, flen := -1, charset := "", elems := [] },
               options := [{ tp := .primaryKey, expr := .other }] }],
    constraints := [],
    options := [] }

/-- C2, witness: both amended parts applied at concrete tables. -/
theorem C2_witness :
    ((some Err.multiplePriKey, Node.createTableStmt c2WitnessStmtA) :
        Option Err × Node).1 ≠ none ∧
    ((none, Node.createTableStmt c2WitnessStmtB) : Option Err × Node).1 ≠
        some Err.multiplePriKey := by
  constructor
  · exact C2_theorem.1 envStd c2WitnessStmtA false _ (by decide) (by rfl)
  · exact C2_theorem.2 envStd c2WitnessStmtB false _ (by decide) (by rfl)

/-! ### The auto-increment / default-value conflict scans -/

theorem scanLaterDefaultValue_mem (nm : String) (l : List ColumnOption) (op : ColumnOption)
    (hmem : op ∈ l) (htp : op.tp = .defaultValue) (hnn : op.expr.IsNull = false) :
    scanLaterDefaultValue nm l = some (.invalidDefaultValue nm) := by
  induction l with
  | nil => cases hmem
  | cons x rest ih =>
      rw [scanLaterDefaultValue]
      split
      · rfl
      · rename_i hcond
        rcases List.mem_cons.mp hmem with heq | hmem2
        · subst heq
          exact absurd ⟨htp, by simp [hnn]⟩ hcond
        · exact ih hmem2

theorem scanLaterAutoIncrement_mem (nm : String) (l : List ColumnOption) (op : ColumnOption)
    (hmem : op ∈ l) (htp : op.tp = .autoIncrement) :
    scanLaterAutoIncrement nm l = some (.invalidDefaultValue nm) := by
  induction l with
  | nil => cases hmem
  | cons x rest ih =>
      rw [scanLaterAutoIncrement]
      split
      · rfl
      · rename_i hcond
        rcases List.mem_cons.mp hmem with heq | hmem2
        · subst heq; exact absurd htp hcond
        · exact ih hmem2

theorem scanLaterDefaultValue_none (nm : String) (l : List ColumnOption)
    (hnull : ∀ op ∈ l, op.tp = .defaultValue → op.expr.IsNull = true) :
    scanLaterDefaultValue nm l = none := by
  induction l with
  | nil => rfl
  | cons x rest ih =>
      rw [scanLaterDefaultValue]
      split
      · rename_i hcond
        have := hnull x (List.mem_cons_self x rest) hcond.1
        simp [this] at hcond
      · exact ih (fun op hm ht => hnull op (List.mem_cons_of_mem x hm) ht)

/-- A later non-null default value after the auto-increment option at
position `num` makes `checkAutoIncrementOp` fail. -/
theorem checkAutoIncrementOp_conflict_ai_first (colDef : ColumnDef) (i j : Nat)
    (op1 op2 : ColumnOption) (hgi : colDef.options.get? i = some op1)
    (hai : op1.tp = .autoIncrement) (hij : i < j) (hgj : colDef.options.get? j = some op2)
    (hdv : op2.tp = .defaultValue) (hnn : op2.expr.IsNull = false) :
    (checkAutoIncrementOp colDef i).2 = some (.invalidDefaultValue colDef.name.name.o) := by
  have hjlen : j < colDef.options.length := (List.get?_eq_some.mp hgj).1
  have hlen : colDef.options.length ≠ i + 1 := by omega
  have hmem : op2 ∈ colDef.options.drop (i + 1) := by
    apply List.get?_mem (n := j - (i + 1))
    rw [List.get?_drop]
    rw [show i + 1 + (j - (i + 1)) = j by omega]
    exact hgj
  unfold checkAutoIncrementOp
  simp only [hgi]
  rw [if_pos hai, if_neg hlen]
  exact scanLaterDefaultValue_mem _ _ _ hmem hdv hnn

/-- A later auto-increment option after a non-null default value at
position `num` makes `checkAutoIncrementOp` fail. -/
theorem checkAutoIncrementOp_conflict_default_first (colDef : ColumnDef) (i j : Nat)
    (op1 op2 : ColumnOption) (hgi : colDef.options.get? i = some op1)
    (hdv : op1.tp = .defaultValue) (hnn : op1.expr.IsNull = false) (hij : i < j)
    (hgj : colDef.options.get? j = some op2) (hai : op2.tp = .autoIncrement) :
    (checkAutoIncrementOp colDef i).2 = some (.invalidDefaultValue colDef.name.name.o) := by
  have hjlen : j < colDef.options.length := (List.get?_eq_some.mp hgj).1
  have hlen : colDef.options.length ≠ i + 1 := by omega
  have hmem : op2 ∈ colDef.options.drop (i + 1) := by
    apply List.get?_mem (n := j - (i + 1))
    rw [List.get?_drop]
    rw [show i + 1 + (j - (i + 1)) = j by omega]
    exact hgj
  have hne : ¬ op1.tp = ColumnOptionTp.autoIncrement := by rw [hdv]; intro hc; cases hc
  unfold checkAutoIncrementOp
  simp only [hgi]
  rw [if_neg hne, if_pos ⟨hdv, hlen⟩, if_neg (by simp [hnn])]
  exact scanLaterAutoIncrement_mem _ _ _ hmem hai

/-- An out-of-range position produces no option error. -/
theorem checkAutoIncrementOp_oob (colDef : ColumnDef) (i : Nat)
    (h : colDef.options.length ≤ i) : (checkAutoIncrementOp colDef i).2 = none := by
  unfold checkAutoIncrementOp
  rw [List.get?_eq_none.mpr h]

/-- A column whose every default-value option is NULL produces no option
error at any position. -/
theorem checkAutoIncrementOp_none_of_null (colDef : ColumnDef) (i : Nat)
    (hnull : ∀ op ∈ colDef.options, op.tp = .defaultValue → op.expr.IsNull = true) :
    (checkAutoIncrementOp colDef i).2 = none := by
  unfold checkAutoIncrementOp
  cases hg : colDef.options.get? i with
  | none => rfl
  | some op =>
      simp only [hg]
      by_cases hai : op.tp = ColumnOptionTp.autoIncrement
      · rw [if_pos hai]
        by_cases hlen : colDef.options.length = i + 1
        · rw [if_pos hlen]
        · rw [if_neg hlen]
          exact scanLaterDefaultValue_none _ _
            (fun op2 hm ht => hnull op2 (List.mem_of_mem_drop hm) ht)
      · rw [if_neg hai]
        by_cases hdv : op.tp = ColumnOptionTp.defaultValue ∧ colDef.options.length ≠ i + 1
        · rw [if_pos hdv]
          rw [if_pos (hnull op (List.get?_mem hg) hdv.1)]
        · rw [if_neg hdv]

/-- If the column loop completes without an error, no option position of
any listed column carries a conflict error. -/
theorem autoIncColOptsScan_ok_no_err (colDef : ColumnDef) (opts : List ColumnOption)
    (i : Nat) (hAI k : Bool) (r : Bool × Bool) (hdrop : colDef.options.drop i = opts)
    (h : autoIncColOptsScan colDef i opts hAI k = .ok r) :
    ∀ m, i ≤ m → m < colDef.options.length → (checkAutoIncrementOp colDef m).2 = none := by
  induction opts generalizing i hAI k with
  | nil =>
      intro m him hmlen
      have : colDef.options.length ≤ i := by
        have := congrArg List.length hdrop
        simp [List.length_drop] at this
        omega
      omega
  | cons op rest ih =>
      rw [autoIncColOptsScan] at h
      cases hop : checkAutoIncrementOp colDef i with
      | mk b r2 =>
          cases r2 with
          | some e0 => simp only [hop] at h; exact absurd h (by simp)
          | none =>
              simp only [hop] at h
              intro m him hmlen
              rcases Nat.eq_or_lt_of_le him with heq | hlt
              · subst heq; rw [hop]
              · have hdrop2 : colDef.options.drop (i + 1) = rest := by
                  have := congrArg List.tail hdrop
                  simpa [← List.drop_one, List.drop_drop, Nat.add_comm] using this
                exact ih _ _ _ hdrop2 h m hlt hmlen

/-- If the whole column scan completes, no column carries an option
error. -/
theorem autoIncColsScan_ok_no_err (cols : List ColumnDef) (k : Bool) (cnt : Nat)
    (ai : Option ColumnDef) (r : Bool × Nat × Option ColumnDef)
    (h : autoIncColsScan cols k cnt ai = .ok r) :
    ∀ c ∈ cols, ∀ i, (checkAutoIncrementOp c i).2 = none := by
  induction cols generalizing k cnt ai with
  | nil => intro c hc; cases hc
  | cons c0 rest ih =>
      rw [autoIncColsScan] at h
      cases hsc : autoIncColOptsScan c0 0 c0.options false k with
      | error e0 => simp only [hsc] at h; exact absurd h (by simp)
      | ok p =>
          simp only [hsc] at h
          obtain ⟨hasAI, isKey1⟩ := p
          intro c hc i
          rcases List.mem_cons.mp hc with heq | hmem
          · subst heq
            by_cases hi : i < c.options.length
            · exact autoIncColOptsScan_ok_no_err c c.options 0 false k _ rfl hsc i
                (by omega) hi
            · exact checkAutoIncrementOp_oob c i (by omega)
          · cases hasAI with
            | true => exact ih _ _ _ h c hmem i
            | false => exact ih _ _ _ h c hmem i

/-- Conversely, a column-scan error comes from some option position. -/
theorem autoIncColOptsScan_error_src (colDef : ColumnDef) (opts : List ColumnOption)
    (i : Nat) (hAI k : Bool) (e : Err)
    (h : autoIncColOptsScan colDef i opts hAI k = .error e) :
    ∃ m, (checkAutoIncrementOp colDef m).2 = some e := by
  induction opts generalizing i hAI k with
  | nil => simp [autoIncColOptsScan] at h
  | cons op rest ih =>
      rw [autoIncColOptsScan] at h
      cases hop : checkAutoIncrementOp colDef i with
      | mk b r2 =>
          cases r2 with
          | some e0 =>
              simp only [hop] at h
              have h2 : (Except.error e0 : Except Err (Bool × Bool)) = .error e := h
              have he := (Except.error.injEq _ _).mp h2
              exact ⟨i, by rw [hop, he]⟩
          | none =>
              simp only [hop] at h
              exact ih _ _ _ h

theorem autoIncColsScan_error_src (cols : List ColumnDef) (k : Bool) (cnt : Nat)
    (ai : Option ColumnDef) (e : Err) (h : autoIncColsScan cols k cnt ai = .error e) :
    ∃ c ∈ cols, ∃ m, (checkAutoIncrementOp c m).2 = some e := by
  induction cols generalizing k cnt ai with
  | nil => simp [autoIncColsScan] at h
  | cons c0 rest ih =>
      rw [autoIncColsScan] at h
      cases hsc : autoIncColOptsScan c0 0 c0.options false k with
      | error e0 =>
          simp only [hsc] at h
          have h2 : (Except.error e0 : Except Err (Bool × Nat × Option ColumnDef)) =
              .error e := h
          have he := (Except.error.injEq _ _).mp h2
          subst he
          obtain ⟨m, hm⟩ := autoIncColOptsScan_error_src _ _ _ _ _ _ hsc
          exact ⟨c0, List.mem_cons_self c0 rest, m, hm⟩
      | ok p =>
          simp only [hsc] at h
          obtain ⟨hasAI, isKey1⟩ := p
          cases hasAI with
          | true =>
              obtain ⟨c, hc, m, hm⟩ := ih _ _ _ h
              exact ⟨c, List.mem_cons_of_mem c0 hc, m, hm⟩
          | false =>
              obtain ⟨c, hc, m, hm⟩ := ih _ _ _ h
              exact ⟨c, List.mem_cons_of_mem c0 hc, m, hm⟩

/-- An option-level conflict error in some column surfaces as the
auto-increment checker's result. -/
theorem checkAutoIncrement_of_op_err (stmt : CreateTableData) (c : ColumnDef)
    (hc : c ∈ stmt.cols) (m : Nat) (e : Err)
    (hop : (checkAutoIncrementOp c m).2 = some e) :
    ∃ nm, checkAutoIncrement stmt = some (some (.invalidDefaultValue nm)) := by
  cases hsc : autoIncColsScan stmt.cols false 0 none with
  | ok r =>
      exact absurd hop (by rw [autoIncColsScan_ok_no_err _ _ _ _ _ hsc c hc m]; simp)
  | error e0 =>
      obtain ⟨nm, hnm⟩ := autoIncColsScan_error _ _ _ _ _ hsc
      refine ⟨nm, ?_⟩
      unfold checkAutoIncrement
      rw [hsc, hnm]

/-- The auto-increment checker reports an invalid-default error only when
some option position of some column carries one. -/
theorem checkAutoIncrement_invalidDefault_src (stmt : CreateTableData) (nm : String)
    (h : checkAutoIncrement stmt = some (some (.invalidDefaultValue nm))) :
    ∃ c ∈ stmt.cols, ∃ m, (checkAutoIncrementOp c m).2 = some (.invalidDefaultValue nm) := by
  unfold checkAutoIncrement at h
  cases hsc : autoIncColsScan stmt.cols false 0 none with
  | error e0 =>
      simp only [hsc] at h
      have h2 : (some (some e0) : Option (Option Err)) =
          some (some (.invalidDefaultValue nm)) := h
      have he := (Option.some.injEq _ _).mp ((Option.some.injEq _ _).mp h2)
      subst he
      exact autoIncColsScan_error_src _ _ _ _ _ hsc
  | ok p =>
      simp only [hsc] at h
      obtain ⟨isKey, count, aiCol⟩ := p
      split at h
      · exact absurd h (by simp)
      · cases aiCol with
        | none => exact absurd h (by simp)
        | some col =>
            cases hik : (if isKey = true then some true
                else isConstraintKeyTp stmt.constraints col) with
            | none => simp only [hik] at h; exact absurd h (by simp)
            | some isKey1 =>
                simp only [hik] at h
                cases htp : col.tp with
                | none => simp only [htp] at h; exact absurd h (by simp)
                | some ft =>
                    simp only [htp] at h
                    split at h
                    · split at h
                      · exact absurd ((Option.some.injEq _ _).mp ((Option.some.injEq _ _).mp h))
                          (by simp)
                      · exact absurd h (by simp)
                    · exact absurd ((Option.some.injEq _ _).mp ((Option.some.injEq _ _).mp h))
                        (by simp)

/-- C3: in a CreateTable statement, an auto-increment option followed (at
a strictly later position of the same column's option list) by a non-NULL
default value makes Validate return an invalid-default-value error, and
symmetrically for a non-NULL default value followed by the auto-increment
option; a NULL default value triggers no invalid-default-value error in
either ordering.  (Stated conditionally on `Validate` returning at all:
a table whose other content makes the Go walk panic returns nothing.) -/
theorem C3_theorem :
    (∀ (env : Env) (stmt : CreateTableData) (p : Bool) (col : ColumnDef) (i j : Nat)
        (op1 op2 : ColumnOption) (r : Option Err × Node),
        col ∈ stmt.cols →
        col.options.get? i = some op1 → op1.tp = .autoIncrement →
        i < j → col.options.get? j = some op2 → op2.tp = .defaultValue →
        op2.expr.IsNull = false →
        Validate env (.createTableStmt stmt) p = some r →
        ∃ nm, r = (some (.invalidDefaultValue nm), .createTableStmt stmt)) ∧
    (∀ (env : Env) (stmt : CreateTableData) (p : Bool) (col : ColumnDef) (i j : Nat)
        (op1 op2 : ColumnOption) (r : Option Err × Node),
        col ∈ stmt.cols →
        col.options.get? i = some op1 → op1.tp = .defaultValue →
        op1.expr.IsNull = false →
        i < j → col.options.get? j = some op2 → op2.tp = .autoIncrement →
        Validate env (.createTableStmt stmt) p = some r →
        ∃ nm, r = (some (.invalidDefaultValue nm), .createTableStmt stmt)) ∧
    (∀ (env : Env) (stmt : CreateTableData) (p : Bool) (r : Option Err × Node) (nm : String),
        (∀ c ∈ stmt.cols, ∀ op ∈ c.options, op.tp = .defaultValue →
          op.expr.IsNull = true) →
        Validate env (.createTableStmt stmt) p = some r →
        r.1 ≠ some (.invalidDefaultValue nm)) := by
  refine ⟨?_, ?_, ?_⟩
  · intro env stmt p col i j op1 op2 r hcol hgi hai hij hgj hdv hnn hv
    have hop := checkAutoIncrementOp_conflict_ai_first col i j op1 op2 hgi hai hij hgj hdv hnn
    obtain ⟨nm, hca⟩ := checkAutoIncrement_of_op_err stmt col hcol _ _ hop
    obtain ⟨d, a, hd, ha, hr⟩ := Validate_createTableStmt_err env stmt p r hv
    rw [hca] at ha
    have haa := (Option.some.injEq _ _).mp ha
    refine ⟨nm, ?_⟩
    rw [hr, ← haa]
    rfl
  · intro env stmt p col i j op1 op2 r hcol hgi hdv hnn hij hgj hai hv
    have hop := checkAutoIncrementOp_conflict_default_first col i j op1 op2 hgi hdv hnn hij
      hgj hai
    obtain ⟨nm, hca⟩ := checkAutoIncrement_of_op_err stmt col hcol _ _ hop
    obtain ⟨d, a, hd, ha, hr⟩ := Validate_createTableStmt_err env stmt p r hv
    rw [hca] at ha
    have haa := (Option.some.injEq _ _).mp ha
    refine ⟨nm, ?_⟩
    rw [hr, ← haa]
    rfl
  · intro env stmt p r nm hnull hv hbad
    obtain ⟨d, a, hd, ha, hr⟩ := Validate_createTableStmt_err env stmt p r hv
    subst hr
    rcases assignErr_eq_some _ _ _ hbad with ha1 | ⟨ha0, h1⟩
    · have hca : checkAutoIncrement stmt = some (some (.invalidDefaultValue nm)) :=
        ha1 ▸ ha
      obtain ⟨c, hc, m, hop⟩ := checkAutoIncrement_invalidDefault_src stmt nm hca
      rw [checkAutoIncrementOp_none_of_null c m (hnull c hc)] at hop
      exact Option.noConfusion hop
    · rcases assignErr_eq_some _ _ _ h1 with hd1 | ⟨hd0, hg1⟩
      · have := checkDashbase_shape env stmt _ (hd1 ▸ hd)
        simp [Err.isDashbaseErr] at this
      · have := checkCreateTableGrammar_shape env stmt _ hg1
        simp [Err.isCreateTableGrammarErr] at this

def c3StmtA : CreateTableData :=
  { table := some { name := { o := "t", l := "t" } },
    cols := [{ name := { name := { o := "c", l := "c" } },
               tp := some { tp := mysql.TypeLong, flen := -1, charset := "", elems := [] },
               options := [{ tp := .autoIncrement, expr := .other },
                           { tp := .defaultValue, expr := .uint64 5 }] }],
    constraints := [],
    options := [] }

def c3StmtB : CreateTableData :=
  { table := some { name := { o := "t", l := "t" } },
    cols := [{ name := { name := { o := "c", l := "c" } },
               tp := some { tp := mysql.TypeLong, flen := -1, charset := "", elems := [] },
               options := [{ tp := .defaultValue, expr := .uint64 5 },
                           { tp := .autoIncrement, expr := .other }] }],
    constraints := [],
    options := [] }

def c3StmtC : CreateTableData :=
  { table := some { name := { o := "t", l := "t" } },
    cols := [{ name := { name := { o := "c", l := "c" } },
               tp := some { tp := mysql.TypeLong, flen := -1, charset := "", elems := [] },
               options := [{ tp := .autoIncrement, expr := .other },
                           { tp := .defaultValue, expr := .null }] }],
    constraints := [],
    options := [] }

/-- C3, witness: all three parts applied at concrete tables. -/
theorem C3_witness :
    (∃ nm, ((some (Err.invalidDefaultValue "c"), Node.createTableStmt c3StmtA) :
        Option Err × Node) = (some (.invalidDefaultValue nm), .createTableStmt c3StmtA)) ∧
    (∃ nm, ((some (Err.invalidDefaultValue "c"), Node.createTableStmt c3StmtB) :
        Option Err × Node) = (some (.invalidDefaultValue nm), .createTableStmt c3StmtB)) ∧
    ((some Err.autoIncrementMustBeKey, Node.createTableStmt c3StmtC) :
        Option Err × Node).1 ≠ some (Err.invalidDefaultValue "c") := by
  refine ⟨?_, ?_, ?_⟩
  · exact C3_theorem.1 envStd c3StmtA false
      { name := { name := { o := "c", l := "c" } },
        tp := some { tp := mysql.TypeLong, flen := -1, charset := "", elems := [] },
        options := [{ tp := .autoIncrement, expr := .other },
                    { tp := .defaultValue, expr := .uint64 5 }] }
      0 1 { tp := .autoIncrement, expr := .other } { tp := .defaultValue, expr := .uint64 5 }
      _ (by decide) (by rfl) (by rfl) (by decide) (by rfl) (by rfl) (by rfl) (by rfl)
  · exact C3_theorem.2.1 envStd c3StmtB false
      { name := { name := { o := "c", l := "c" } },
        tp := some { tp := mysql.TypeLong, flen := -1, charset := "", elems := [] },
        options := [{ tp := .defaultValue, expr := .uint64 5 },
                    { tp := .autoIncrement, expr := .other }] }
      0 1 { tp := .defaultValue, expr := .uint64 5 } { tp := .autoIncrement, expr := .other }
      _ (by decide) (by rfl) (by rfl) (by rfl) (by decide) (by rfl) (by rfl) (by rfl)
  · exact C3_theorem.2.2 envStd c3StmtC false _ "c" (by decide) (by rfl)

/-! ### Bookkeeping of the auto-increment column scan -/

theorem checkAutoIncrementOp_flag (colDef : ColumnDef) (m : Nat) (op : ColumnOption)
    (hg : colDef.options.get? m = some op) (hai : op.tp = .autoIncrement) :
    (checkAutoIncrementOp colDef m).1 = true := by
  unfold checkAutoIncrementOp
  simp only [hg]
  rw [if_pos hai]
  split <;> rfl

theorem checkAutoIncrementOp_flag_oob (colDef : ColumnDef) (m : Nat)
    (h : colDef.options.length ≤ m) : (checkAutoIncrementOp colDef m).1 = false := by
  unfold checkAutoIncrementOp
  rw [List.get?_eq_none.mpr h]

theorem colHasAutoIncrement_src (col : ColumnDef) (h : colHasAutoIncrement col = true) :
    ∃ m op, col.options.get? m = some op ∧ op.tp = .autoIncrement := by
  obtain ⟨op, hmem, htp⟩ := List.any_eq_true.mp h
  obtain ⟨m, hm⟩ := List.get?_of_mem hmem
  exact ⟨m, op, hm, by simpa using htp⟩

theorem autoIncColOptsScan_mono_hasAI (colDef : ColumnDef) (opts : List ColumnOption)
    (i : Nat) (k : Bool) (r : Bool × Bool)
    (h : autoIncColOptsScan colDef i opts true k = .ok r) : r.1 = true := by
  induction opts generalizing i k with
  | nil =>
      have h2 : (Except.ok (true, k) : Except Err (Bool × Bool)) = .ok r := h
      have := (Except.ok.injEq _ _).mp h2
      rw [← this]
  | cons op rest ih =>
      rw [autoIncColOptsScan] at h
      cases hop : checkAutoIncrementOp colDef i with
      | mk b r2 =>
          cases r2 with
          | some e0 => simp only [hop] at h; exact absurd h (by simp)
          | none =>
              simp only [hop] at h
              exact ih _ _ h

theorem autoIncColOptsScan_ok_hasAI (colDef : ColumnDef) (opts : List ColumnOption)
    (i : Nat) (hAI k : Bool) (r : Bool × Bool) (hdrop : colDef.options.drop i = opts)
    (h : autoIncColOptsScan colDef i opts hAI k = .ok r) (m : Nat) (him : i ≤ m)
    (hflag : (checkAutoIncrementOp colDef m).1 = true) : r.1 = true := by
  induction opts generalizing i hAI k with
  | nil =>
      have hlen : colDef.options.length ≤ i := by
        have := congrArg List.length hdrop
        simp [List.length_drop] at this
        omega
      rw [checkAutoIncrementOp_flag_oob colDef m (by omega)] at hflag
      cases hflag
  | cons op rest ih =>
      rw [autoIncColOptsScan] at h
      cases hop : checkAutoIncrementOp colDef i with
      | mk b r2 =>
          cases r2 with
          | some e0 => simp only [hop] at h; exact absurd h (by simp)
          | none =>
              simp only [hop] at h
              have hdrop2 : colDef.options.drop (i + 1) = rest := by
                have := congrArg List.tail hdrop
                simpa [← List.drop_one, List.drop_drop, Nat.add_comm] using this
              rcases Nat.eq_or_lt_of_le him with heq | hlt
              · subst heq
                rw [hop] at hflag
                simp only at hflag
                subst hflag
                cases hAI with
                | true => exact autoIncColOptsScan_mono_hasAI _ _ _ _ _ h
                | false => exact autoIncColOptsScan_mono_hasAI _ _ _ _ _ h
              · exact ih _ _ _ hdrop2 h hlt

/-- A column bearing the auto-increment option comes out of its option
scan with the `hasAutoIncrement` flag set. -/
theorem autoIncColOptsScan_hasAI_of_col (col : ColumnDef) (k : Bool) (r : Bool × Bool)
    (hAI : colHasAutoIncrement col = true)
    (h : autoIncColOptsScan col 0 col.options false k = .ok r) : r.1 = true := by
  obtain ⟨m, op, hm, htp⟩ := colHasAutoIncrement_src col hAI
  exact autoIncColOptsScan_ok_hasAI col col.options 0 false k r rfl h m (by omega)
    (checkAutoIncrementOp_flag col m op hm htp)

theorem autoIncColsScan_count_mono (cols : List ColumnDef) (k : Bool) (cnt : Nat)
    (ai : Option ColumnDef) (r : Bool × Nat × Option ColumnDef)
    (h : autoIncColsScan cols k cnt ai = .ok r) : cnt ≤ r.2.1 := by
  induction cols generalizing k cnt ai with
  | nil =>
      have h2 : (Except.ok (k, cnt, ai) : Except Err (Bool × Nat × Option ColumnDef)) =
          .ok r := h
      have := (Except.ok.injEq _ _).mp h2
      rw [← this]
  | cons c0 rest ih =>
      rw [autoIncColsScan] at h
      cases hsc : autoIncColOptsScan c0 0 c0.options false k with
      | error e0 => simp only [hsc] at h; exact absurd h (by simp)
      | ok p =>
          simp only [hsc] at h
          obtain ⟨hasAI, isKey1⟩ := p
          cases hasAI with
          | true => have := ih _ _ _ h; omega
          | false => exact ih _ _ _ h

theorem autoIncColsScan_count_pos (cols : List ColumnDef) (k : Bool) (cnt : Nat)
    (ai : Option ColumnDef) (r : Bool × Nat × Option ColumnDef)
    (h : autoIncColsScan cols k cnt ai = .ok r) (col : ColumnDef) (hc : col ∈ cols)
    (hAI : colHasAutoIncrement col = true) : cnt + 1 ≤ r.2.1 := by
  induction cols generalizing k cnt ai with
  | nil => cases hc
  | cons c0 rest ih =>
      rw [autoIncColsScan] at h
      cases hsc : autoIncColOptsScan c0 0 c0.options false k with
      | error e0 => simp only [hsc] at h; exact absurd h (by simp)
      | ok p =>
          simp only [hsc] at h
          obtain ⟨hasAI, isKey1⟩ := p
          rcases List.mem_cons.mp hc with heq | hmem
          · subst heq
            have hflag := autoIncColOptsScan_hasAI_of_col col k _ hAI hsc
            simp only at hflag
            subst hflag
            have := autoIncColsScan_count_mono _ _ _ _ _ h
            omega
          · cases hasAI with
            | true => have := ih _ _ _ h hmem; omega
            | false => exact ih _ _ _ h hmem

theorem autoIncColsScan_count_eq_ai (cols : List ColumnDef) (k : Bool) (cnt : Nat)
    (ai : Option ColumnDef) (r : Bool × Nat × Option ColumnDef)
    (h : autoIncColsScan cols k cnt ai = .ok r) (hcnt : r.2.1 = cnt) : r.2.2 = ai := by
  induction cols generalizing k cnt ai with
  | nil =>
      have h2 : (Except.ok (k, cnt, ai) : Except Err (Bool × Nat × Option ColumnDef)) =
          .ok r := h
      have := (Except.ok.injEq _ _).mp h2
      rw [← this]
  | cons c0 rest ih =>
      rw [autoIncColsScan] at h
      cases hsc : autoIncColOptsScan c0 0 c0.options false k with
      | error e0 => simp only [hsc] at h; exact absurd h (by simp)
      | ok p =>
          simp only [hsc] at h
          obtain ⟨hasAI, isKey1⟩ := p
          cases hasAI with
          | true =>
              have := autoIncColsScan_count_mono _ _ _ _ _ h
              omega
          | false => exact ih _ _ _ h hcnt

theorem autoIncColsScan_unique (cols : List ColumnDef) (k : Bool) (cnt : Nat)
    (ai : Option ColumnDef) (r : Bool × Nat × Option ColumnDef)
    (h : autoIncColsScan cols k cnt ai = .ok r) (col : ColumnDef) (hc : col ∈ cols)
    (hAI : colHasAutoIncrement col = true) (hcnt : r.2.1 = cnt + 1) :
    r.2.2 = some col := by
  induction cols generalizing k cnt ai with
  | nil => cases hc
  | cons c0 rest ih =>
      rw [autoIncColsScan] at h
      cases hsc : autoIncColOptsScan c0 0 c0.options false k with
      | error e0 => simp only [hsc] at h; exact absurd h (by simp)
      | ok p =>
          simp only [hsc] at h
          obtain ⟨hasAI, isKey1⟩ := p
          rcases List.mem_cons.mp hc with heq | hmem
          · subst heq
            have hflag := autoIncColOptsScan_hasAI_of_col col k _ hAI hsc
            simp only at hflag
            subst hflag
            exact autoIncColsScan_count_eq_ai _ _ _ _ _ h (by omega)
          · cases hasAI with
            | true =>
                have hge := autoIncColsScan_count_pos _ _ _ _ _ h col hmem hAI
                exact absurd hcnt (by omega)
            | false => exact ih _ _ _ h hmem hcnt

theorem autoIncColsScan_ai_some (cols : List ColumnDef) (k : Bool) (cnt : Nat)
    (c : ColumnDef) (r : Bool × Nat × Option ColumnDef)
    (h : autoIncColsScan cols k cnt (some c) = .ok r) : ∃ c2, r.2.2 = some c2 := by
  induction cols generalizing k cnt c with
  | nil =>
      have h2 : (Except.ok (k, cnt, some c) : Except Err (Bool × Nat × Option ColumnDef)) =
          .ok r := h
      have := (Except.ok.injEq _ _).mp h2
      exact ⟨c, by rw [← this]⟩
  | cons c0 rest ih =>
      rw [autoIncColsScan] at h
      cases hsc : autoIncColOptsScan c0 0 c0.options false k with
      | error e0 => simp only [hsc] at h; exact absurd h (by simp)
      | ok p =>
          simp only [hsc] at h
          obtain ⟨hasAI, isKey1⟩ := p
          cases hasAI with
          | true => exact ih _ _ _ h
          | false => exact ih _ _ _ h

theorem autoIncColsScan_none_ai (cols : List ColumnDef) (k : Bool) (cnt : Nat)
    (k2 : Bool) (cnt2 : Nat)
    (h : autoIncColsScan cols k cnt none = .ok (k2, cnt2, none)) : cnt2 = cnt := by
  induction cols generalizing k cnt with
  | nil =>
      have h2 : (Except.ok (k, cnt, none) : Except Err (Bool × Nat × Option ColumnDef)) =
          .ok (k2, cnt2, none) := h
      have := (Except.ok.injEq _ _).mp h2
      injection this with h3 h4
      injection h4 with h5 h6
      omega
  | cons c0 rest ih =>
      rw [autoIncColsScan] at h
      cases hsc : autoIncColOptsScan c0 0 c0.options false k with
      | error e0 => simp only [hsc] at h; exact absurd h (by simp)
      | ok p =>
          simp only [hsc] at h
          obtain ⟨hasAI, isKey1⟩ := p
          cases hasAI with
          | true =>
              obtain ⟨c2, hc2⟩ := autoIncColsScan_ai_some _ _ _ _ _ h
              simp at hc2
          | false => exact ih _ _ h

/-- C5 (amended): when validation of a CreateTable succeeds, every column
bearing the auto-increment option has one of the permitted numeric
declared types; and when the per-option scans finish cleanly with at
least one auto-increment column, the key-eligibility lookup is defined,
and the last auto-increment column's declared type is not permitted, the
error Validate returns is the incorrect-column-specifier error naming
that last column (which may not be the column that violates the rule
when several columns carry the option, and which replaces the
key-requirement error). -/
theorem C5_theorem :
    (∀ (env : Env) (stmt : CreateTableData) (p : Bool) (t1 : Node),
        Validate env (.createTableStmt stmt) p = some (none, t1) →
        ∀ col ∈ stmt.cols, colHasAutoIncrement col = true →
        ∃ ft, col.tp = some ft ∧ isAutoIncPermittedType ft.tp = true) ∧
    (∀ (env : Env) (stmt : CreateTableData) (p : Bool) (k : Bool) (cnt : Nat)
        (col : ColumnDef) (isKey1 : Bool) (ft : FieldType) (r : Option Err × Node),
        autoIncColsScan stmt.cols false 0 none = .ok (k, cnt, some col) →
        1 ≤ cnt →
        (if k = true then some true else isConstraintKeyTp stmt.constraints col) =
          some isKey1 →
        col.tp = some ft → isAutoIncPermittedType ft.tp = false →
        Validate env (.createTableStmt stmt) p = some r →
        r = (some (.incorrectColumnSpecifier col.name.name.o), .createTableStmt stmt)) := by
  constructor
  · intro env stmt p t1 hv col hc hAI
    obtain ⟨d, a, hd, ha, hr⟩ := Validate_createTableStmt_err env stmt p (none, t1) hv
    have hr1 : assignErr (assignErr (checkCreateTableGrammar env stmt) d) a = none :=
      (congrArg Prod.fst hr).symm
    obtain ⟨h1, ha0⟩ := assignErr_eq_none _ _ hr1
    subst ha0
    unfold checkAutoIncrement at ha
    cases hsc : autoIncColsScan stmt.cols false 0 none with
    | error e0 => simp only [hsc] at ha; exact absurd ha (by simp)
    | ok p2 =>
        simp only [hsc] at ha
        obtain ⟨k, cnt, ai⟩ := p2
        have hcnt1 : 1 ≤ cnt := autoIncColsScan_count_pos _ _ _ _ _ hsc col hc hAI
        rw [if_neg (by omega : ¬ cnt < 1)] at ha
        cases hai2 : ai with
        | none =>
            subst hai2
            have := autoIncColsScan_none_ai _ _ _ _ _ hsc
            omega
        | some col2 =>
            subst hai2
            cases hik : (if k = true then some true
                else isConstraintKeyTp stmt.constraints col2) with
            | none => simp only [hik] at ha; exact absurd ha (by simp)
            | some isKey1 =>
                simp only [hik] at ha
                cases htp : col2.tp with
                | none => simp only [htp] at ha; exact absurd ha (by simp)
                | some ft =>
                    simp only [htp] at ha
                    split at ha
                    · rename_i hperm
                      have hkey := (Option.some.injEq _ _).mp ha
                      have hcle : ¬ cnt > 1 := by
                        intro hgt
                        rw [if_pos (Or.inr hgt)] at hkey
                        exact Option.noConfusion hkey
                      have huniq := autoIncColsScan_unique _ _ _ _ _ hsc col hc hAI
                        (show cnt = 0 + 1 by omega)
                      have hcol2 := (Option.some.injEq _ _).mp huniq
                      subst hcol2
                      exact ⟨ft, htp, hperm⟩
                    · exact absurd ha (by simp)
  · intro env stmt p k cnt col isKey1 ft r hsc hcnt hik htp hperm hv
    have hca : checkAutoIncrement stmt =
        some (some (.incorrectColumnSpecifier col.name.name.o)) := by
      unfold checkAutoIncrement
      simp only [hsc]
      rw [if_neg (by omega : ¬ cnt < 1)]
      simp only [hik, htp]
      rw [if_neg (by simp [hperm])]
    obtain ⟨d, a, hd, ha, hr⟩ := Validate_createTableStmt_err env stmt p r hv
    rw [hca] at ha
    have haa := (Option.some.injEq _ _).mp ha
    rw [hr, ← haa]
    rfl

def c5CexStmt : CreateTableData :=
  { table := some { name := { o := "t", l := "t" } },
    cols := [{ name := { name := { o := "a", l := "a" } },
               tp := some { tp := mysql.TypeVarchar, flen := -1, charset := "utf8",
                            elems := [] },
               options := [{ tp := .autoIncrement, expr := .other }] },
             { name := { name := { o := "b", l := "b" } },
               tp := some { tp := mysql.TypeLong, flen := -1, charset := "", elems := [] },
               options := [{ tp := .autoIncrement, expr := .other }] }],
    constraints := [],
    options := [] }

/-- C5, counterexample: column `a` carries the auto-increment option with
a non-permitted (varchar) declared type, yet Validate returns the
key-requirement error, not the incorrect-column-specifier error for `a`:
the type restriction is checked only against the last auto-increment
column (`b`, of permitted type), so the claim's "any other declared type
causes Validate to return 'Incorrect column specifier' for that column"
is false as stated. -/
theorem C5_counterexample :
    (∃ col, col ∈ c5CexStmt.cols ∧ colHasAutoIncrement col = true ∧
      ∃ ft, col.tp = some ft ∧ isAutoIncPermittedType ft.tp = false) ∧
    Validate envStd (.createTableStmt c5CexStmt) false =
      some (some .autoIncrementMustBeKey, .createTableStmt c5CexStmt) ∧
    (∀ nm, Err.autoIncrementMustBeKey ≠ .incorrectColumnSpecifier nm) := by
  refine ⟨?_, by rfl, by intro nm h; cases h⟩
  refine ⟨{ name := { name := { o := "a", l := "a" } },
            tp := some { tp := mysql.TypeVarchar, flen := -1, charset := "utf8",
                         elems := [] },
            options := [{ tp := .autoIncrement, expr := .other }] }, ?_, ?_, ?_⟩
  · decide
  · decide
  · exact ⟨_, rfl, by decide⟩

def c5SuccStmt : CreateTableData :=
  { table := some { name := { o := "t", l := "t" } },
    cols := [{ name := { name := { o := "c", l := "c" } },
               tp := some { tp := mysql.TypeLong, flen := -1, charset := "", elems := [] },
               options := [{ tp := .primaryKey, expr := .other },
                           { tp := .autoIncrement, expr := .other }] }],
    constraints := [],
    options := [] }

def c5SpecStmt : CreateTableData :=
  { table := some { name := { o := "t", l := "t" } },
    cols := [{ name := { name := { o := "c", l := "c" } },
               tp := some { tp := mysql.TypeVarchar, flen := -1, charset := "utf8",
                            elems := [] },
               options := [{ tp := .autoIncrement, expr := .other }] }],
    constraints := [],
    options := [] }

/-- C5, witness: both amended parts applied at concrete tables. -/
theorem C5_witness :
    (∃ ft, ({ name := { name := { o := "c", l := "c" } },
              tp := some { tp := mysql.TypeLong, flen := -1, charset := "", elems := [] },
              options := [{ tp := .primaryKey, expr := .other },
                          { tp := .autoIncrement, expr := .other }] } :
        ColumnDef).tp = some ft ∧ isAutoIncPermittedType ft.tp = true) ∧
    ((some (Err.incorrectColumnSpecifier "c"), Node.createTableStmt c5SpecStmt) :
        Option Err × Node) =
      (some (.incorrectColumnSpecifier "c"), .createTableStmt c5SpecStmt) := by
  constructor
  · exact C5_theorem.1 envStd c5SuccStmt false (.createTableStmt c5SuccStmt) (by rfl)
      _ (by decide) (by decide)
  · exact C5_theorem.2 envStd c5SpecStmt false false 1
      { name := { name := { o := "c", l := "c" } },
        tp := some { tp := mysql.TypeVarchar, flen := -1, charset := "utf8", elems := [] },
        options := [{ tp := .autoIncrement, expr := .other }] }
      false { tp := mysql.TypeVarchar, flen := -1, charset := "utf8", elems := [] }
      _ (by rfl) (by omega) (by rfl) (by rfl) (by rfl) (by rfl)

def c1Col : ColumnDef :=
  { name := { name := { o := "c", l := "c" } },
    tp := some { tp := mysql.TypeVarchar, flen := -1, charset := "utf8", elems := [] },
    options := [{ tp := .autoIncrement, expr := .other }] }

def c1Stmt : CreateTableData :=
  { table := some { name := { o := "t", l := "t" } },
    cols := [c1Col],
    constraints := [],
    options := [{ tp := .engine, strValue := "Dashbase" }] }

/-- C1, counterexample: a Dashbase-engine CreateTable with no
DASHBASE_CONN option and a non-key auto-increment varchar column.  The
first error produced in traversal order is the Dashbase checker's
connection-required error, which sets the slot — yet the auto-increment
checker still runs, assigns the key-requirement error and then the
type-restriction error over it, and Validate returns the
incorrect-column-specifier error.  This falsifies all three parts of the
claim: a later-executed check changes the slot, the returned error is not
the first produced, and the type-restriction error replaces an earlier
key error. -/
theorem C1_counterexample :
    checkDashbase envStd c1Stmt = some (some .dashbaseConnRequired) ∧
    checkAutoIncrement c1Stmt = some (some (.incorrectColumnSpecifier "c")) ∧
    Validate envStd (.createTableStmt c1Stmt) false =
      some (some (.incorrectColumnSpecifier "c"), .createTableStmt c1Stmt) ∧
    Err.dashbaseConnRequired ≠ Err.incorrectColumnSpecifier "c" := by
  refine ⟨by rfl, by rfl, by rfl, by intro h; cases h⟩

/-- C1 (amended): on CreateTable exit both post-checks run regardless of
the slot's content, and each assignment overwrites it, so the error
Validate returns on a CreateTable root is the LAST assignment in the
order grammar check, Dashbase check, auto-increment check; moreover,
inside the auto-increment checker, when the key-requirement violation
holds and the last auto-increment column's type is not permitted, the
type-restriction error is the checker's net result — it replaces the
already-assigned key-requirement error.  (First-error-wins still holds
across distinct nodes, because the walk stops at the first failing node;
it fails only inside the CreateTable exit dispatch.) -/
theorem C1_theorem :
    (∀ (env : Env) (stmt : CreateTableData) (p : Bool) (d a : Option Err),
        checkDashbase env stmt = some d → checkAutoIncrement stmt = some a →
        Validate env (.createTableStmt stmt) p =
          some (assignErr (assignErr (checkCreateTableGrammar env stmt) d) a,
                .createTableStmt stmt)) ∧
    (∀ (stmt : CreateTableData) (k : Bool) (cnt : Nat) (col : ColumnDef)
        (isKey1 : Bool) (ft : FieldType),
        autoIncColsScan stmt.cols false 0 none = .ok (k, cnt, some col) →
        1 ≤ cnt →
        (if k = true then some true else isConstraintKeyTp stmt.constraints col) =
          some isKey1 →
        (((¬ stmt.options.any (fun opt => opt.tp == .engine &&
             stringsEqualFold opt.strValue "MyISAM")) ∧ isKey1 = false) ∨ cnt > 1) →
        col.tp = some ft → isAutoIncPermittedType ft.tp = false →
        checkAutoIncrement stmt =
          some (some (.incorrectColumnSpecifier col.name.name.o))) := by
  constructor
  · intro env stmt p d a hd ha
    rw [Validate_createTableStmt, hd, ha]
    rfl
  · intro stmt k cnt col isKey1 ft hsc hcnt hik hviol htp hperm
    unfold checkAutoIncrement
    simp only [hsc]
    rw [if_neg (by omega : ¬ cnt < 1)]
    simp only [hik, htp]
    rw [if_neg (by simp [hperm])]

/-- C1, witness: both amended parts applied at the counterexample table. -/
theorem C1_witness :
    Validate envStd (.createTableStmt c1Stmt) false =
      some (assignErr (assignErr (checkCreateTableGrammar envStd c1Stmt)
              (some .dashbaseConnRequired)) (some (.incorrectColumnSpecifier "c")),
            .createTableStmt c1Stmt) ∧
    checkAutoIncrement c1Stmt = some (some (.incorrectColumnSpecifier "c")) := by
  constructor
  · exact C1_theorem.1 envStd c1Stmt false (some .dashbaseConnRequired)
      (some (.incorrectColumnSpecifier "c")) (by rfl) (by rfl)
  · exact C1_theorem.2 c1Stmt false 1 c1Col false
      { tp := mysql.TypeVarchar, flen := -1, charset := "utf8", elems := [] }
      (by rfl) (by omega) (by rfl) (Or.inl ⟨by decide, rfl⟩) (by rfl) (by rfl)

/-! ### The Dashbase checker on well-formed tables -/

theorem countPKMarkerOccurrences_cons (c : ColumnDef) (rest : List ColumnDef) :
    countPKMarkerOccurrences (c :: rest) =
      (c.options.filter (fun op => op.tp == .primaryKey)).length +
        countPKMarkerOccurrences rest := by
  simp [countPKMarkerOccurrences]

theorem dashbaseColOptsScan_ok (colDef : ColumnDef) (opts : List ColumnOption) (pk : Nat)
    (h : ∀ op ∈ opts, op.tp = .primaryKey →
      colDef.tp.map FieldType.tp = some mysql.TypeDatetime) :
    dashbaseColOptsScan colDef opts pk =
      some (.ok (pk + (opts.filter (fun op => op.tp == .primaryKey)).length)) := by
  induction opts generalizing pk with
  | nil => simp [dashbaseColOptsScan]
  | cons op rest ih =>
      rw [dashbaseColOptsScan]
      cases hp : op.tp
      case primaryKey =>
          have hdt := h op (List.mem_cons_self op rest) hp
          cases htp : colDef.tp with
          | none => rw [htp] at hdt; simp at hdt
          | some ft =>
              rw [htp] at hdt
              have hdt2 : some ft.tp = some mysql.TypeDatetime := hdt
              have hft := (Option.some.injEq _ _).mp hdt2
              show (if ft.tp ≠ mysql.TypeDatetime then some (Except.error Err.dashbasePKMustBeDatetime)
                  else dashbaseColOptsScan colDef rest (pk + 1)) =
                some (Except.ok (pk +
                  (List.filter (fun op => op.tp == ColumnOptionTp.primaryKey) (op :: rest)).length))
              rw [if_neg (by simp [hft])]
              rw [ih (pk + 1) (fun op2 hm h2 => h op2 (List.mem_cons_of_mem op hm) h2)]
              simp [List.filter_cons, hp]
              omega
      all_goals
        (rw [ih pk (fun op2 hm h2 => h op2 (List.mem_cons_of_mem op hm) h2)]
         simp [List.filter_cons, hp])

theorem dashbaseColsScan_ok (cols : List ColumnDef) (pk : Nat)
    (h : ∀ c ∈ cols, ∀ op ∈ c.options, op.tp = .primaryKey →
      c.tp.map FieldType.tp = some mysql.TypeDatetime) :
    dashbaseColsScan cols pk = some (.ok (pk + countPKMarkerOccurrences cols)) := by
  induction cols generalizing pk with
  | nil => simp [dashbaseColsScan, countPKMarkerOccurrences]
  | cons c rest ih =>
      rw [dashbaseColsScan]
      simp only [dashbaseColOptsScan_ok c c.options pk (h c (List.mem_cons_self c rest))]
      rw [ih _ (fun c2 hm => h c2 (List.mem_cons_of_mem c hm))]
      rw [countPKMarkerOccurrences_cons]
      exact congrArg (fun n => some (Except.ok n)) (by omega)

theorem dashbaseCheckColType_none_of (cols : List ColumnDef) (k0 : IndexColName)
    (code : Nat) (e0 : Err)
    (h : ∀ col ∈ cols, col.name.name.l = k0.column.name.l →
      col.tp.map FieldType.tp = some code) :
    dashbaseCheckColType cols k0 code e0 = some none := by
  induction cols with
  | nil => rfl
  | cons c rest ih =>
      rw [dashbaseCheckColType]
      split
      · rename_i hname
        have hdt := h c (List.mem_cons_self c rest) hname
        cases htp : c.tp with
        | none => rw [htp] at hdt; simp at hdt
        | some ft =>
            rw [htp] at hdt
            have hdt2 : some ft.tp = some code := hdt
            have hft := (Option.some.injEq _ _).mp hdt2
            show (if ft.tp ≠ code then some (some e0) else (some none : Option (Option Err)))
              = some none
            rw [if_neg (by simp [hft])]
      · exact ih (fun c2 hm hn => h c2 (List.mem_cons_of_mem c hm) hn)

theorem dashbaseConsScan_ok (cols : List ColumnDef) (cons : List Constraint) (pk : Nat)
    (hnou : ∀ c ∈ cons, c.tp ≠ .uniq ∧ c.tp ≠ .uniqKey ∧ c.tp ≠ .uniqIndex)
    (hpk : ∀ c ∈ cons, c.tp = .primaryKey → c.keys.length = 1 ∧
      ∀ k0 ∈ c.keys, ∀ col ∈ cols, col.name.name.l = k0.column.name.l →
        col.tp.map FieldType.tp = some mysql.TypeDatetime)
    (hidx : ∀ c ∈ cons, (c.tp = .key ∨ c.tp = .index) → c.keys.length = 1 ∧
      ∀ k0 ∈ c.keys, ∀ col ∈ cols, col.name.name.l = k0.column.name.l →
        col.tp.map FieldType.tp = some mysql.TypeBlob) :
    dashbaseConsScan cols cons pk = some (.ok (pk + countPKConstraints cons)) := by
  induction cons generalizing pk with
  | nil => simp [dashbaseConsScan, countPKConstraints]
  | cons c rest ih =>
      have hrec := fun pk2 => ih pk2 (fun c2 hm => hnou c2 (List.mem_cons_of_mem c hm))
        (fun c2 hm => hpk c2 (List.mem_cons_of_mem c hm))
        (fun c2 hm => hidx c2 (List.mem_cons_of_mem c hm))
      rw [dashbaseConsScan]
      cases htp : c.tp
      case primaryKey =>
          obtain ⟨hlen, hall⟩ := hpk c (List.mem_cons_self c rest) htp
          cases hk : c.keys with
          | nil => rw [hk] at hlen; simp at hlen
          | cons k0 ktail =>
              cases ktail with
              | cons k1 kt2 => rw [hk] at hlen; simp at hlen
              | nil =>
                  simp only [dashbaseCheckColType_none_of cols k0 mysql.TypeDatetime
                    .dashbasePKMustBeDatetime
                    (fun col hm hn => hall k0 (by rw [hk]; exact List.mem_cons_self k0 [])
                      col hm hn)]
                  rw [hrec (pk + 1)]
                  rw [countPKConstraints_cons_pk c rest htp]
                  exact congrArg (fun n => some (Except.ok n)) (by omega)
      case uniq =>
          exact absurd htp (hnou c (List.mem_cons_self c rest)).1
      case uniqKey =>
          exact absurd htp (hnou c (List.mem_cons_self c rest)).2.1
      case uniqIndex =>
          exact absurd htp (hnou c (List.mem_cons_self c rest)).2.2
      case key | index =>
          obtain ⟨hlen, hall⟩ := hidx c (List.mem_cons_self c rest) (by simp [htp])
          cases hk : c.keys with
          | nil => rw [hk] at hlen; simp at hlen
          | cons k0 ktail =>
              cases ktail with
              | cons k1 kt2 => rw [hk] at hlen; simp at hlen
              | nil =>
                  simp only [dashbaseCheckColType_none_of cols k0 mysql.TypeBlob
                    .dashbaseIndexMustBeText
                    (fun col hm hn => hall k0 (by rw [hk]; exact List.mem_cons_self k0 [])
                      col hm hn)]
                  rw [hrec pk]
                  rw [countPKConstraints_cons_other c rest (by simp [htp])]
      case foreignKey | fulltext =>
          rw [hrec pk]
          rw [countPKConstraints_cons_other c rest (by simp [htp])]

theorem checkDashbase_connRequired (env : Env) (stmt : CreateTableData)
    (h_eng : isEngineDashbase stmt = true)
    (hconn : getStmtTableOption stmt .dashbaseConnection = none) :
    checkDashbase env stmt = some (some .dashbaseConnRequired) := by
  rw [checkDashbase, if_neg (by simp [h_eng]), hconn]

theorem checkDashbase_connInvalid (env : Env) (stmt : CreateTableData) (opt : TableOption)
    (h_eng : isEngineDashbase stmt = true)
    (hconn : getStmtTableOption stmt .dashbaseConnection = some opt)
    (hparse : env.parseConnectionOption opt.strValue = false) :
    checkDashbase env stmt = some (some .dashbaseConnInvalid) := by
  rw [checkDashbase, if_neg (by simp [h_eng])]
  simp [hconn, hparse]

/-- When the engine is Dashbase, the connection option parses and both
scans complete, `checkDashbase` returns the needs-primary-key error
exactly when the final primary-key count is zero. -/
theorem checkDashbase_eval (env : Env) (stmt : CreateTableData) (opt : TableOption)
    (pk1 pk2 : Nat)
    (h_eng : isEngineDashbase stmt = true)
    (hconn : getStmtTableOption stmt .dashbaseConnection = some opt)
    (hparse : env.parseConnectionOption opt.strValue = true)
    (hcols : dashbaseColsScan stmt.cols 0 = some (.ok pk1))
    (hcons : dashbaseConsScan stmt.cols stmt.constraints pk1 = some (.ok pk2)) :
    checkDashbase env stmt =
      if pk2 = 0 then some (some .dashbaseNeedPK) else some none := by
  rw [checkDashbase, if_neg (by simp [h_eng])]
  simp [hconn, hparse, hcols, hcons]

def c4Stmt : CreateTableData :=
  { table := some { name := { o := "t", l := "t" } },
    cols := [{ name := { name := { o := "ts", l := "ts" } },
               tp := some { tp := mysql.TypeDatetime, flen := -1, charset := "utf8",
                            elems := [] },
               options := [{ tp := .primaryKey, expr := .other }] },
             { name := { name := { o := "c", l := "c" } },
               tp := some { tp := mysql.TypeVarchar, flen := -1, charset := "utf8",
                            elems := [] },
               options := [{ tp := .autoIncrement, expr := .other }] }],
    constraints := [],
    options := [{ tp := .engine, strValue := "Dashbase" },
                { tp := .dashbaseConnection, strValue := "solr" }] }

/-- C4, counterexample: a Dashbase-engine CreateTable satisfying all the
claim's success conditions — parsable connection string, exactly one
primary key declared on a datetime column, no unique-kind and no
key/index constraint — plus one extra auto-increment varchar column.
Validation does not succeed: the exit-time auto-increment check assigns
the incorrect-column-specifier error over the Dashbase checker's clean
outcome, so the claim's success branch is false as stated. -/
theorem C4_counterexample :
    isEngineDashbase c4Stmt = true ∧
    getStmtTableOption c4Stmt .dashbaseConnection =
      some { tp := .dashbaseConnection, strValue := "solr" } ∧
    envStd.parseConnectionOption "solr" = true ∧
    countPKMarkerOccurrences c4Stmt.cols + countPKConstraints c4Stmt.constraints = 1 ∧
    (∀ c ∈ c4Stmt.cols, ∀ op ∈ c.options, op.tp = .primaryKey →
      c.tp.map FieldType.tp = some mysql.TypeDatetime) ∧
    c4Stmt.constraints = [] ∧
    checkDashbase envStd c4Stmt = some none ∧
    Validate envStd (.createTableStmt c4Stmt) false =
      some (some (.incorrectColumnSpecifier "c"), .createTableStmt c4Stmt) ∧
    (some (Err.incorrectColumnSpecifier "c") : Option Err) ≠ none := by
  refine ⟨by rfl, by rfl, by rfl, by rfl, by decide, by rfl, by rfl, by rfl, by simp⟩

/-- **C4** (amended): for a CreateTable whose engine option
case-insensitively equals "Dashbase", stated on statements whose
auto-increment check makes no assignment (that exit check runs after the
Dashbase check and otherwise overwrites its outcome, see C1/C4's
counterexample): (A) with no DASHBASE_CONN table option Validate returns
the connection-required error; (B) with a DASHBASE_CONN option whose
value the connection parser rejects it returns the connection-invalid
error; (C) with a parsable connection value, every column bearing a
column-level PRIMARY KEY marker typed datetime, no unique-kind
constraint, every table-level PRIMARY KEY constraint naming exactly one
datetime-typed column, every KEY/INDEX constraint naming exactly one
blob-typed column, a combined primary-key count of one and no grammar
error, validation succeeds; (D) whenever the two Dashbase scans complete
with a final primary-key count of zero, Validate returns the
needs-primary-key error. -/
theorem C4_theorem :
    (∀ env stmt p r, isEngineDashbase stmt = true →
      getStmtTableOption stmt .dashbaseConnection = none →
      checkAutoIncrement stmt = some none →
      Validate env (.createTableStmt stmt) p = some r →
      r = (some .dashbaseConnRequired, .createTableStmt stmt)) ∧
    (∀ env stmt opt p r, isEngineDashbase stmt = true →
      getStmtTableOption stmt .dashbaseConnection = some opt →
      env.parseConnectionOption opt.strValue = false →
      checkAutoIncrement stmt = some none →
      Validate env (.createTableStmt stmt) p = some r →
      r = (some .dashbaseConnInvalid, .createTableStmt stmt)) ∧
    (∀ env stmt opt p, isEngineDashbase stmt = true →
      getStmtTableOption stmt .dashbaseConnection = some opt →
      env.parseConnectionOption opt.strValue = true →
      (∀ c ∈ stmt.cols, ∀ op ∈ c.options, op.tp = .primaryKey →
        c.tp.map FieldType.tp = some mysql.TypeDatetime) →
      (∀ c ∈ stmt.constraints, c.tp ≠ .uniq ∧ c.tp ≠ .uniqKey ∧ c.tp ≠ .uniqIndex) →
      (∀ c ∈ stmt.constraints, c.tp = .primaryKey → c.keys.length = 1 ∧
        ∀ k0 ∈ c.keys, ∀ col ∈ stmt.cols, col.name.name.l = k0.column.name.l →
          col.tp.map FieldType.tp = some mysql.TypeDatetime) →
      (∀ c ∈ stmt.constraints, (c.tp = .key ∨ c.tp = .index) → c.keys.length = 1 ∧
        ∀ k0 ∈ c.keys, ∀ col ∈ stmt.cols, col.name.name.l = k0.column.name.l →
          col.tp.map FieldType.tp = some mysql.TypeBlob) →
      countPKMarkerOccurrences stmt.cols + countPKConstraints stmt.constraints = 1 →
      checkCreateTableGrammar env stmt = none →
      checkAutoIncrement stmt = some none →
      Validate env (.createTableStmt stmt) p = some (none, .createTableStmt stmt)) ∧
    (∀ env stmt opt pk1 p r, isEngineDashbase stmt = true →
      getStmtTableOption stmt .dashbaseConnection = some opt →
      env.parseConnectionOption opt.strValue = true →
      dashbaseColsScan stmt.cols 0 = some (.ok pk1) →
      dashbaseConsScan stmt.cols stmt.constraints pk1 = some (.ok 0) →
      checkAutoIncrement stmt = some none →
      Validate env (.createTableStmt stmt) p = some r →
      r = (some .dashbaseNeedPK, .createTableStmt stmt)) := by
  refine ⟨?_, ?_, ?_, ?_⟩
  · intro env stmt p r h_eng hconn hai hv
    obtain ⟨d, a, hd, ha, hr⟩ := Validate_createTableStmt_err env stmt p r hv
    rw [checkDashbase_connRequired env stmt h_eng hconn] at hd
    rw [hai] at ha
    obtain rfl := (Option.some.injEq _ _).mp hd
    obtain rfl := (Option.some.injEq _ _).mp ha
    exact hr
  · intro env stmt opt p r h_eng hconn hparse hai hv
    obtain ⟨d, a, hd, ha, hr⟩ := Validate_createTableStmt_err env stmt p r hv
    rw [checkDashbase_connInvalid env stmt opt h_eng hconn hparse] at hd
    rw [hai] at ha
    obtain rfl := (Option.some.injEq _ _).mp hd
    obtain rfl := (Option.some.injEq _ _).mp ha
    exact hr
  · intro env stmt opt p h_eng hconn hparse hcolpk hnou hpkc hidx hone hgram hai
    have hcols := dashbaseColsScan_ok stmt.cols 0 hcolpk
    have hcons := dashbaseConsScan_ok stmt.cols stmt.constraints
      (0 + countPKMarkerOccurrences stmt.cols) hnou hpkc hidx
    have hdash := checkDashbase_eval env stmt opt _ _ h_eng hconn hparse hcols hcons
    rw [if_neg (by omega)] at hdash
    rw [Validate_createTableStmt]
    simp only [hdash, hai, hgram]
    rfl
  · intro env stmt opt pk1 p r h_eng hconn hparse hcols hcons hai hv
    obtain ⟨d, a, hd, ha, hr⟩ := Validate_createTableStmt_err env stmt p r hv
    have hdash := checkDashbase_eval env stmt opt pk1 0 h_eng hconn hparse hcols hcons
    rw [if_pos rfl] at hdash
    rw [hdash] at hd
    rw [hai] at ha
    obtain rfl := (Option.some.injEq _ _).mp hd
    obtain rfl := (Option.some.injEq _ _).mp ha
    exact hr

def c4wA : CreateTableData :=
  { table := some { name := { o := "t", l := "t" } },
    cols := [{ name := { name := { o := "ts", l := "ts" } },
               tp := some { tp := mysql.TypeDatetime, flen := -1, charset := "utf8",
                            elems := [] },
               options := [{ tp := .primaryKey, expr := .other }] }],
    constraints := [],
    options := [{ tp := .engine, strValue := "Dashbase" }] }

def c4wC : CreateTableData :=
  { c4wA with options := [{ tp := .engine, strValue := "Dashbase" },
                          { tp := .dashbaseConnection, strValue := "solr" }] }

def c4wD : CreateTableData :=
  { c4wC with cols := [{ name := { name := { o := "ts", l := "ts" } },
                         tp := some { tp := mysql.TypeDatetime, flen := -1,
                                      charset := "utf8", elems := [] },
                         options := [] }] }

theorem C4_witness :
    ((some Err.dashbaseConnRequired, Node.createTableStmt c4wA) : Option Err × Node) =
      (some .dashbaseConnRequired, .createTableStmt c4wA) ∧
    ((some Err.dashbaseConnInvalid, Node.createTableStmt c4wC) : Option Err × Node) =
      (some .dashbaseConnInvalid, .createTableStmt c4wC) ∧
    Validate envStd (.createTableStmt c4wC) false = some (none, .createTableStmt c4wC) ∧
    ((some Err.dashbaseNeedPK, Node.createTableStmt c4wD) : Option Err × Node) =
      (some .dashbaseNeedPK, .createTableStmt c4wD) := by
  refine ⟨?_, ?_, ?_, ?_⟩
  · exact C4_theorem.1 envStd c4wA false
      (some .dashbaseConnRequired, .createTableStmt c4wA) (by rfl) (by rfl) (by rfl) (by rfl)
  · exact C4_theorem.2.1 envRejectConn c4wC { tp := .dashbaseConnection, strValue := "solr" }
      false (some .dashbaseConnInvalid, .createTableStmt c4wC)
      (by rfl) (by rfl) (by rfl) (by rfl) (by rfl)
  · exact C4_theorem.2.2.1 envStd c4wC { tp := .dashbaseConnection, strValue := "solr" }
      false (by rfl) (by rfl) (by rfl) (by decide) (by decide) (by decide) (by decide)
      (by rfl) (by rfl) (by rfl)
  · exact C4_theorem.2.2.2 envStd c4wD { tp := .dashbaseConnection, strValue := "solr" }
      0 false (some .dashbaseNeedPK, .createTableStmt c4wD)
      (by rfl) (by rfl) (by rfl) (by rfl) (by rfl) (by rfl) (by rfl)

/-- **C6**: for a Limit node whose count is a concrete `uint64` value (not
a parameter marker) and whose offset is absent or concrete, Validate
succeeds with no error and rewrites the count to
`MaxUint64 − offset` exactly when `count > MaxUint64 − offset`, leaving it
unchanged otherwise. -/
theorem C6_theorem (env : Env) (p : Bool) (c : Nat) (off : Node)
    (hoff : isConcreteLimitArg off = true) :
    Validate env (.limit (.valueExpr (.uint64 c)) off) p =
      some (none, .limit
        (.valueExpr (.uint64 (if c > math.MaxUint64 - limitOffsetValue off
          then math.MaxUint64 - limitOffsetValue off else c))) off) := by
  cases off with
  | nilExpr =>
      simp [Validate, accept, Enter, Leave, getUint64Value, setUint64Value,
        limitOffsetValue]
      split
      · rename_i h
        split at h <;> simp at h
      · rename_i node1 fst s h
        split at h <;> rename_i hc <;>
          (have h2 := (Option.some.injEq _ _).mp h
           injection h2 with ha hb
           injection hb with hb1 hb2
           subst ha; subst hb2
           simp [hc])
  | valueExpr d =>
      simp [Validate, accept, Enter, Leave, getUint64Value, setUint64Value,
        limitOffsetValue]
      split
      · rename_i h
        split at h <;> simp at h
      · rename_i node1 fst s h
        split at h <;> rename_i hc <;>
          (have h2 := (Option.some.injEq _ _).mp h
           injection h2 with ha hb
           injection hb with hb1 hb2
           subst ha; subst hb2
           simp [hc])
  | paramMarkerExpr => simp [isConcreteLimitArg] at hoff
  | aggregateFuncExpr args => simp [isConcreteLimitArg] at hoff
  | limit c2 o2 => simp [isConcreteLimitArg] at hoff
  | createTableStmt stmt => simp [isConcreteLimitArg] at hoff
  | createIndexStmt stmt => simp [isConcreteLimitArg] at hoff
  | alterTableStmt stmt => simp [isConcreteLimitArg] at hoff
  | other children => simp [isConcreteLimitArg] at hoff

theorem C6_witness :
    Validate envStd (.limit (.valueExpr (.uint64 18446744073709551615))
        (.valueExpr (.uint64 10))) false =
      some (none, .limit (.valueExpr (.uint64 18446744073709551605))
        (.valueExpr (.uint64 10))) ∧
    Validate envStd (.limit (.valueExpr (.uint64 100)) (.valueExpr (.uint64 10))) false =
      some (none, .limit (.valueExpr (.uint64 100)) (.valueExpr (.uint64 10))) := by
  constructor
  · exact (C6_theorem envStd false 18446744073709551615 (.valueExpr (.uint64 10))
      (by rfl)).trans (by rfl)
  · exact (C6_theorem envStd false 100 (.valueExpr (.uint64 10)) (by rfl)).trans (by rfl)

/-! ### Idempotence of the walk on validated trees -/

theorem validator_set_err_none (s : Validator) (h : s.err = none) :
    { s with err := (none : Option Err) } = s := by
  cases s
  simp_all

theorem validator_set_set (s : Validator) (b : Bool) (h : s.inAggregate = false) :
    { { s with inAggregate := b } with inAggregate := false } = s := by
  cases s
  simp_all

theorem assignErr_none_left (r : Option Err) : assignErr none r = r := by
  cases r <;> rfl

theorem validator_eta2 (s : Validator) (hs : s.err = none) (hA : s.inAggregate = false) :
    Validator.mk none s.wildCardCount s.inPrepare false = s := by
  cases s
  simp_all

theorem accept_valueExpr (env : Env) (d : Datum) (s : Validator) :
    accept env (.valueExpr d) s = some (.valueExpr d, s.err.isNone, s) := by
  rw [accept]
  simp [Enter, Leave]

/-- Evaluating the walk on a CreateTable statement from an arbitrary
starting state. -/
theorem accept_createTable (env : Env) (stmt : CreateTableData) (s : Validator) :
    accept env (.createTableStmt stmt) s =
      (checkDashbase env stmt).bind (fun d =>
        (checkAutoIncrement stmt).map (fun a =>
          (Node.createTableStmt stmt,
           (assignErr (assignErr (assignErr s.err (checkCreateTableGrammar env stmt)) d)
             a).isNone,
           { s with
             err := assignErr
               (assignErr (assignErr s.err (checkCreateTableGrammar env stmt)) d) a }))) := by
  rw [accept]
  cases hg : checkCreateTableGrammar env stmt <;>
    cases hd : checkDashbase env stmt <;>
      cases ha : checkAutoIncrement stmt <;>
        cases he : s.err <;>
          simp [Enter, Leave, assignErr, hg, hd, ha, he]

theorem accept_createIndex (env : Env) (stmt : CreateIndexData) (s : Validator) :
    accept env (.createIndexStmt stmt) s =
      some (.createIndexStmt stmt, (checkCreateIndexGrammar stmt).isNone,
        { s with err := checkCreateIndexGrammar stmt }) := by
  rw [accept]
  cases he : checkCreateIndexGrammar stmt <;> simp [Enter, Leave, he]

theorem accept_alter (env : Env) (stmt : AlterTableData) (s : Validator) :
    accept env (.alterTableStmt stmt) s =
      some (.alterTableStmt stmt, (checkAlterTableGrammar env s.err stmt.specs).isNone,
        { s with err := checkAlterTableGrammar env s.err stmt.specs }) := by
  rw [accept]
  cases he : checkAlterTableGrammar env s.err stmt.specs <;> simp [Enter, Leave, he]

mutual
/-- On a starting state with an empty error slot, a completed walk of a
node either ends with an error in the slot (and `ok = false`), or it ends
cleanly: then the state is restored exactly and re-walking the returned
(possibly Limit-clamped) node from the same state succeeds and returns it
unchanged. -/
theorem accept_restore (env : Env) (n : Node) :
    ∀ s n1 ok s1, accept env n s = some (n1, ok, s1) → s.err = none →
      ((ok = true) ↔ s1.err = none) ∧
      (ok = true → s1 = s ∧ accept env n1 s = some (n1, true, s)) := by
  cases n with
  | nilExpr =>
      intro s n1 ok s1 h hs
      have h0 := h
      rw [accept] at h
      simp only [Enter, Leave] at h
      have h2 := (Option.some.injEq _ _).mp h
      injection h2 with ha hb
      injection hb with hb1 hb2
      subst ha; subst hb1; subst hb2
      exact ⟨by simp [hs], fun _ => ⟨rfl, h0⟩⟩
  | valueExpr d =>
      intro s n1 ok s1 h hs
      have h0 := h
      rw [accept_valueExpr] at h
      have h2 := (Option.some.injEq _ _).mp h
      injection h2 with ha hb
      injection hb with hb1 hb2
      subst ha; subst hb1; subst hb2
      refine ⟨by simp [hs], fun _ => ⟨rfl, ?_⟩⟩
      rw [hs] at h0
      exact h0
  | paramMarkerExpr =>
      intro s n1 ok s1 h hs
      have h0 := h
      rw [accept] at h
      cases hp : s.inPrepare with
      | true =>
          simp only [Enter, Leave] at h
          rw [if_neg (by simp [hp])] at h
          have h2 := (Option.some.injEq _ _).mp h
          injection h2 with ha hb
          injection hb with hb1 hb2
          subst ha; subst hb1; subst hb2
          refine ⟨by simp [hs], fun _ => ⟨rfl, ?_⟩⟩
          rw [hs] at h0
          exact h0
      | false =>
          simp only [Enter, Leave] at h
          rw [if_pos (by simp [hp])] at h
          have h2 := (Option.some.injEq _ _).mp h
          injection h2 with ha hb
          injection hb with hb1 hb2
          subst ha; subst hb1; subst hb2
          constructor
          · simp
          · intro hok; simp at hok
  | createIndexStmt stmt =>
      intro s n1 ok s1 h hs
      rw [accept_createIndex] at h
      have h2 := (Option.some.injEq _ _).mp h
      injection h2 with ha hb
      injection hb with hb1 hb2
      subst ha; subst hb1; subst hb2
      refine ⟨by simp, fun hok => ?_⟩
      have hEn : checkCreateIndexGrammar stmt = none := by simpa using hok
      constructor
      · rw [hEn]
        exact validator_set_err_none s hs
      · rw [accept_createIndex]
        simp [hEn, validator_set_err_none s hs]
  | alterTableStmt stmt =>
      intro s n1 ok s1 h hs
      rw [accept_alter] at h
      have h2 := (Option.some.injEq _ _).mp h
      injection h2 with ha hb
      injection hb with hb1 hb2
      subst ha; subst hb1; subst hb2
      refine ⟨by simp, fun hok => ?_⟩
      have hEn : checkAlterTableGrammar env s.err stmt.specs = none := by simpa using hok
      constructor
      · rw [hEn]
        exact validator_set_err_none s hs
      · rw [accept_alter]
        simp [hEn, validator_set_err_none s hs]
  | createTableStmt stmt =>
      intro s n1 ok s1 h hs
      rw [accept_createTable] at h
      cases hd : checkDashbase env stmt with
      | none => rw [hd] at h; simp at h
      | some d =>
          rw [hd] at h
          cases ha : checkAutoIncrement stmt with
          | none => rw [ha] at h; simp at h
          | some a =>
              rw [ha] at h
              have h2 : some (Node.createTableStmt stmt,
                  (assignErr (assignErr (assignErr s.err
                    (checkCreateTableGrammar env stmt)) d) a).isNone,
                  { s with err := assignErr (assignErr (assignErr s.err
                    (checkCreateTableGrammar env stmt)) d) a }) = some (n1, ok, s1) := h
              have h3 := (Option.some.injEq _ _).mp h2
              injection h3 with hA hB
              injection hB with hB1 hB2
              subst hA; subst hB1; subst hB2
              refine ⟨by simp, fun hok => ?_⟩
              have hE : assignErr (assignErr (assignErr s.err
                  (checkCreateTableGrammar env stmt)) d) a = none := by simpa using hok
              obtain ⟨hE1, ha0⟩ := assignErr_eq_none _ _ hE
              obtain ⟨hE2, hd0⟩ := assignErr_eq_none _ _ hE1
              rw [hs, assignErr_none_left] at hE2
              subst ha0; subst hd0
              constructor
              · rw [hE]
                exact validator_set_err_none s hs
              · simp only [accept_createTable, hd, ha]
                simp [assignErr, hs, hE2, validator_set_err_none s hs]
  | aggregateFuncExpr args =>
      intro s n1 ok s1 h hs
      rw [accept] at h
      cases hA : s.inAggregate with
      | true =>
          simp [Enter, hA, Leave] at h
          obtain ⟨rfl, rfl, rfl⟩ := h
          constructor
          · simp
          · intro hok; simp at hok
      | false =>
          cases hf : acceptForest env args { s with inAggregate := true } with
          | none => simp [Enter, hA, hf] at h
          | some tf =>
              obtain ⟨args1, okf, s2⟩ := tf
              cases okf with
              | false =>
                  simp [Enter, hA, hf] at h
                  obtain ⟨rfl, rfl, rfl⟩ := h
                  have hres := acceptForest_restore env args
                    { s with inAggregate := true } args1 false s2 hf (by simp [hs])
                  exact ⟨hres.1, fun hok => by simp at hok⟩
              | true =>
                  simp [Enter, hA, hf, Leave] at h
                  obtain ⟨rfl, rfl, rfl⟩ := h
                  have hres := acceptForest_restore env args
                    { s with inAggregate := true } args1 true s2 hf (by simp [hs])
                  refine ⟨by simp, fun hok => ?_⟩
                  obtain ⟨hs2eq, hidem⟩ := hres.2 rfl
                  subst hs2eq
                  constructor
                  · exact validator_set_set s true hA
                  · rw [accept]
                    rw [hs] at hidem
                    simp [Enter, hA, hidem, Leave, hs, validator_eta2 s hs hA]
  | other children =>
      intro s n1 ok s1 h hs
      rw [accept] at h
      simp only [Enter] at h
      cases hf : acceptForest env children s with
      | none => rw [hf] at h; simp at h
      | some tf =>
          obtain ⟨ch1, okf, s2⟩ := tf
          rw [hf] at h
          cases okf with
          | false =>
              simp at h
              obtain ⟨rfl, rfl, rfl⟩ := h
              have hres := acceptForest_restore env children s ch1 false s2 hf hs
              exact ⟨hres.1, fun hok => by simp at hok⟩
          | true =>
              simp only [Leave] at h
              have h2 := (Option.some.injEq _ _).mp h
              injection h2 with hA1 hB
              injection hB with hB1 hB2
              subst hA1; subst hB1; subst hB2
              have hres := acceptForest_restore env children s ch1 true s2 hf hs
              refine ⟨by simp, fun hok => ?_⟩
              have hs2 : s2.err = none := hres.1.mp rfl
              obtain ⟨hs2eq, hidem⟩ := hres.2 rfl
              subst hs2eq
              refine ⟨rfl, ?_⟩
              rw [accept]
              simp [Enter, hidem, Leave, hs]
  | limit count offset =>
      intro s n1 ok s1 h hs
      rw [accept] at h
      simp only [Enter] at h
      cases hc : accept env count s with
      | none => rw [hc] at h; simp at h
      | some tc =>
          obtain ⟨c1, okc, s2⟩ := tc
          rw [hc] at h
          cases okc with
          | false =>
              simp at h
              obtain ⟨rfl, rfl, rfl⟩ := h
              have hres := accept_restore env count s c1 false s2 hc hs
              exact ⟨hres.1, fun hok => by simp at hok⟩
          | true =>
              have hres := accept_restore env count s c1 true s2 hc hs
              obtain ⟨hs2eq, hcidem⟩ := hres.2 rfl
              subst hs2eq
              cases ho : accept env offset s2 with
              | none => simp [ho] at h
              | some to2 =>
                  obtain ⟨o1, oko, s3⟩ := to2
                  simp only [ho] at h
                  cases oko with
                  | false =>
                      simp at h
                      obtain ⟨rfl, rfl, rfl⟩ := h
                      have hres2 := accept_restore env offset s2 o1 false s3 ho hs
                      exact ⟨hres2.1, fun hok => by simp at hok⟩
                  | true =>
                      have hres2 := accept_restore env offset s2 o1 true s3 ho hs
                      obtain ⟨hs3eq, hoidem⟩ := hres2.2 rfl
                      subst hs3eq
                      cases c1 with
                      | nilExpr =>
                          simp only [Leave] at h
                          have h2 := (Option.some.injEq _ _).mp h
                          injection h2 with hA1 hB
                          injection hB with hB1 hB2
                          subst hA1; subst hB1; subst hB2
                          refine ⟨by simp [hs], fun _ => ⟨rfl, ?_⟩⟩
                          rw [accept]
                          simp [Enter, hcidem, hoidem, Leave, hs]
                      | paramMarkerExpr =>
                          simp only [Leave] at h
                          have h2 := (Option.some.injEq _ _).mp h
                          injection h2 with hA1 hB
                          injection hB with hB1 hB2
                          subst hA1; subst hB1; subst hB2
                          refine ⟨by simp [hs], fun _ => ⟨rfl, ?_⟩⟩
                          rw [accept]
                          simp [Enter, hcidem, hoidem, Leave, hs]
                      | valueExpr dat =>
                          simp only [Leave] at h
                          split at h <;> rename_i hclamp
                          · simp at h
                            obtain ⟨rfl, rfl, rfl⟩ := h
                            refine ⟨by simp [hs], fun _ => ⟨rfl, ?_⟩⟩
                            rw [accept]
                            simp [Enter, accept_valueExpr, hoidem, Leave, hs,
                              getUint64Value, setUint64Value]
                          · simp at h
                            obtain ⟨rfl, rfl, rfl⟩ := h
                            refine ⟨by simp [hs], fun _ => ⟨rfl, ?_⟩⟩
                            rw [accept]
                            simp [Enter, hcidem, hoidem, Leave, hs, getUint64Value,
                              setUint64Value]
                            intro hlt
                            simp only [getUint64Value] at hclamp
                            exact absurd hlt hclamp
                      | aggregateFuncExpr args2 =>
                          simp only [Leave] at h
                          split at h <;> rename_i hclamp
                          · exact absurd hclamp (by simp [getUint64Value])
                          · simp at h
                            obtain ⟨rfl, rfl, rfl⟩ := h
                            refine ⟨by simp [hs], fun _ => ⟨rfl, ?_⟩⟩
                            rw [accept]
                            simp [Enter, hcidem, hoidem, Leave, hs, getUint64Value,
                              setUint64Value]
                      | limit cc oo =>
                          simp only [Leave] at h
                          split at h <;> rename_i hclamp
                          · exact absurd hclamp (by simp [getUint64Value])
                          · simp at h
                            obtain ⟨rfl, rfl, rfl⟩ := h
                            refine ⟨by simp [hs], fun _ => ⟨rfl, ?_⟩⟩
                            rw [accept]
                            simp [Enter, hcidem, hoidem, Leave, hs, getUint64Value,
                              setUint64Value]
                      | createTableStmt st1 =>
                          simp only [Leave] at h
                          split at h <;> rename_i hclamp
                          · exact absurd hclamp (by simp [getUint64Value])
                          · simp at h
                            obtain ⟨rfl, rfl, rfl⟩ := h
                            refine ⟨by simp [hs], fun _ => ⟨rfl, ?_⟩⟩
                            rw [accept]
                            simp [Enter, hcidem, hoidem, Leave, hs, getUint64Value,
                              setUint64Value]
                      | createIndexStmt st2 =>
                          simp only [Leave] at h
                          split at h <;> rename_i hclamp
                          · exact absurd hclamp (by simp [getUint64Value])
                          · simp at h
                            obtain ⟨rfl, rfl, rfl⟩ := h
                            refine ⟨by simp [hs], fun _ => ⟨rfl, ?_⟩⟩
                            rw [accept]
                            simp [Enter, hcidem, hoidem, Leave, hs, getUint64Value,
                              setUint64Value]
                      | alterTableStmt st3 =>
                          simp only [Leave] at h
                          split at h <;> rename_i hclamp
                          · exact absurd hclamp (by simp [getUint64Value])
                          · simp at h
                            obtain ⟨rfl, rfl, rfl⟩ := h
                            refine ⟨by simp [hs], fun _ => ⟨rfl, ?_⟩⟩
                            rw [accept]
                            simp [Enter, hcidem, hoidem, Leave, hs, getUint64Value,
                              setUint64Value]
                      | other ch2 =>
                          simp only [Leave] at h
                          split at h <;> rename_i hclamp
                          · exact absurd hclamp (by simp [getUint64Value])
                          · simp at h
                            obtain ⟨rfl, rfl, rfl⟩ := h
                            refine ⟨by simp [hs], fun _ => ⟨rfl, ?_⟩⟩
                            rw [accept]
                            simp [Enter, hcidem, hoidem, Leave, hs, getUint64Value,
                              setUint64Value]

/-- Forest version of `accept_restore`. -/
theorem acceptForest_restore (env : Env) (f : NodeForest) :
    ∀ s f1 ok s1, acceptForest env f s = some (f1, ok, s1) → s.err = none →
      ((ok = true) ↔ s1.err = none) ∧
      (ok = true → s1 = s ∧ acceptForest env f1 s = some (f1, true, s)) := by
  cases f with
  | nil =>
      intro s f1 ok s1 h hs
      have h0 := h
      rw [acceptForest] at h
      have h2 := (Option.some.injEq _ _).mp h
      injection h2 with ha hb
      injection hb with hb1 hb2
      subst ha; subst hb1; subst hb2
      exact ⟨by simp [hs], fun _ => ⟨rfl, h0⟩⟩
  | cons n rest =>
      intro s f1 ok s1 h hs
      rw [acceptForest] at h
      cases hn : accept env n s with
      | none => rw [hn] at h; simp at h
      | some tn =>
          obtain ⟨n2, okn, sn⟩ := tn
          rw [hn] at h
          cases okn with
          | false =>
              simp at h
              obtain ⟨rfl, rfl, rfl⟩ := h
              have hres := accept_restore env n s n2 false sn hn hs
              exact ⟨hres.1, fun hok => by simp at hok⟩
          | true =>
              have hres := accept_restore env n s n2 true sn hn hs
              obtain ⟨hsneq, hnidem⟩ := hres.2 rfl
              subst hsneq
              cases hr : acceptForest env rest sn with
              | none => simp [hr] at h
              | some tr =>
                  obtain ⟨rest1, okr, sr⟩ := tr
                  simp only [hr] at h
                  simp at h
                  obtain ⟨rfl, rfl, rfl⟩ := h
                  have hres2 := acceptForest_restore env rest sn rest1 okr sr hr hs
                  refine ⟨hres2.1, fun hok => ?_⟩
                  obtain ⟨hsreq, hridem⟩ := hres2.2 hok
                  subst hsreq
                  refine ⟨rfl, ?_⟩
                  rw [acceptForest]
                  rw [hnidem]
                  simp [hridem]
end

/-- **C7**: when Validate succeeds on a tree — returning no error together
with the possibly Limit-clamped tree — running Validate again on the
returned tree with the same environment and prepare flag succeeds as well
and returns that tree unchanged: each call starts from a fresh validator
state, and re-clamping an already-clamped Limit count is a no-op. -/
theorem C7_theorem (env : Env) (t : Node) (p : Bool) (t1 : Node)
    (h : Validate env t p = some (none, t1)) :
    Validate env t1 p = some (none, t1) := by
  rw [Validate] at h ⊢
  cases ha : accept env t
      { err := none, wildCardCount := 0, inPrepare := p, inAggregate := false } with
  | none => rw [ha] at h; simp at h
  | some tr =>
      obtain ⟨n1, ok, s1⟩ := tr
      rw [ha] at h
      simp at h
      obtain ⟨hserr, rfl⟩ := h
      have hres := accept_restore env t
        { err := none, wildCardCount := 0, inPrepare := p, inAggregate := false }
        n1 ok s1 ha rfl
      have hok := hres.1.mpr hserr
      obtain ⟨hseq, hidem⟩ := hres.2 hok
      simp [hidem]

theorem C7_witness :
    Validate envStd (.limit (.valueExpr (.uint64 18446744073709551605))
        (.valueExpr (.uint64 10))) false =
      some (none, .limit (.valueExpr (.uint64 18446744073709551605))
        (.valueExpr (.uint64 10))) :=
  C7_theorem envStd (.limit (.valueExpr (.uint64 18446744073709551615))
    (.valueExpr (.uint64 10))) false
    (.limit (.valueExpr (.uint64 18446744073709551605)) (.valueExpr (.uint64 10)))
    (by rfl)

/-! ### The aggregate-nesting flag -/

/-- `Leave` on a Limit node never changes the validator state. -/
theorem Leave_limit_state (env : Env) (c o : Node) (s : Validator)
    (r : Node × Bool × Validator) (h : Leave env (.limit c o) s = some r) :
    r.2.2 = s := by
  cases c <;> simp only [Leave] at h <;>
    first
      | (have h2 := (Option.some.injEq _ _).mp h
         rw [← h2])
      | (split at h <;>
          (have h2 := (Option.some.injEq _ _).mp h
           rw [← h2]))

mutual
/-- If the aggregate flag is false and the subtree has no nested aggregate
pair, or the flag is true and the subtree contains no aggregate at all,
the walk never assigns the aggregate-nesting error, and a walk that
returns `ok` restores the flag. -/
theorem accept_agg_invariant (env : Env) (n : Node) :
    ∀ s n1 ok s1, accept env n s = some (n1, ok, s1) →
      (s.inAggregate = false → hasNestedAggregate n = false) →
      (s.inAggregate = true → containsAggregate n = false) →
      s.err ≠ some .invalidGroupFuncUse →
      s1.err ≠ some .invalidGroupFuncUse ∧
        (ok = true → s1.inAggregate = s.inAggregate) := by
  cases n with
  | nilExpr =>
      intro s n1 ok s1 h h1 h2 hne
      rw [accept] at h
      simp only [Enter, Leave] at h
      have h3 := (Option.some.injEq _ _).mp h
      injection h3 with ha hb
      injection hb with hb1 hb2
      subst hb2
      exact ⟨hne, fun _ => rfl⟩
  | valueExpr d =>
      intro s n1 ok s1 h h1 h2 hne
      rw [accept_valueExpr] at h
      have h3 := (Option.some.injEq _ _).mp h
      injection h3 with ha hb
      injection hb with hb1 hb2
      subst hb2
      exact ⟨hne, fun _ => rfl⟩
  | paramMarkerExpr =>
      intro s n1 ok s1 h h1 h2 hne
      rw [accept] at h
      simp only [Enter, Leave] at h
      cases hp : s.inPrepare with
      | true =>
          rw [if_neg (by simp [hp])] at h
          have h3 := (Option.some.injEq _ _).mp h
          injection h3 with ha hb
          injection hb with hb1 hb2
          subst hb2
          exact ⟨hne, fun _ => rfl⟩
      | false =>
          rw [if_pos (by simp [hp])] at h
          have h3 := (Option.some.injEq _ _).mp h
          injection h3 with ha hb
          injection hb with hb1 hb2
          subst hb2
          refine ⟨?_, fun _ => rfl⟩
          intro hbad
          simp at hbad
  | createIndexStmt stmt =>
      intro s n1 ok s1 h h1 h2 hne
      rw [accept_createIndex] at h
      have h3 := (Option.some.injEq _ _).mp h
      injection h3 with ha hb
      injection hb with hb1 hb2
      subst hb2
      refine ⟨?_, fun _ => rfl⟩
      intro hbad
      simp at hbad
      obtain ⟨nm, hnm⟩ := checkCreateIndexGrammar_shape stmt _ hbad
      simp at hnm
  | alterTableStmt stmt =>
      intro s n1 ok s1 h h1 h2 hne
      rw [accept_alter] at h
      have h3 := (Option.some.injEq _ _).mp h
      injection h3 with ha hb
      injection hb with hb1 hb2
      subst hb2
      refine ⟨?_, fun _ => rfl⟩
      intro hbad
      simp at hbad
      rcases checkAlterTableGrammar_shape env stmt.specs s.err _ hbad with hcur | halter
      · exact hne hcur
      · exact absurd halter (by decide)
  | createTableStmt stmt =>
      intro s n1 ok s1 h h1 h2 hne
      rw [accept_createTable] at h
      cases hd : checkDashbase env stmt with
      | none => rw [hd] at h; simp at h
      | some d =>
          rw [hd] at h
          cases ha : checkAutoIncrement stmt with
          | none => rw [ha] at h; simp at h
          | some a =>
              rw [ha] at h
              have h3 : some (Node.createTableStmt stmt,
                  (assignErr (assignErr (assignErr s.err
                    (checkCreateTableGrammar env stmt)) d) a).isNone,
                  { s with err := assignErr (assignErr (assignErr s.err
                    (checkCreateTableGrammar env stmt)) d) a }) = some (n1, ok, s1) := h
              have h4 := (Option.some.injEq _ _).mp h3
              injection h4 with hA hB
              injection hB with hB1 hB2
              subst hB2
              refine ⟨?_, fun _ => rfl⟩
              intro hbad
              have hbad2 : assignErr (assignErr (assignErr s.err
                  (checkCreateTableGrammar env stmt)) d) a
                  = some .invalidGroupFuncUse := hbad
              rcases assignErr_eq_some _ _ _ hbad2 with hA1 | ⟨hA1, hrest⟩
              · exact absurd (checkAutoIncrement_shape stmt _ (hA1 ▸ ha)) (by decide)
              · rcases assignErr_eq_some _ _ _ hrest with hD1 | ⟨hD1, hrest2⟩
                · exact absurd (checkDashbase_shape env stmt _ (hD1 ▸ hd)) (by decide)
                · rcases assignErr_eq_some _ _ _ hrest2 with hG1 | ⟨hG1, hrest3⟩
                  · exact absurd (checkCreateTableGrammar_shape env stmt _ hG1) (by decide)
                  · exact hne hrest3
  | aggregateFuncExpr args =>
      intro s n1 ok s1 h h1 h2 hne
      rw [accept] at h
      cases hA : s.inAggregate with
      | true => exact absurd (h2 hA) (by simp [containsAggregate])
      | false =>
          cases hf : acceptForest env args { s with inAggregate := true } with
          | none => simp [Enter, hA, hf] at h
          | some tf =>
              obtain ⟨args1, okf, s2⟩ := tf
              have hforest := acceptForest_agg_invariant env args
                { s with inAggregate := true } args1 okf s2 hf
                (by intro hx; simp at hx)
                (fun _ => by simpa [hasNestedAggregate] using h1 hA)
                (by simpa using hne)
              cases okf with
              | false =>
                  simp [Enter, hA, hf] at h
                  obtain ⟨rfl, rfl, rfl⟩ := h
                  exact ⟨hforest.1, fun hok => by simp at hok⟩
              | true =>
                  simp [Enter, hA, hf, Leave] at h
                  obtain ⟨rfl, rfl, rfl⟩ := h
                  exact ⟨by simpa using hforest.1, fun _ => by simp [hA]⟩
  | other children =>
      intro s n1 ok s1 h h1 h2 hne
      rw [accept] at h
      cases hf : acceptForest env children s with
      | none => simp [Enter, hf] at h
      | some tf =>
          obtain ⟨ch1, okf, s2⟩ := tf
          have hforest := acceptForest_agg_invariant env children s ch1 okf s2 hf
            (fun hx => by simpa [hasNestedAggregate] using h1 hx)
            (fun hx => by simpa [containsAggregate] using h2 hx)
            hne
          cases okf with
          | false =>
              simp [Enter, hf] at h
              obtain ⟨rfl, rfl, rfl⟩ := h
              exact ⟨hforest.1, fun hok => by simp at hok⟩
          | true =>
              simp [Enter, hf, Leave] at h
              obtain ⟨rfl, rfl, rfl⟩ := h
              exact ⟨hforest.1, fun _ => hforest.2 rfl⟩
  | limit count offset =>
      intro s n1 ok s1 h h1 h2 hne
      have hc1 : s.inAggregate = false → hasNestedAggregate count = false := fun hx => by
        have hx2 := h1 hx; simp [hasNestedAggregate] at hx2; exact hx2.1
      have hc2 : s.inAggregate = true → containsAggregate count = false := fun hx => by
        have hx2 := h2 hx; simp [containsAggregate] at hx2; exact hx2.1
      have ho1 : s.inAggregate = false → hasNestedAggregate offset = false := fun hx => by
        have hx2 := h1 hx; simp [hasNestedAggregate] at hx2; exact hx2.2
      have ho2 : s.inAggregate = true → containsAggregate offset = false := fun hx => by
        have hx2 := h2 hx; simp [containsAggregate] at hx2; exact hx2.2
      rw [accept] at h
      simp only [Enter] at h
      cases hc : accept env count s with
      | none => rw [hc] at h; simp at h
      | some tc =>
          obtain ⟨c1, okc, s2⟩ := tc
          rw [hc] at h
          have hcres := accept_agg_invariant env count s c1 okc s2 hc hc1 hc2 hne
          cases okc with
          | false =>
              simp at h
              obtain ⟨rfl, rfl, rfl⟩ := h
              exact ⟨hcres.1, fun hok => by simp at hok⟩
          | true =>
              have hflag := hcres.2 rfl
              cases ho : accept env offset s2 with
              | none => simp [ho] at h
              | some to2 =>
                  obtain ⟨o1, oko, s3⟩ := to2
                  simp only [ho] at h
                  have hores := accept_agg_invariant env offset s2 o1 oko s3 ho
                    (fun hx => ho1 (hflag.symm.trans hx))
                    (fun hx => ho2 (hflag.symm.trans hx))
                    hcres.1
                  cases oko with
                  | false =>
                      simp at h
                      obtain ⟨rfl, rfl, rfl⟩ := h
                      exact ⟨hores.1, fun hok => by simp at hok⟩
                  | true =>
                      have hflag2 := hores.2 rfl
                      have hL : Leave env (.limit c1 o1) s3 = some (n1, ok, s1) := h
                      have hstate : s1 = s3 := Leave_limit_state env c1 o1 s3 _ hL
                      subst hstate
                      exact ⟨hores.1, fun _ => hflag2.trans hflag⟩

/-- Forest version of `accept_agg_invariant`. -/
theorem acceptForest_agg_invariant (env : Env) (f : NodeForest) :
    ∀ s f1 ok s1, acceptForest env f s = some (f1, ok, s1) →
      (s.inAggregate = false → forestHasNestedAggregate f = false) →
      (s.inAggregate = true → forestContainsAggregate f = false) →
      s.err ≠ some .invalidGroupFuncUse →
      s1.err ≠ some .invalidGroupFuncUse ∧
        (ok = true → s1.inAggregate = s.inAggregate) := by
  cases f with
  | nil =>
      intro s f1 ok s1 h h1 h2 hne
      rw [acceptForest] at h
      have h3 := (Option.some.injEq _ _).mp h
      injection h3 with ha hb
      injection hb with hb1 hb2
      subst hb2
      exact ⟨hne, fun _ => rfl⟩
  | cons n rest =>
      intro s f1 ok s1 h h1 h2 hne
      have hn1 : s.inAggregate = false → hasNestedAggregate n = false := fun hx => by
        have hx2 := h1 hx; simp [forestHasNestedAggregate] at hx2; exact hx2.1
      have hn2 : s.inAggregate = true → containsAggregate n = false := fun hx => by
        have hx2 := h2 hx; simp [forestContainsAggregate] at hx2; exact hx2.1
      have hr1 : s.inAggregate = false → forestHasNestedAggregate rest = false := fun hx => by
        have hx2 := h1 hx; simp [forestHasNestedAggregate] at hx2; exact hx2.2
      have hr2 : s.inAggregate = true → forestContainsAggregate rest = false := fun hx => by
        have hx2 := h2 hx; simp [forestContainsAggregate] at hx2; exact hx2.2
      rw [acceptForest] at h
      cases hn : accept env n s with
      | none => rw [hn] at h; simp at h
      | some tn =>
          obtain ⟨n2, okn, sn⟩ := tn
          rw [hn] at h
          have hnres := accept_agg_invariant env n s n2 okn sn hn hn1 hn2 hne
          cases okn with
          | false =>
              simp at h
              obtain ⟨rfl, rfl, rfl⟩ := h
              exact ⟨hnres.1, fun hok => by simp at hok⟩
          | true =>
              have hflag := hnres.2 rfl
              cases hr : acceptForest env rest sn with
              | none => simp [hr] at h
              | some tr =>
                  obtain ⟨rest1, okr, sr⟩ := tr
                  simp only [hr] at h
                  simp at h
                  obtain ⟨rfl, rfl, rfl⟩ := h
                  have hrres := acceptForest_agg_invariant env rest sn rest1 okr sr hr
                    (fun hx => hr1 (hflag.symm.trans hx))
                    (fun hx => hr2 (hflag.symm.trans hx))
                    hnres.1
                  exact ⟨hrres.1, fun hok => (hrres.2 hok).trans hflag⟩
end

mutual
/-- A clean walk (error slot empty before and after) implies the subtree
obeys the nesting discipline: no aggregate at all under a set flag, no
nested aggregate pair under a clear flag. -/
theorem accept_success_no_nest (env : Env) (n : Node) :
    ∀ s n1 ok s1, accept env n s = some (n1, ok, s1) → s.err = none →
      s1.err = none →
      (s.inAggregate = true → containsAggregate n = false) ∧
      (s.inAggregate = false → hasNestedAggregate n = false) := by
  cases n with
  | nilExpr => intro s n1 ok s1 h hs hs1; exact ⟨fun _ => rfl, fun _ => rfl⟩
  | valueExpr d => intro s n1 ok s1 h hs hs1; exact ⟨fun _ => rfl, fun _ => rfl⟩
  | paramMarkerExpr => intro s n1 ok s1 h hs hs1; exact ⟨fun _ => rfl, fun _ => rfl⟩
  | createTableStmt stmt =>
      intro s n1 ok s1 h hs hs1; exact ⟨fun _ => rfl, fun _ => rfl⟩
  | createIndexStmt stmt =>
      intro s n1 ok s1 h hs hs1; exact ⟨fun _ => rfl, fun _ => rfl⟩
  | alterTableStmt stmt =>
      intro s n1 ok s1 h hs hs1; exact ⟨fun _ => rfl, fun _ => rfl⟩
  | aggregateFuncExpr args =>
      intro s n1 ok s1 h hs hs1
      cases hA : s.inAggregate with
      | true =>
          rw [accept] at h
          simp [Enter, hA, Leave] at h
          obtain ⟨rfl, rfl, rfl⟩ := h
          simp at hs1
      | false =>
          refine ⟨fun hx => by simp at hx, fun _ => ?_⟩
          rw [accept] at h
          cases hf : acceptForest env args { s with inAggregate := true } with
          | none => simp [Enter, hA, hf] at h
          | some tf =>
              obtain ⟨args1, okf, s2⟩ := tf
              cases okf with
              | false =>
                  simp [Enter, hA, hf] at h
                  obtain ⟨rfl, rfl, rfl⟩ := h
                  have hres := acceptForest_restore env args { s with inAggregate := true }
                    args1 false s2 hf (by simp [hs])
                  exact absurd (hres.1.mpr hs1) (by simp)
              | true =>
                  simp [Enter, hA, hf, Leave] at h
                  obtain ⟨rfl, rfl, rfl⟩ := h
                  have hs2 : s2.err = none := by simpa using hs1
                  have hsucc := acceptForest_success_no_nest env args
                    { s with inAggregate := true } args1 true s2 hf (by simp [hs]) hs2
                  simpa [hasNestedAggregate] using hsucc.1 (by simp)
  | other children =>
      intro s n1 ok s1 h hs hs1
      rw [accept] at h
      cases hf : acceptForest env children s with
      | none => simp [Enter, hf] at h
      | some tf =>
          obtain ⟨ch1, okf, s2⟩ := tf
          cases okf with
          | false =>
              simp [Enter, hf] at h
              obtain ⟨rfl, rfl, rfl⟩ := h
              have hres := acceptForest_restore env children s ch1 false s2 hf hs
              exact absurd (hres.1.mpr hs1) (by simp)
          | true =>
              simp [Enter, hf, Leave] at h
              obtain ⟨rfl, rfl, rfl⟩ := h
              have hsucc := acceptForest_success_no_nest env children s ch1 true s2 hf hs hs1
              exact ⟨fun hx => by simpa [containsAggregate] using hsucc.1 hx,
                     fun hx => by simpa [hasNestedAggregate] using hsucc.2 hx⟩
  | limit count offset =>
      intro s n1 ok s1 h hs hs1
      rw [accept] at h
      simp only [Enter] at h
      cases hc : accept env count s with
      | none => rw [hc] at h; simp at h
      | some tc =>
          obtain ⟨c1, okc, s2⟩ := tc
          rw [hc] at h
          cases okc with
          | false =>
              simp at h
              obtain ⟨rfl, rfl, rfl⟩ := h
              have hres := accept_restore env count s c1 false s2 hc hs
              exact absurd (hres.1.mpr hs1) (by simp)
          | true =>
              have hres := accept_restore env count s c1 true s2 hc hs
              obtain ⟨hs2eq, _⟩ := hres.2 rfl
              subst hs2eq
              cases ho : accept env offset s2 with
              | none => simp [ho] at h
              | some to2 =>
                  obtain ⟨o1, oko, s3⟩ := to2
                  simp only [ho] at h
                  cases oko with
                  | false =>
                      simp at h
                      obtain ⟨rfl, rfl, rfl⟩ := h
                      have hres2 := accept_restore env offset s2 o1 false s3 ho hs
                      exact absurd (hres2.1.mpr hs1) (by simp)
                  | true =>
                      have hres2 := accept_restore env offset s2 o1 true s3 ho hs
                      obtain ⟨hs3eq, _⟩ := hres2.2 rfl
                      subst hs3eq
                      have hcsucc := accept_success_no_nest env count s3 c1 true s3 hc hs hs
                      have hosucc := accept_success_no_nest env offset s3 o1 true s3 ho hs hs
                      refine ⟨fun hx => ?_, fun hx => ?_⟩
                      · simp [containsAggregate, hcsucc.1 hx, hosucc.1 hx]
                      · simp [hasNestedAggregate, hcsucc.2 hx, hosucc.2 hx]

/-- Forest version of `accept_success_no_nest`. -/
theorem acceptForest_success_no_nest (env : Env) (f : NodeForest) :
    ∀ s f1 ok s1, acceptForest env f s = some (f1, ok, s1) → s.err = none →
      s1.err = none →
      (s.inAggregate = true → forestContainsAggregate f = false) ∧
      (s.inAggregate = false → forestHasNestedAggregate f = false) := by
  cases f with
  | nil => intro s f1 ok s1 h hs hs1; exact ⟨fun _ => rfl, fun _ => rfl⟩
  | cons n rest =>
      intro s f1 ok s1 h hs hs1
      rw [acceptForest] at h
      cases hn : accept env n s with
      | none => rw [hn] at h; simp at h
      | some tn =>
          obtain ⟨n2, okn, sn⟩ := tn
          rw [hn] at h
          cases okn with
          | false =>
              simp at h
              obtain ⟨rfl, rfl, rfl⟩ := h
              have hres := accept_restore env n s n2 false sn hn hs
              exact absurd (hres.1.mpr hs1) (by simp)
          | true =>
              have hres := accept_restore env n s n2 true sn hn hs
              obtain ⟨hsneq, _⟩ := hres.2 rfl
              subst hsneq
              cases hr : acceptForest env rest sn with
              | none => simp [hr] at h
              | some tr =>
                  obtain ⟨rest1, okr, sr⟩ := tr
                  simp only [hr] at h
                  simp at h
                  obtain ⟨rfl, rfl, rfl⟩ := h
                  have hres2 := acceptForest_restore env rest sn rest1 okr sr hr hs
                  have hokr : okr = true := hres2.1.mpr hs1
                  subst hokr
                  obtain ⟨hsreq, _⟩ := hres2.2 rfl
                  subst hsreq
                  have hnsucc := accept_success_no_nest env n sr n2 true sr hn hs hs
                  have hrsucc := acceptForest_success_no_nest env rest sr rest1 true sr
                    hr hs hs
                  refine ⟨fun hx => ?_, fun hx => ?_⟩
                  · simp [forestContainsAggregate, hnsucc.1 hx, hrsucc.1 hx]
                  · simp [forestHasNestedAggregate, hnsucc.2 hx, hrsucc.2 hx]
end

def c8Cex : Node :=
  .other (.cons .paramMarkerExpr
    (.cons (.aggregateFuncExpr (.cons (.aggregateFuncExpr .nil) .nil)) .nil))

def c8Sib : Node :=
  .other (.cons (.aggregateFuncExpr .nil) (.cons (.aggregateFuncExpr .nil) .nil))

/-- C8, counterexample: a tree containing a nested aggregate pair for
which Validate nevertheless returns the parameter-marker syntax error:
the walk aborts at an earlier sibling before ever reaching the aggregate,
so "for every tree with a nested aggregate, Validate returns the
aggregate-nesting error" is false as stated. -/
theorem C8_counterexample :
    hasNestedAggregate c8Cex = true ∧
    Validate envStd c8Cex false = some (some .syntaxErrUnexpectedParamMarker, c8Cex) ∧
    Err.syntaxErrUnexpectedParamMarker ≠ Err.invalidGroupFuncUse := by
  refine ⟨by rfl, by rfl, by intro hx; cases hx⟩

/-- **C8** (amended): (1) entering an aggregate-function node directly
inside another aggregate's argument list raises the aggregate-nesting
error immediately, aborts the walk, and does not descend into the inner
aggregate (its arguments are arbitrary and the tree is returned
unchanged); (2) on a tree with no nested aggregate pair — in particular
sibling aggregates — Validate never returns the aggregate-nesting error;
(3) on a tree that does contain a nested aggregate pair, Validate never
succeeds (though the error it returns may be a different, earlier one). -/
theorem C8_theorem :
    (∀ (env : Env) (p : Bool) (innerArgs rest : NodeForest),
      Validate env (.aggregateFuncExpr (.cons (.aggregateFuncExpr innerArgs) rest)) p =
        some (some .invalidGroupFuncUse,
          .aggregateFuncExpr (.cons (.aggregateFuncExpr innerArgs) rest))) ∧
    (∀ (env : Env) (t : Node) (p : Bool) (r : Option Err × Node),
      hasNestedAggregate t = false → Validate env t p = some r →
      r.1 ≠ some .invalidGroupFuncUse) ∧
    (∀ (env : Env) (t : Node) (p : Bool) (r : Option Err × Node),
      hasNestedAggregate t = true → Validate env t p = some r → r.1 ≠ none) := by
  refine ⟨fun env p innerArgs rest => by rfl, ?_, ?_⟩
  · intro env t p r hnest hv
    rw [Validate] at hv
    cases ha : accept env t
        { err := none, wildCardCount := 0, inPrepare := p, inAggregate := false } with
    | none => rw [ha] at hv; simp at hv
    | some tr =>
        obtain ⟨n1, ok, s1⟩ := tr
        rw [ha] at hv
        simp at hv
        obtain ⟨hv1, hv2⟩ := hv
        have hinv := accept_agg_invariant env t
          { err := none, wildCardCount := 0, inPrepare := p, inAggregate := false }
          n1 ok s1 ha (fun _ => hnest) (fun hx => by simp at hx) (by simp)
        intro hbad
        exact hinv.1 hbad
  · intro env t p r hnest hv
    rw [Validate] at hv
    cases ha : accept env t
        { err := none, wildCardCount := 0, inPrepare := p, inAggregate := false } with
    | none => rw [ha] at hv; simp at hv
    | some tr =>
        obtain ⟨n1, ok, s1⟩ := tr
        rw [ha] at hv
        simp at hv
        obtain ⟨hv1, hv2⟩ := hv
        intro hbad
        have hserr : s1.err = none := hbad
        have hsucc := accept_success_no_nest env t
          { err := none, wildCardCount := 0, inPrepare := p, inAggregate := false }
          n1 ok s1 ha rfl hserr
        have := hsucc.2 rfl
        rw [hnest] at this
        cases this

def c8Wit : Node :=
  .other (.cons (.aggregateFuncExpr (.cons (.aggregateFuncExpr .nil) .nil)) .nil)

theorem C8_witness :
    Validate envStd (.aggregateFuncExpr (.cons (.aggregateFuncExpr
        (.cons (.valueExpr .other) .nil)) .nil)) false =
      some (some .invalidGroupFuncUse, .aggregateFuncExpr (.cons (.aggregateFuncExpr
        (.cons (.valueExpr .other) .nil)) .nil)) ∧
    ((none : Option Err), c8Sib).1 ≠ some .invalidGroupFuncUse ∧
    ((some Err.invalidGroupFuncUse : Option Err), c8Wit).1 ≠ none := by
  refine ⟨C8_theorem.1 envStd false (.cons (.valueExpr .other) .nil) .nil, ?_, ?_⟩
  · exact C8_theorem.2.1 envStd c8Sib false (none, c8Sib) (by rfl) (by rfl)
  · exact C8_theorem.2.2 envStd c8Wit false (some .invalidGroupFuncUse, c8Wit)
      (by rfl) (by rfl)

/-! ### Parameter markers and prepare mode -/

mutual
/-- In prepare mode the walk never assigns the unexpected-parameter-marker
syntax error, and the prepare flag itself is never modified. -/
theorem accept_no_syntax (env : Env) (n : Node) :
    ∀ s n1 ok s1, accept env n s = some (n1, ok, s1) →
      s.inPrepare = true → s.err ≠ some .syntaxErrUnexpectedParamMarker →
      s1.err ≠ some .syntaxErrUnexpectedParamMarker ∧ s1.inPrepare = s.inPrepare := by
  cases n with
  | nilExpr =>
      intro s n1 ok s1 h hp hne
      rw [accept] at h
      simp only [Enter, Leave] at h
      have h3 := (Option.some.injEq _ _).mp h
      injection h3 with ha hb
      injection hb with hb1 hb2
      subst hb2
      exact ⟨hne, rfl⟩
  | valueExpr d =>
      intro s n1 ok s1 h hp hne
      rw [accept_valueExpr] at h
      have h3 := (Option.some.injEq _ _).mp h
      injection h3 with ha hb
      injection hb with hb1 hb2
      subst hb2
      exact ⟨hne, rfl⟩
  | paramMarkerExpr =>
      intro s n1 ok s1 h hp hne
      rw [accept] at h
      simp only [Enter, Leave] at h
      rw [if_neg (by simp [hp])] at h
      have h3 := (Option.some.injEq _ _).mp h
      injection h3 with ha hb
      injection hb with hb1 hb2
      subst hb2
      exact ⟨hne, rfl⟩
  | createIndexStmt stmt =>
      intro s n1 ok s1 h hp hne
      rw [accept_createIndex] at h
      have h3 := (Option.some.injEq _ _).mp h
      injection h3 with ha hb
      injection hb with hb1 hb2
      subst hb2
      refine ⟨?_, rfl⟩
      intro hbad
      simp at hbad
      obtain ⟨nm, hnm⟩ := checkCreateIndexGrammar_shape stmt _ hbad
      simp at hnm
  | alterTableStmt stmt =>
      intro s n1 ok s1 h hp hne
      rw [accept_alter] at h
      have h3 := (Option.some.injEq _ _).mp h
      injection h3 with ha hb
      injection hb with hb1 hb2
      subst hb2
      refine ⟨?_, rfl⟩
      intro hbad
      simp at hbad
      rcases checkAlterTableGrammar_shape env stmt.specs s.err _ hbad with hcur | halter
      · exact hne hcur
      · exact absurd halter (by decide)
  | createTableStmt stmt =>
      intro s n1 ok s1 h hp hne
      rw [accept_createTable] at h
      cases hd : checkDashbase env stmt with
      | none => rw [hd] at h; simp at h
      | some d =>
          rw [hd] at h
          cases ha : checkAutoIncrement stmt with
          | none => rw [ha] at h; simp at h
          | some a =>
              rw [ha] at h
              have h3 : some (Node.createTableStmt stmt,
                  (assignErr (assignErr (assignErr s.err
                    (checkCreateTableGrammar env stmt)) d) a).isNone,
                  { s with err := assignErr (assignErr (assignErr s.err
                    (checkCreateTableGrammar env stmt)) d) a }) = some (n1, ok, s1) := h
              have h4 := (Option.some.injEq _ _).mp h3
              injection h4 with hA hB
              injection hB with hB1 hB2
              subst hB2
              refine ⟨?_, rfl⟩
              intro hbad
              have hbad2 : assignErr (assignErr (assignErr s.err
                  (checkCreateTableGrammar env stmt)) d) a
                  = some .syntaxErrUnexpectedParamMarker := hbad
              rcases assignErr_eq_some _ _ _ hbad2 with hA1 | ⟨hA1, hrest⟩
              · exact absurd (checkAutoIncrement_shape stmt _ (hA1 ▸ ha)) (by decide)
              · rcases assignErr_eq_some _ _ _ hrest with hD1 | ⟨hD1, hrest2⟩
                · exact absurd (checkDashbase_shape env stmt _ (hD1 ▸ hd)) (by decide)
                · rcases assignErr_eq_some _ _ _ hrest2 with hG1 | ⟨hG1, hrest3⟩
                  · exact absurd (checkCreateTableGrammar_shape env stmt _ hG1) (by decide)
                  · exact hne hrest3
  | aggregateFuncExpr args =>
      intro s n1 ok s1 h hp hne
      rw [accept] at h
      cases hA : s.inAggregate with
      | true =>
          simp [Enter, hA, Leave] at h
          obtain ⟨rfl, rfl, rfl⟩ := h
          refine ⟨?_, rfl⟩
          intro hbad
          simp at hbad
      | false =>
          cases hf : acceptForest env args { s with inAggregate := true } with
          | none => simp [Enter, hA, hf] at h
          | some tf =>
              obtain ⟨args1, okf, s2⟩ := tf
              have hforest := acceptForest_no_syntax env args
                { s with inAggregate := true } args1 okf s2 hf (by simpa using hp)
                (by simpa using hne)
              cases okf with
              | false =>
                  simp [Enter, hA, hf] at h
                  obtain ⟨rfl, rfl, rfl⟩ := h
                  exact ⟨hforest.1, hforest.2⟩
              | true =>
                  simp [Enter, hA, hf, Leave] at h
                  obtain ⟨rfl, rfl, rfl⟩ := h
                  exact ⟨by simpa using hforest.1, by simpa using hforest.2⟩
  | other children =>
      intro s n1 ok s1 h hp hne
      rw [accept] at h
      cases hf : acceptForest env children s with
      | none => simp [Enter, hf] at h
      | some tf =>
          obtain ⟨ch1, okf, s2⟩ := tf
          have hforest := acceptForest_no_syntax env children s ch1 okf s2 hf hp hne
          cases okf with
          | false =>
              simp [Enter, hf] at h
              obtain ⟨rfl, rfl, rfl⟩ := h
              exact hforest
          | true =>
              simp [Enter, hf, Leave] at h
              obtain ⟨rfl, rfl, rfl⟩ := h
              exact hforest
  | limit count offset =>
      intro s n1 ok s1 h hp hne
      rw [accept] at h
      simp only [Enter] at h
      cases hc : accept env count s with
      | none => rw [hc] at h; simp at h
      | some tc =>
          obtain ⟨c1, okc, s2⟩ := tc
          rw [hc] at h
          have hcres := accept_no_syntax env count s c1 okc s2 hc hp hne
          cases okc with
          | false =>
              simp at h
              obtain ⟨rfl, rfl, rfl⟩ := h
              exact hcres
          | true =>
              cases ho : accept env offset s2 with
              | none => simp [ho] at h
              | some to2 =>
                  obtain ⟨o1, oko, s3⟩ := to2
                  simp only [ho] at h
                  have hores := accept_no_syntax env offset s2 o1 oko s3 ho
                    (hcres.2.trans hp) hcres.1
                  cases oko with
                  | false =>
                      simp at h
                      obtain ⟨rfl, rfl, rfl⟩ := h
                      exact ⟨hores.1, hores.2.trans hcres.2⟩
                  | true =>
                      have hL : Leave env (.limit c1 o1) s3 = some (n1, ok, s1) := h
                      have hstate : s1 = s3 := Leave_limit_state env c1 o1 s3 _ hL
                      subst hstate
                      exact ⟨hores.1, hores.2.trans hcres.2⟩

/-- Forest version of `accept_no_syntax`. -/
theorem acceptForest_no_syntax (env : Env) (f : NodeForest) :
    ∀ s f1 ok s1, acceptForest env f s = some (f1, ok, s1) →
      s.inPrepare = true → s.err ≠ some .syntaxErrUnexpectedParamMarker →
      s1.err ≠ some .syntaxErrUnexpectedParamMarker ∧ s1.inPrepare = s.inPrepare := by
  cases f with
  | nil =>
      intro s f1 ok s1 h hp hne
      rw [acceptForest] at h
      have h3 := (Option.some.injEq _ _).mp h
      injection h3 with ha hb
      injection hb with hb1 hb2
      subst hb2
      exact ⟨hne, rfl⟩
  | cons n rest =>
      intro s f1 ok s1 h hp hne
      rw [acceptForest] at h
      cases hn : accept env n s with
      | none => rw [hn] at h; simp at h
      | some tn =>
          obtain ⟨n2, okn, sn⟩ := tn
          rw [hn] at h
          have hnres := accept_no_syntax env n s n2 okn sn hn hp hne
          cases okn with
          | false =>
              simp at h
              obtain ⟨rfl, rfl, rfl⟩ := h
              exact hnres
          | true =>
              cases hr : acceptForest env rest sn with
              | none => simp [hr] at h
              | some tr =>
                  obtain ⟨rest1, okr, sr⟩ := tr
                  simp only [hr] at h
                  simp at h
                  obtain ⟨rfl, rfl, rfl⟩ := h
                  have hrres := acceptForest_no_syntax env rest sn rest1 okr sr hr
                    (hnres.2.trans hp) hnres.1
                  exact ⟨hrres.1, hrres.2.trans hnres.2⟩
end

mutual
/-- Outside prepare mode, a clean walk implies the subtree contains no
parameter marker: reaching a marker would set the syntax error. -/
theorem accept_success_no_marker (env : Env) (n : Node) :
    ∀ s n1 ok s1, accept env n s = some (n1, ok, s1) → s.err = none →
      s1.err = none → s.inPrepare = false → containsParamMarker n = false := by
  cases n with
  | nilExpr => intro s n1 ok s1 h hs hs1 hp; rfl
  | valueExpr d => intro s n1 ok s1 h hs hs1 hp; rfl
  | createTableStmt stmt => intro s n1 ok s1 h hs hs1 hp; rfl
  | createIndexStmt stmt => intro s n1 ok s1 h hs hs1 hp; rfl
  | alterTableStmt stmt => intro s n1 ok s1 h hs hs1 hp; rfl
  | paramMarkerExpr =>
      intro s n1 ok s1 h hs hs1 hp
      rw [accept] at h
      simp only [Enter, Leave] at h
      rw [if_pos (by simp [hp])] at h
      have h3 := (Option.some.injEq _ _).mp h
      injection h3 with ha hb
      injection hb with hb1 hb2
      subst hb2
      simp at hs1
  | aggregateFuncExpr args =>
      intro s n1 ok s1 h hs hs1 hp
      rw [accept] at h
      cases hA : s.inAggregate with
      | true =>
          simp [Enter, hA, Leave] at h
          obtain ⟨rfl, rfl, rfl⟩ := h
          simp at hs1
      | false =>
          cases hf : acceptForest env args { s with inAggregate := true } with
          | none => simp [Enter, hA, hf] at h
          | some tf =>
              obtain ⟨args1, okf, s2⟩ := tf
              cases okf with
              | false =>
                  simp [Enter, hA, hf] at h
                  obtain ⟨rfl, rfl, rfl⟩ := h
                  have hres := acceptForest_restore env args { s with inAggregate := true }
                    args1 false s2 hf (by simp [hs])
                  exact absurd (hres.1.mpr hs1) (by simp)
              | true =>
                  simp [Enter, hA, hf, Leave] at h
                  obtain ⟨rfl, rfl, rfl⟩ := h
                  have hs2 : s2.err = none := by simpa using hs1
                  have hsucc := acceptForest_success_no_marker env args
                    { s with inAggregate := true } args1 true s2 hf (by simp [hs]) hs2
                    (by simpa using hp)
                  simpa [containsParamMarker] using hsucc
  | other children =>
      intro s n1 ok s1 h hs hs1 hp
      rw [accept] at h
      cases hf : acceptForest env children s with
      | none => simp [Enter, hf] at h
      | some tf =>
          obtain ⟨ch1, okf, s2⟩ := tf
          cases okf with
          | false =>
              simp [Enter, hf] at h
              obtain ⟨rfl, rfl, rfl⟩ := h
              have hres := acceptForest_restore env children s ch1 false s2 hf hs
              exact absurd (hres.1.mpr hs1) (by simp)
          | true =>
              simp [Enter, hf, Leave] at h
              obtain ⟨rfl, rfl, rfl⟩ := h
              have hsucc := acceptForest_success_no_marker env children s ch1 true s2
                hf hs hs1 hp
              simpa [containsParamMarker] using hsucc
  | limit count offset =>
      intro s n1 ok s1 h hs hs1 hp
      rw [accept] at h
      simp only [Enter] at h
      cases hc : accept env count s with
      | none => rw [hc] at h; simp at h
      | some tc =>
          obtain ⟨c1, okc, s2⟩ := tc
          rw [hc] at h
          cases okc with
          | false =>
              simp at h
              obtain ⟨rfl, rfl, rfl⟩ := h
              have hres := accept_restore env count s c1 false s2 hc hs
              exact absurd (hres.1.mpr hs1) (by simp)
          | true =>
              have hres := accept_restore env count s c1 true s2 hc hs
              obtain ⟨hs2eq, _⟩ := hres.2 rfl
              subst hs2eq
              cases ho : accept env offset s2 with
              | none => simp [ho] at h
              | some to2 =>
                  obtain ⟨o1, oko, s3⟩ := to2
                  simp only [ho] at h
                  cases oko with
                  | false =>
                      simp at h
                      obtain ⟨rfl, rfl, rfl⟩ := h
                      have hres2 := accept_restore env offset s2 o1 false s3 ho hs
                      exact absurd (hres2.1.mpr hs1) (by simp)
                  | true =>
                      have hres2 := accept_restore env offset s2 o1 true s3 ho hs
                      obtain ⟨hs3eq, _⟩ := hres2.2 rfl
                      subst hs3eq
                      have hcsucc := accept_success_no_marker env count s3 c1 true s3
                        hc hs hs hp
                      have hosucc := accept_success_no_marker env offset s3 o1 true s3
                        ho hs hs hp
                      simp [containsParamMarker, hcsucc, hosucc]

/-- Forest version of `accept_success_no_marker`. -/
theorem acceptForest_success_no_marker (env : Env) (f : NodeForest) :
    ∀ s f1 ok s1, acceptForest env f s = some (f1, ok, s1) → s.err = none →
      s1.err = none → s.inPrepare = false → forestContainsParamMarker f = false := by
  cases f with
  | nil => intro s f1 ok s1 h hs hs1 hp; rfl
  | cons n rest =>
      intro s f1 ok s1 h hs hs1 hp
      rw [acceptForest] at h
      cases hn : accept env n s with
      | none => rw [hn] at h; simp at h
      | some tn =>
          obtain ⟨n2, okn, sn⟩ := tn
          rw [hn] at h
          cases okn with
          | false =>
              simp at h
              obtain ⟨rfl, rfl, rfl⟩ := h
              have hres := accept_restore env n s n2 false sn hn hs
              exact absurd (hres.1.mpr hs1) (by simp)
          | true =>
              have hres := accept_restore env n s n2 true sn hn hs
              obtain ⟨hsneq, _⟩ := hres.2 rfl
              subst hsneq
              cases hr : acceptForest env rest sn with
              | none => simp [hr] at h
              | some tr =>
                  obtain ⟨rest1, okr, sr⟩ := tr
                  simp only [hr] at h
                  simp at h
                  obtain ⟨rfl, rfl, rfl⟩ := h
                  have hres2 := acceptForest_restore env rest sn rest1 okr sr hr hs
                  have hokr : okr = true := hres2.1.mpr hs1
                  subst hokr
                  obtain ⟨hsreq, _⟩ := hres2.2 rfl
                  subst hsreq
                  have hnsucc := accept_success_no_marker env n sr n2 true sr hn hs hs hp
                  have hrsucc := acceptForest_success_no_marker env rest sr rest1 true sr
                    hr hs hs hp
                  simp [forestContainsParamMarker, hnsucc, hrsucc]
end

def c9Cex : Node :=
  .other (.cons (.aggregateFuncExpr (.cons (.aggregateFuncExpr .nil) .nil))
    (.cons .paramMarkerExpr .nil))

/-- C9, counterexample: a tree containing a parameter marker, validated
outside prepare mode, that does NOT return the syntax error: a nested
aggregate visited earlier aborts the walk with the aggregate-nesting
error, and the marker is never reached. -/
theorem C9_counterexample :
    containsParamMarker c9Cex = true ∧
    Validate envStd c9Cex false = some (some .invalidGroupFuncUse, c9Cex) ∧
    Err.invalidGroupFuncUse ≠ Err.syntaxErrUnexpectedParamMarker := by
  refine ⟨by rfl, by rfl, by intro hx; cases hx⟩

/-- **C9** (amended): (1) outside prepare mode a tree containing a
parameter marker never validates successfully (though the error returned
may be one produced earlier in the traversal rather than the marker's
syntax error); (2) in prepare mode Validate never returns the
unexpected-parameter-marker syntax error; (3) a bare parameter marker
outside prepare mode yields exactly that syntax error. -/
theorem C9_theorem :
    (∀ (env : Env) (t : Node) (r : Option Err × Node),
      containsParamMarker t = true → Validate env t false = some r → r.1 ≠ none) ∧
    (∀ (env : Env) (t : Node) (r : Option Err × Node),
      Validate env t true = some r → r.1 ≠ some .syntaxErrUnexpectedParamMarker) ∧
    (∀ env : Env, Validate env .paramMarkerExpr false =
      some (some .syntaxErrUnexpectedParamMarker, .paramMarkerExpr)) := by
  refine ⟨?_, ?_, fun env => by rfl⟩
  · intro env t r hmark hv
    rw [Validate] at hv
    cases ha : accept env t
        { err := none, wildCardCount := 0, inPrepare := false, inAggregate := false } with
    | none => rw [ha] at hv; simp at hv
    | some tr =>
        obtain ⟨n1, ok, s1⟩ := tr
        rw [ha] at hv
        simp at hv
        obtain ⟨rfl, rfl⟩ := hv
        intro hbad
        have hserr : s1.err = none := hbad
        have hsucc := accept_success_no_marker env t
          { err := none, wildCardCount := 0, inPrepare := false, inAggregate := false }
          n1 ok s1 ha rfl hserr rfl
        rw [hmark] at hsucc
        cases hsucc
  · intro env t r hv
    rw [Validate] at hv
    cases ha : accept env t
        { err := none, wildCardCount := 0, inPrepare := true, inAggregate := false } with
    | none => rw [ha] at hv; simp at hv
    | some tr =>
        obtain ⟨n1, ok, s1⟩ := tr
        rw [ha] at hv
        simp at hv
        obtain ⟨rfl, rfl⟩ := hv
        intro hbad
        have hinv := accept_no_syntax env t
          { err := none, wildCardCount := 0, inPrepare := true, inAggregate := false }
          n1 ok s1 ha rfl (by simp)
        exact hinv.1 hbad

theorem C9_witness :
    ((some Err.syntaxErrUnexpectedParamMarker : Option Err),
      Node.other (.cons .paramMarkerExpr .nil)).1 ≠ none ∧
    ((none : Option Err), Node.paramMarkerExpr).1 ≠
      some .syntaxErrUnexpectedParamMarker ∧
    Validate envStd .paramMarkerExpr false =
      some (some .syntaxErrUnexpectedParamMarker, .paramMarkerExpr) := by
  refine ⟨?_, ?_, C9_theorem.2.2 envStd⟩
  · exact C9_theorem.1 envStd (.other (.cons .paramMarkerExpr .nil))
      (some .syntaxErrUnexpectedParamMarker, .other (.cons .paramMarkerExpr .nil))
      (by rfl) (by rfl)
  · exact C9_theorem.2.1 envStd .paramMarkerExpr (none, .paramMarkerExpr) (by rfl)

/-! ### The key-eligibility scan and empty constraint key lists -/

def cDef10 : ColumnDef :=
  { name := { name := { o := "c", l := "c" } },
    tp := some { tp := mysql.TypeLong, flen := -1, charset := "", elems := [] },
    options := [{ tp := .autoIncrement, expr := .other }] }

def c10Stmt : CreateTableData :=
  { table := some { name := { o := "t", l := "t" } },
    cols := [cDef10],
    constraints := [{ tp := .primaryKey, keys := [{ column := { name := { o := "c", l := "c" } } }] },
                    { tp := .key, keys := [] }],
    options := [] }

/-- C10, counterexample: a CreateTable with a non-key auto-increment
column and a constraint whose key list is empty, for which the
key-eligibility scan nevertheless completes: an earlier constraint names
the column with a key-type, so the scan returns early with `true` and the
empty key list is never indexed.  "For any such statement containing a
constraint whose key list is empty, the index access is out of bounds" is
therefore false as stated. -/
theorem C10_counterexample :
    (∃ c0 ∈ c10Stmt.constraints, c0.keys = []) ∧
    colHasAutoIncrement cDef10 = true ∧
    (∀ op ∈ cDef10.options, op.tp ≠ .primaryKey ∧ op.tp ≠ .uniqKey) ∧
    isConstraintKeyTp c10Stmt.constraints cDef10 = some true ∧
    checkAutoIncrement c10Stmt = some none := by
  refine ⟨by decide, by rfl, by decide, by rfl, by rfl⟩

/-- **C10** (amended): the scan reads each constraint's first key behind
an empty-bodied length guard, so (1) in the presence of a constraint with
an empty key list the scan either panics (`none` in this total embedding)
or returns early with `true` — it can never complete normally with
`false`; (2) a constraint with an empty key list at the head makes the
scan panic at once; (3) when the column scan finishes with `isKey` still
false, at least one auto-increment column, and a constraint scan that
panics, `checkAutoIncrement` — and hence the whole validation — panics. -/
theorem C10_theorem :
    (∀ (cons : List Constraint) (colDef : ColumnDef),
      (∃ c0 ∈ cons, c0.keys = []) →
      isConstraintKeyTp cons colDef = none ∨
        isConstraintKeyTp cons colDef = some true) ∧
    (∀ (c : Constraint) (cons : List Constraint) (colDef : ColumnDef),
      c.keys = [] → isConstraintKeyTp (c :: cons) colDef = none) ∧
    (∀ (stmt : CreateTableData) (cnt : Nat) (col : ColumnDef),
      autoIncColsScan stmt.cols false 0 none = .ok (false, cnt, some col) →
      1 ≤ cnt → isConstraintKeyTp stmt.constraints col = none →
      checkAutoIncrement stmt = none) := by
  refine ⟨?_, ?_, ?_⟩
  · intro cons colDef hex
    induction cons with
    | nil =>
        obtain ⟨c0, hmem, _⟩ := hex
        simp at hmem
    | cons c rest ih =>
        obtain ⟨c0, hmem, hc0⟩ := hex
        cases hk : c.keys.get? 0 with
        | none =>
            rw [isConstraintKeyTp, hk]
            exact Or.inl rfl
        | some k0 =>
            have hrest : ∃ c0 ∈ rest, c0.keys = [] := by
              cases List.mem_cons.mp hmem with
              | inl heq =>
                  subst heq
                  rw [hc0] at hk
                  simp at hk
              | inr hmem2 => exact ⟨c0, hmem2, hc0⟩
            have hred : isConstraintKeyTp (c :: rest) colDef =
                (if colDef.name.name.l ≠ k0.column.name.l then
                  isConstraintKeyTp rest colDef
                 else match c.tp with
                   | .primaryKey | .key | .index | .uniq | .uniqIndex | .uniqKey =>
                      some true
                   | _ => isConstraintKeyTp rest colDef) := by
              rw [isConstraintKeyTp, hk]
            rw [hred]
            by_cases hname : colDef.name.name.l ≠ k0.column.name.l
            · rw [if_pos hname]
              exact ih hrest
            · rw [if_neg hname]
              cases htp : c.tp
              all_goals first
                | exact Or.inr rfl
                | exact ih hrest
  · intro c cons colDef hkeys
    rw [isConstraintKeyTp, hkeys]
    rfl
  · intro stmt cnt col hscan hcnt hik
    rw [checkAutoIncrement, hscan]
    have h1 : ¬ cnt < 1 := by omega
    simp [h1, hik]

def c10Pan : CreateTableData :=
  { table := some { name := { o := "t", l := "t" } },
    cols := [cDef10],
    constraints := [{ tp := .key, keys := [] }],
    options := [] }

theorem C10_witness :
    (isConstraintKeyTp c10Pan.constraints cDef10 = none ∨
      isConstraintKeyTp c10Pan.constraints cDef10 = some true) ∧
    isConstraintKeyTp ({ tp := .key, keys := [] } :: []) cDef10 = none ∧
    checkAutoIncrement c10Pan = none := by
  refine ⟨?_, ?_, ?_⟩
  · exact C10_theorem.1 c10Pan.constraints cDef10 (by decide)
  · exact C10_theorem.2.1 { tp := .key, keys := [] } [] cDef10 (by rfl)
  · exact C10_theorem.2.2 c10Pan 1 cDef10 (by rfl) (by decide) (by rfl)
